import Mathlib

/-!
Verification development for the Automata repository (Final.cpp, chessNot.cpp).

The repository builds Thompson-style NFAs from combinators, converts them to
DFAs via memoized subset construction with epsilon-closure, tokenizes input
with longest-match DFA scanning, and validates token streams with explicit
state machines (an expression PDA and a chess move-sequence validator).

States are modelled as an arena (list indexed by integer id), mirroring the
C++ `shared_ptr<State>` graphs: every state is allocated by `createState`,
and combinators mutate states in the arena exactly as the C++ methods mutate
the pointed-to `State` objects.  The reserved epsilon sentinel is the
character `'\0'`, as in the source.
-/

namespace Automata

/-- The epsilon sentinel `'\0'` used by the source for epsilon transitions. -/
def epsChar : Char := '\x00'

/-- An NFA state: transition edges (symbol, successor id) in insertion order,
and the accepting flag.  Mirrors `struct State` (the C++
`map<char, vector<shared_ptr<State>>>` of a state holds, per symbol, the
ordered successors; here the same information is an edge list). -/
structure NState where
  trans : List (Char × Nat)
  isFinal : Bool
deriving DecidableEq

/-- The default (never observed) state used for out-of-range reads. -/
def blankState : NState := ⟨[], false⟩

/-- The state arena owned by an NFA builder (`Lexer` / `ChessNFA`): state ids
are positions in the list, `stateCounter` is the list length. -/
structure Builder where
  states : List NState
deriving DecidableEq

/-- The empty builder (`stateCounter = 0`). -/
def emptyBuilder : Builder := ⟨[]⟩

def Builder.size (b : Builder) : Nat := b.states.length

def Builder.get (b : Builder) (q : Nat) : NState := b.states.getD q blankState

/-- Mirrors `createState()`: allocate a fresh non-final state with no
transitions and return its id (`stateCounter++`). -/
def createState (b : Builder) : Builder × Nat :=
  (⟨b.states ++ [blankState]⟩, b.states.length)

/-- Mirrors `state->transitions[c].push_back(t)`. -/
def addTrans (b : Builder) (q : Nat) (c : Char) (t : Nat) : Builder :=
  ⟨b.states.set q { b.get q with trans := (b.get q).trans ++ [(c, t)] }⟩

/-- Mirrors `state->isFinal = v`. -/
def setFinal (b : Builder) (q : Nat) (v : Bool) : Builder :=
  ⟨b.states.set q { b.get q with isFinal := v }⟩

/-- An NFA fragment `(start, end)`, mirroring `struct NFAPtr`. -/
structure NFAPtr where
  start : Nat
  stop : Nat
deriving DecidableEq

/-- Successors of state `q` on symbol `c` (the vector `transitions[c]`). -/
def succsOn (b : Builder) (q : Nat) (c : Char) : List Nat :=
  ((b.get q).trans.filter (fun e => e.1 = c)).map (·.2)

/-- Epsilon successors of `q` (the vector `transitions['\0']`). -/
def epsSuccs (b : Builder) (q : Nat) : List Nat := succsOn b q epsChar

/-- All successors of `q` over every symbol (used by `collectAlphabet`'s
graph traversal). -/
def allSuccs (b : Builder) (q : Nat) : List Nat := (b.get q).trans.map (·.2)

/-- Character-class scan errors: the two exceptions thrown by
`parseCharacterClass` ("Invalid character class format" and
"Invalid character range"). -/
inductive CCErr where
  | formatError
  | rangeError
deriving DecidableEq

/-- The inclusive character range `x..y` expanded by
`for (char c = start; c <= end; c++)`. -/
def charRange (x y : Char) : List Char :=
  (List.range (y.toNat + 1 - x.toNat)).map (fun k => Char.ofNat (x.toNat + k))

/-- The left-to-right scan of a character-class body: a three-character
window `x-y` (requiring `i + 2 < content.length()`, i.e. at least three
characters remain) is an inclusive range, expanded only when `x <= y` and
otherwise a "Invalid character range" error; every other character is a
literal member.  Mirrors the `while (i < content.length())` loop shared by
`Lexer::parseCharacterClass` and `ChessNFA::parseCharacterClass`. -/
def scanClass : List Char → Except CCErr (Finset Char)
  | x :: '-' :: y :: rest =>
    if x > y then .error .rangeError
    else do
      let s ← scanClass rest
      pure (s ∪ (charRange x y).toFinset)
  | c :: rest => do
    let s ← scanClass rest
    pure (insert c s)
  | [] => pure ∅

/-- Whether `s` has the exact bracket form `'[' + content + ']'`; its
negation is the condition
`charClass.empty() || charClass[0] != '[' || charClass.back() != ']'`. -/
def bracketForm (s : String) : Bool :=
  !s.isEmpty && s.front = '[' && s.back = ']'

/-- The content between the outer brackets (`substr(1, length - 2)`). -/
def classContent (s : String) : List Char := (s.toList.drop 1).dropLast

/-- Insert into a sorted duplicate-free list, keeping it sorted and
duplicate-free. -/
def insSorted {α : Type} [LinearOrder α] (x : α) : List α → List α
  | [] => [x]
  | y :: ys => if x < y then x :: y :: ys else if x = y then y :: ys else y :: insSorted x ys

theorem mem_insSorted {α : Type} [LinearOrder α] (x a : α) :
    ∀ l : List α, a ∈ insSorted x l ↔ a = x ∨ a ∈ l := by
  intro l
  induction l with
  | nil => simp [insSorted]
  | cons y ys ih =>
    rw [insSorted]
    split_ifs with h1 h2
    · simp
    · subst h2
      simp
    · rw [List.mem_cons, List.mem_cons, ih]
      tauto

theorem sorted_insSorted {α : Type} [LinearOrder α] (x : α) :
    ∀ l : List α, l.Sorted (· < ·) → (insSorted x l).Sorted (· < ·) := by
  intro l
  induction l with
  | nil => intro _; simp [insSorted]
  | cons y ys ih =>
    intro hs
    rcases List.sorted_cons.mp hs with ⟨hy, hys⟩
    rw [insSorted]
    split_ifs with h1 h2
    · refine List.sorted_cons.mpr ⟨?_, hs⟩
      intro b hb
      rcases List.mem_cons.mp hb with rfl | hb
      · exact h1
      · exact lt_trans h1 (hy b hb)
    · exact hs
    · refine List.sorted_cons.mpr ⟨?_, ih hys⟩
      intro b hb
      rcases (mem_insSorted x b ys).mp hb with rfl | hb
      · exact lt_of_le_of_ne (not_lt.mp h1) (fun hyx => h2 hyx.symm)
      · exact hy b hb

/-- Produce the sorted duplicate-free list of a list's members. -/
def sortedOf {α : Type} [LinearOrder α] (l : List α) : List α := l.foldr insSorted []

theorem sortedOf_sorted {α : Type} [LinearOrder α] (l : List α) :
    (sortedOf l).Sorted (· < ·) := by
  induction l with
  | nil => simp [sortedOf]
  | cons x xs ih => exact sorted_insSorted x _ ih

theorem mem_sortedOf {α : Type} [LinearOrder α] (a : α) (l : List α) :
    a ∈ sortedOf l ↔ a ∈ l := by
  induction l with
  | nil => simp [sortedOf]
  | cons x xs ih => rw [sortedOf, List.foldr_cons, mem_insSorted]; simp [← ih]; rfl

/-- The members of a finite set in ascending order: the order in which the
C++ `std::set` containers (`set<char>`, `set<shared_ptr<State>>`,
`map` keys) iterate their elements.  Unlike `Finset.sort` this reduces
inside the kernel, since `insSorted` is structurally recursive. -/
def ascList {α : Type} [LinearOrder α] (S : Finset α) : List α :=
  Quot.liftOn S.val sortedOf (by
    intro l1 l2 h12
    have h : List.Perm l1 l2 := h12
    refine List.eq_of_perm_of_sorted ?_ (sortedOf_sorted l1) (sortedOf_sorted l2)
    refine (List.perm_ext_iff_of_nodup (sortedOf_sorted l1).nodup (sortedOf_sorted l2).nodup).mpr ?_
    intro a
    rw [mem_sortedOf, mem_sortedOf]
    exact ⟨fun ha => h.mem_iff.mp ha, fun ha => h.mem_iff.mpr ha⟩)

theorem mem_ascList {α : Type} [LinearOrder α] (a : α) (S : Finset α) :
    a ∈ ascList S ↔ a ∈ S := by
  rcases S with ⟨val, nd⟩
  rcases val with ⟨l⟩
  exact (mem_sortedOf a l).trans Iff.rfl

theorem ascList_sorted {α : Type} [LinearOrder α] (S : Finset α) :
    (ascList S).Sorted (· < ·) := by
  rcases S with ⟨val, nd⟩
  rcases val with ⟨l⟩
  exact sortedOf_sorted l

theorem ascList_nodup {α : Type} [LinearOrder α] (S : Finset α) :
    (ascList S).Nodup := (ascList_sorted S).nodup

end Automata

deriving instance DecidableEq for Except

namespace Lexer

open Automata

/-- Mirrors `Lexer::parseCharacterClass` of Final.cpp: a missing outer
bracket throws `invalid_argument("Invalid character class format")`;
a descending range throws `invalid_argument("Invalid character range")`;
otherwise the parsed member set is produced. -/
def parseCharacterClass (s : String) : Except CCErr (Finset Char) :=
  if bracketForm s then scanClass (classContent s) else .error .formatError

/-- Mirrors `Lexer::createCharNFA`: two fresh states and one transition on
`c`.  Note that Final.cpp does not mark the end state accepting here. -/
def createCharNFA (b : Builder) (c : Char) : Builder × NFAPtr :=
  let (b1, s) := createState b
  let (b2, e) := createState b1
  (addTrans b2 s c e, ⟨s, e⟩)

/-- Mirrors `Lexer::createCharClassNFA`: two fresh states, then one
transition per parsed member character into the same end state (the C++
`set<char>` iterates its members in ascending order); a parse exception
propagates.  Final.cpp does not mark the end state accepting. -/
def createCharClassNFA (b : Builder) (cls : String) : Except CCErr (Builder × NFAPtr) :=
  let (b1, s) := createState b
  let (b2, e) := createState b1
  match parseCharacterClass cls with
  | .error err => .error err
  | .ok validChars =>
    .ok ((ascList validChars).foldl (fun bb c => addTrans bb s c e) b2, ⟨s, e⟩)

end Lexer

namespace Automata

/-- Mirrors `concatenate` (identical in Final.cpp and chessNot.cpp):
epsilon edge from `a.end` to `b.start`, clear `a.end`'s accepting flag,
return `(a.start, b.end)`. -/
def concatenate (b : Builder) (a c : NFAPtr) : Builder × NFAPtr :=
  let b1 := addTrans b a.stop epsChar c.start
  let b2 := setFinal b1 a.stop false
  (b2, ⟨a.start, c.stop⟩)

/-- Mirrors `unionNFA` (identical in Final.cpp and chessNot.cpp). -/
def unionNFA (b : Builder) (a c : NFAPtr) : Builder × NFAPtr :=
  let (b1, s) := createState b
  let (b2, e) := createState b1
  let b3 := addTrans b2 s epsChar a.start
  let b4 := addTrans b3 s epsChar c.start
  let b5 := addTrans b4 a.stop epsChar e
  let b6 := addTrans b5 c.stop epsChar e
  let b7 := setFinal b6 a.stop false
  let b8 := setFinal b7 c.stop false
  let b9 := setFinal b8 e true
  (b9, ⟨s, e⟩)

/-- Mirrors `kleeneStar` (identical in Final.cpp and chessNot.cpp). -/
def kleeneStar (b : Builder) (a : NFAPtr) : Builder × NFAPtr :=
  let (b1, s) := createState b
  let (b2, e) := createState b1
  let b3 := addTrans b2 s epsChar a.start
  let b4 := addTrans b3 s epsChar e
  let b5 := addTrans b4 a.stop epsChar a.start
  let b6 := addTrans b5 a.stop epsChar e
  let b7 := setFinal b6 a.stop false
  let b8 := setFinal b7 e true
  (b8, ⟨s, e⟩)

/-- Mirrors `oneOrMore(a) = concatenate(a, kleeneStar(a))` (identical in
both files; the fragment `a` is deliberately shared, as in the source). -/
def oneOrMore (b : Builder) (a : NFAPtr) : Builder × NFAPtr :=
  let (b1, st) := kleeneStar b a
  concatenate b1 a st

/-- Mirrors `Lexer::zeroOrOne` of Final.cpp. -/
def zeroOrOne (b : Builder) (a : NFAPtr) : Builder × NFAPtr :=
  let (b1, s) := createState b
  let (b2, e) := createState b1
  let b3 := addTrans b2 s epsChar a.start
  let b4 := addTrans b3 s epsChar e
  let b5 := addTrans b4 a.stop epsChar e
  let b6 := setFinal b5 a.stop false
  let b7 := setFinal b6 e true
  (b7, ⟨s, e⟩)

/-- One saturation step: add every `f`-successor of every member.  Used to
render the worklist traversals of `epsilonClosure` and `collectAlphabet`
(which compute exactly the least `f`-closed superset of the seed, by the
visited-set discipline) as a bounded fixpoint iteration. -/
def satStep (f : Nat → List Nat) (S : Finset Nat) : Finset Nat :=
  S ∪ S.biUnion (fun q => (f q).toFinset)

/-- Iterate `satStep` until it stabilizes, up to `k` rounds.  With
`k = number of states + 1` the result is the least `f`-closed superset of
the seed, i.e. exactly what the worklist computes. -/
def saturate (f : Nat → List Nat) : Nat → Finset Nat → Finset Nat
  | 0, S => S
  | k + 1, S =>
    let S' := satStep f S
    if S' = S then S else saturate f k S'

/-- Mirrors `epsilonClosure` (identical in Final.cpp and chessNot.cpp): the
least superset of `S` closed under epsilon transitions. -/
def eclosure (b : Builder) (S : Finset Nat) : Finset Nat :=
  saturate (epsSuccs b) (b.size + 1) S

/-- The set of states reachable from `q` by following transitions (epsilon
included), i.e. the visited set of the `collectAlphabet` traversal. -/
def reachSet (b : Builder) (q : Nat) : Finset Nat :=
  saturate (allSuccs b) (b.size + 1) {q}

/-- The non-epsilon symbols on the outgoing edges of `q` (the symbols
`collectAlphabet` inserts while visiting `q`). -/
def stateSyms (b : Builder) (q : Nat) : List Char :=
  ((b.get q).trans.map (·.1)).filter (fun c => c ≠ epsChar)

/-- Mirrors `getAlphabet`/`collectAlphabet`: every non-epsilon symbol on a
transition of a state reachable from the fragment's start state. -/
def alphabetOf (b : Builder) (q : Nat) : Finset Char :=
  (reachSet b q).biUnion (fun p => (stateSyms b p).toFinset)

/-- The union of the direct successors of members of `S` via symbol `c`
(the `nextNFAStates` set of `convertToDFA`). -/
def moveSet (b : Builder) (S : Finset Nat) (c : Char) : Finset Nat :=
  S.biUnion (fun q => (succsOn b q c).toFinset)

/-- Whether a DFA state (a set of NFA states) is accepting: true iff some
member is accepting, exactly how `convertToDFA` sets `isFinal` of each
`DFAState` it creates. -/
def finalSet (b : Builder) (S : Finset Nat) : Bool :=
  (ascList S).any (fun q => (b.get q).isFinal)

/-- The mutable state of the subset-construction loop in `convertToDFA`:
`memo` is the `dfaStateMap` (in discovery order, each set paired with the
id `dfaStateCounter` assigned to it), `table` the recorded transitions
`currentDFA->transitions[c] = dfaStateMap[nextClosure]` keyed by the source
set and symbol, `work` the `unprocessed` stack (head = top), and `counter`
the value of `dfaStateCounter`. -/
structure BuildSt where
  memo : List (Finset Nat × Nat)
  table : List ((Finset Nat × Char) × Finset Nat)
  work : List (Finset Nat)
  counter : Nat
deriving DecidableEq

/-- The sets registered in the memo map. -/
def memoSets (σ : BuildSt) : List (Finset Nat) := σ.memo.map (·.1)

/-- The body of `for (char c : alphabet)` in `convertToDFA`, processing one
symbol for the DFA state `S` currently popped from the stack: skip `'\0'`
and empty successor unions; otherwise compute the epsilon-closure, register
it (and push it) when new, and record the transition. -/
def procChar (b : Builder) (S : Finset Nat) (σ : BuildSt) (c : Char) : BuildSt :=
  if c = epsChar then σ
  else
    let nxt := moveSet b S c
    if nxt = ∅ then σ
    else
      let T := eclosure b nxt
      let σ1 :=
        if T ∈ memoSets σ then σ
        else ⟨σ.memo ++ [(T, σ.counter)], σ.table, T :: σ.work, σ.counter + 1⟩
      ⟨σ1.memo, σ1.table ++ [((S, c), T)], σ1.work, σ1.counter⟩

/-- Process every alphabet symbol for one popped DFA state. -/
def processState (b : Builder) (alpha : List Char) (S : Finset Nat) (σ : BuildSt) : BuildSt :=
  alpha.foldl (procChar b S) σ

/-- The `while (!unprocessed.empty())` loop of `convertToDFA`, with explicit
fuel (the loop terminates because at most `2 ^ size` distinct sets can ever
be registered; `convFuel` below is enough fuel for that bound). -/
def buildLoop (b : Builder) (alpha : List Char) : Nat → BuildSt → BuildSt
  | 0, σ => σ
  | fuel + 1, σ =>
    match σ.work with
    | [] => σ
    | S :: rest => buildLoop b alpha fuel (processState b alpha S ⟨σ.memo, σ.table, rest, σ.counter⟩)

/-- Fuel sufficient to drain the subset-construction worklist. -/
def convFuel (b : Builder) : Nat := 2 * 2 ^ b.size + 2

/-- The result of subset construction: the builder snapshot the DFA was
compiled against (the C++ `DFAState` objects cache `isFinal` flags computed
from this snapshot), the memo map, the transition table and the start
state's epsilon-closure. -/
structure DFA where
  bld : Builder
  memo : List (Finset Nat × Nat)
  table : List ((Finset Nat × Char) × Finset Nat)
  counter : Nat
  startS : Finset Nat
deriving DecidableEq

/-- Mirrors `convertToDFA` (identical in Final.cpp and chessNot.cpp):
compute the alphabet by graph traversal, seed the memo with the closure of
`{start}` as DFA state 0, then repeatedly pop a DFA state and process every
alphabet symbol (the C++ `set<char>` iterates in ascending order). -/
def convertToDFA (b : Builder) (nfa : NFAPtr) : DFA :=
  let alpha := ascList (alphabetOf b nfa.start)
  let s0 := eclosure b {nfa.start}
  let σ := buildLoop b alpha (convFuel b) ⟨[(s0, 0)], [], [s0], 1⟩
  ⟨b, σ.memo, σ.table, σ.counter, s0⟩

/-- The DFA transition on `(S, c)`: the recorded successor set, if any
(mirrors `transitions.count(c)` / `transitions[c]` on a `DFAState`). -/
def dfaLookup (d : DFA) (S : Finset Nat) (c : Char) : Option (Finset Nat) :=
  (d.table.find? (fun e => decide (e.1 = (S, c)))).map (·.2)

/-- Run the DFA from the state `S` over a string; `none` when a transition
is missing. -/
def dfaRunFrom (d : DFA) : Finset Nat → List Char → Option (Finset Nat)
  | S, [] => some S
  | S, c :: cs =>
    match dfaLookup d S c with
    | none => none
    | some T => dfaRunFrom d T cs

/-- Whole-string DFA acceptance: the run consumes the entire string and
ends in an accepting DFA state. -/
def dfaAccepts (d : DFA) (s : List Char) : Bool :=
  match dfaRunFrom d d.startS s with
  | some S => finalSet d.bld S
  | none => false

/-- One step of the NFA subset simulation: direct successors then
epsilon-closure. -/
def nfaStep (b : Builder) (S : Finset Nat) (c : Char) : Finset Nat :=
  eclosure b (moveSet b S c)

/-- The subset simulation from an arbitrary set of states. -/
def nfaFrom (b : Builder) (S : Finset Nat) (s : List Char) : Finset Nat :=
  s.foldl (nfaStep b) S

/-- Modelled from the spec: "the original NFA (simulated via the closure
algorithm)" — the source has no direct NFA simulator, so this is the
standard epsilon-closure subset simulation the spec describes: start from
the closure of the start state; for each input character take the closure
of the union of direct successors. -/
def nfaSimSet (b : Builder) (q : Nat) (s : List Char) : Finset Nat :=
  nfaFrom b (eclosure b {q}) s

/-- Modelled from the spec: NFA acceptance via the closure simulation — the
final simulated set contains an accepting state. -/
def nfaAccepts (b : Builder) (q : Nat) (s : List Char) : Bool :=
  finalSet b (nfaSimSet b q s)

end Automata

namespace Lexer

open Automata

/-- Token types of the arithmetic lexer (Final.cpp `enum class TokenType`). -/
inductive TokenType where
  | IDENTIFIER
  | NUMBER
  | OPERATOR
  | LPAREN
  | RPAREN
  | ASSIGN
  | END_OF_INPUT
  | INVALID
deriving DecidableEq

/-- Mirrors `struct Token`: kind, literal text and source offset (the C++
`position` is an `int`; the PDA's synthetic end token uses `-1`). -/
structure Token where
  type : TokenType
  value : List Char
  position : Int
deriving DecidableEq

/-- Mirrors `Lexer::createIdentifierNFA`: pattern `[a-zA-Z_][a-zA-Z0-9_]*`. -/
def createIdentifierNFA (b : Builder) : Except CCErr (Builder × NFAPtr) := do
  let (b1, firstChar) ← createCharClassNFA b "[a-zA-Z_]"
  let (b2, subsequentChars) ← createCharClassNFA b1 "[a-zA-Z0-9_]"
  let (b3, zeroOrMoreSubsequent) := kleeneStar b2 subsequentChars
  let (b4, identifier) := concatenate b3 firstChar zeroOrMoreSubsequent
  .ok (b4, identifier)

/-- Mirrors `Lexer::createNumberNFA`: pattern `[0-9]+(\.[0-9]+)?`. -/
def createNumberNFA (b : Builder) : Except CCErr (Builder × NFAPtr) := do
  let (b1, integerPart) ← createCharClassNFA b "[0-9]"
  let (b2, oneOrMoreDigits) := oneOrMore b1 integerPart
  let (b3, dot) := createCharNFA b2 '.'
  let (b4, decimalDigits) ← createCharClassNFA b3 "[0-9]"
  let (b5, oneOrMoreDecimal) := oneOrMore b4 decimalDigits
  let (b6, decimalPart) := concatenate b5 dot oneOrMoreDecimal
  let (b7, optionalDecimal) := zeroOrOne b6 decimalPart
  let (b8, number) := concatenate b7 oneOrMoreDigits optionalDecimal
  .ok (b8, number)

/-- The two compiled token DFAs of the arithmetic lexer. -/
structure LexerData where
  identifierDFA : DFA
  numberDFA : DFA
deriving DecidableEq

/-- Mirrors `Lexer::initializeTokenDFAs`: build the identifier NFA on the
lexer's arena and convert it (against the arena at that point), then build
the number NFA on the same arena and convert it. -/
def mkLexer : Except CCErr LexerData := do
  let (b1, identifierNFA) ← createIdentifierNFA emptyBuilder
  let identifierDFA := convertToDFA b1 identifierNFA
  let (b2, numberNFA) ← createNumberNFA b1
  let numberDFA := convertToDFA b2 numberNFA
  .ok ⟨identifierDFA, numberDFA⟩

/-- Mirrors `Lexer::initializeSingleCharTokens` (insertion into the
`map<char, TokenType>`). -/
def singleCharTokens : List (Char × TokenType) :=
  [('+', .OPERATOR), ('-', .OPERATOR), ('*', .OPERATOR), ('/', .OPERATOR),
   ('=', .ASSIGN), ('(', .LPAREN), (')', .RPAREN)]

/-- Lookup in the single-character token map
(`singleCharTokens.count(c)` / `singleCharTokens[c]`). -/
def singleCharLookup (c : Char) : Option TokenType :=
  (singleCharTokens.find? (fun e => decide (e.1 = c))).map (·.2)

/-- The simulation loop of `tryMatchDFA` over the remaining input: follow
the current DFA state's transition for each successive character, keeping
the furthest prefix at which the DFA was in an accepting state; `acc` is
the prefix consumed so far and `best` the last accepted `matchedValue`. -/
def matchFrom (d : DFA) (S : Finset Nat) (acc : List Char) (best : Option (List Char)) :
    List Char → Option (List Char)
  | [] => best
  | c :: cs =>
    match dfaLookup d S c with
    | none => best
    | some T =>
      matchFrom d T (acc ++ [c]) (if finalSet d.bld T then some (acc ++ [c]) else best) cs

/-- Mirrors `Lexer::tryMatchDFA`: `rest` is the input suffix starting at
`startPos`; returns the token of kind `ty` for the longest accepted prefix,
or an INVALID token with empty text when no prefix was accepted
(`lastAcceptPos == -1`). -/
def tryMatchDFA (d : DFA) (rest : List Char) (startPos : Int) (ty : TokenType) : Token :=
  match matchFrom d d.startS [] none rest with
  | some m => ⟨ty, m, startPos⟩
  | none => ⟨.INVALID, [], startPos⟩

/-- The C `isspace` predicate on the ASCII whitespace characters. -/
def isSpaceC (c : Char) : Bool :=
  c == ' ' || c == '\t' || c == '\n' || c == '\x0b' || c == '\x0c' || c == '\r'

/-- Mirrors `Lexer::getNextToken` on the input suffix `rest` starting at
`startPos`: single-character tokens first, then the identifier DFA, then
the number DFA, otherwise an INVALID token carrying the one character. -/
def getNextToken (ld : LexerData) (rest : List Char) (startPos : Int) : Token :=
  let firstChar := rest.headD epsChar
  match singleCharLookup firstChar with
  | some ty => ⟨ty, [firstChar], startPos⟩
  | none =>
    let identifierToken := tryMatchDFA ld.identifierDFA rest startPos .IDENTIFIER
    if identifierToken.type ≠ .INVALID then identifierToken
    else
      let numberToken := tryMatchDFA ld.numberDFA rest startPos .NUMBER
      if numberToken.type ≠ .INVALID then numberToken
      else ⟨.INVALID, [firstChar], startPos⟩

/-- Every token `getNextToken` returns on a nonempty suffix carries at
least one character: single-character and INVALID tokens carry exactly one,
and a DFA match records `matchedValue` only after consuming a character. -/
theorem matchFrom_len (d : DFA) :
    ∀ (rest : List Char) (S : Finset Nat) (acc : List Char) (best : Option (List Char)),
      (∀ m, best = some m → 1 ≤ m.length) →
      ∀ m, matchFrom d S acc best rest = some m → 1 ≤ m.length := by
  intro rest
  induction rest with
  | nil => intro S acc best h m hm; exact h m hm
  | cons c cs ih =>
    intro S acc best h m hm
    rw [matchFrom] at hm
    cases hfind : dfaLookup d S c with
    | none => rw [hfind] at hm; exact h m hm
    | some T =>
      rw [hfind] at hm
      refine ih T (acc ++ [c]) _ ?_ m hm
      intro m' hm'
      by_cases hf : finalSet d.bld T = true
      · simp [hf] at hm'
        subst hm'
        simp
      · simp [hf] at hm'
        exact h m' hm'

theorem getNextToken_len (ld : LexerData) (rest : List Char) (p : Int) :
    1 ≤ (getNextToken ld rest p).value.length := by
  rw [getNextToken]
  cases hsc : singleCharLookup (rest.headD Automata.epsChar) with
  | some ty => simp
  | none =>
    simp only
    by_cases h1 : (tryMatchDFA ld.identifierDFA rest p .IDENTIFIER).type = TokenType.INVALID
    · rw [if_neg (by simp [h1])]
      by_cases h2 : (tryMatchDFA ld.numberDFA rest p .NUMBER).type = TokenType.INVALID
      · rw [if_neg (by simp [h2])]
        simp
      · rw [if_pos h2]
        rw [tryMatchDFA]
        cases hm : matchFrom ld.numberDFA ld.numberDFA.startS [] none rest with
        | none => rw [tryMatchDFA, hm] at h2; simp at h2
        | some m =>
          simp only
          exact matchFrom_len ld.numberDFA rest ld.numberDFA.startS [] none
            (by intro m' hm'; cases hm') m hm
    · rw [if_pos h1]
      rw [tryMatchDFA]
      cases hm : matchFrom ld.identifierDFA ld.identifierDFA.startS [] none rest with
      | none => rw [tryMatchDFA, hm] at h1; simp at h1
      | some m =>
        simp only
        exact matchFrom_len ld.identifierDFA rest ld.identifierDFA.startS [] none
          (by intro m' hm'; cases hm') m hm

end Lexer

namespace Lexer

open Automata

/-- The loop of `Lexer::tokenize`, carried over the remaining input suffix
(`rest = input` from offset `pos`): skip whitespace one character at a
time; otherwise emit `getNextToken` and advance by the token's length.
Terminates because every emitted token carries at least one character
(`getNextToken_len`). -/
def tokenizeGo (ld : LexerData) : Nat → List Char → List Token
  | pos, [] => [⟨.END_OF_INPUT, [], (pos : Int)⟩]
  | pos, c :: cs =>
    if isSpaceC c then tokenizeGo ld (pos + 1) cs
    else
      let tok := getNextToken ld (c :: cs) (pos : Int)
      tok :: tokenizeGo ld (pos + tok.value.length) ((c :: cs).drop tok.value.length)
termination_by _ l => l.length
decreasing_by
  · simp
  · have hk := getNextToken_len ld (c :: cs) (pos : Int)
    simp only [List.length_drop, List.length_cons]
    omega

/-- Mirrors `Lexer::tokenize`: scan from offset 0 and append the single
END_OF_INPUT token carrying the final offset. -/
def tokenize (ld : LexerData) (input : List Char) : List Token :=
  tokenizeGo ld 0 input

end Lexer

namespace PDA

open Lexer

/-- The expression PDA's states (Final.cpp `enum class PDAState`). -/
inductive PDAState where
  | START
  | EXPECT_ASSIGNMENT
  | AFTER_ASSIGNMENT
  | EXPECT_EXPR
  | IN_EXPR
  | AFTER_OPERATOR
  | ACCEPT
  | REJECT
deriving DecidableEq

/-- The diagnostics `PDA::parse` prints: one tag per `REJECT: ...` message,
plus the accept action and the step-bound message
("REJECT: Infinite loop detected"). -/
inductive PDiag where
  | rejectExpectedStart
  | rejectExpectedAssign
  | rejectExpectedExpr
  | rejectUnmatchedParen
  | rejectUnexpectedToken
  | rejectAfterOperator
  | rejectInvalidState
  | acceptMsg
  | infiniteLoop
deriving DecidableEq

/-- The synthetic token used when `tokenIndex` runs past the vector
(`Token(TokenType::END_OF_INPUT, "", -1)`). -/
def syntheticEnd : Token := ⟨.END_OF_INPUT, [], -1⟩

/-- One iteration of the `while` loop body of `PDA::parse` (the `switch` on
the current state): returns the next state, stack, token index and the
diagnostics printed during the iteration.  The stack symbols are the
strings pushed by the source: `"$"`, `"E"`, `")"`. -/
def pdaStep (tokens : List Token) (st : PDAState) (stk : List String) (ti : Nat) :
    PDAState × List String × Nat × List PDiag :=
  let currentToken := tokens.getD ti syntheticEnd
  let stackTop := stk.headD ""
  match st with
  | .START =>
    if currentToken.type = .IDENTIFIER then
      if ti + 1 < tokens.length ∧ (tokens.getD (ti + 1) syntheticEnd).type = .ASSIGN then
        (.EXPECT_ASSIGNMENT, stk, ti + 1, [])
      else
        (.EXPECT_EXPR, "E" :: stk, ti, [])
    else if currentToken.type = .NUMBER ∨ currentToken.type = .LPAREN then
      (.EXPECT_EXPR, "E" :: stk, ti, [])
    else
      (.REJECT, stk, ti, [.rejectExpectedStart])
  | .EXPECT_ASSIGNMENT =>
    if currentToken.type = .ASSIGN then
      (.AFTER_ASSIGNMENT, stk, ti + 1, [])
    else
      (.REJECT, stk, ti, [.rejectExpectedAssign])
  | .AFTER_ASSIGNMENT =>
    (.EXPECT_EXPR, "E" :: stk, ti, [])
  | .EXPECT_EXPR =>
    if currentToken.type = .IDENTIFIER ∨ currentToken.type = .NUMBER then
      (.IN_EXPR, stk.tail, ti + 1, [])
    else if currentToken.type = .LPAREN then
      (.EXPECT_EXPR, "E" :: ")" :: stk.tail, ti + 1, [])
    else
      (.REJECT, stk, ti, [.rejectExpectedExpr])
  | .IN_EXPR =>
    if currentToken.type = .OPERATOR then
      (.AFTER_OPERATOR, "E" :: stk, ti + 1, [])
    else if currentToken.type = .RPAREN ∧ stackTop = ")" then
      (.IN_EXPR, stk.tail, ti + 1, [])
    else if currentToken.type = .END_OF_INPUT ∧ stackTop = "$" then
      (.ACCEPT, stk.tail, ti, [.acceptMsg])
    else if currentToken.type = .END_OF_INPUT then
      (.REJECT, stk, ti, [.rejectUnmatchedParen])
    else
      (.REJECT, stk, ti, [.rejectUnexpectedToken])
  | .AFTER_OPERATOR =>
    if currentToken.type = .IDENTIFIER ∨ currentToken.type = .NUMBER then
      (.IN_EXPR, stk.tail, ti + 1, [])
    else if currentToken.type = .LPAREN then
      (.EXPECT_EXPR, "E" :: ")" :: stk.tail, ti + 1, [])
    else
      (.REJECT, stk, ti, [.rejectAfterOperator])
  | .ACCEPT => (.REJECT, stk, ti, [.rejectInvalidState])
  | .REJECT => (.REJECT, stk, ti, [.rejectInvalidState])

/-- Rank used for the termination measure of the parse loop: the only
transitions that consume no token go from START or AFTER_ASSIGNMENT to a
lower-ranked state. -/
def stateRank : PDAState → Nat
  | .START => 2
  | .AFTER_ASSIGNMENT => 2
  | .ACCEPT => 0
  | .REJECT => 0
  | _ => 1

/-- Every non-terminal step either consumes a token or strictly lowers the
state rank. -/
theorem pdaStep_progress (tokens : List Token) (st : PDAState) (stk : List String) (ti : Nat)
    (hst : st ≠ .ACCEPT) (hst2 : st ≠ .REJECT) :
    (pdaStep tokens st stk ti).2.2.1 = ti + 1 ∨
      ((pdaStep tokens st stk ti).2.2.1 = ti ∧
        stateRank (pdaStep tokens st stk ti).1 < stateRank st) := by
  cases st <;> simp only [pdaStep] <;> first
    | (exact absurd rfl hst)
    | (exact absurd rfl hst2)
    | (split_ifs <;> simp [stateRank])
    | (simp [stateRank])

/-- The `while (currentState != ACCEPT && currentState != REJECT)` loop of
`PDA::parse`, including the step-bound guard
`if (tokenIndex > tokens.size() + 5) return false` checked after each
iteration.  After the loop the result is `currentState == ACCEPT`. -/
def parseLoop (tokens : List Token) (st : PDAState) (stk : List String) (ti : Nat)
    (ds : List PDiag) : Bool × List PDiag :=
  if st = .ACCEPT ∨ st = .REJECT then (decide (st = .ACCEPT), ds)
  else
    if (pdaStep tokens st stk ti).2.2.1 > tokens.length + 5 then
      (false, ds ++ (pdaStep tokens st stk ti).2.2.2 ++ [.infiniteLoop])
    else
      parseLoop tokens (pdaStep tokens st stk ti).1 (pdaStep tokens st stk ti).2.1
        (pdaStep tokens st stk ti).2.2.1 (ds ++ (pdaStep tokens st stk ti).2.2.2)
termination_by (tokens.length + 7 - ti, stateRank st)
decreasing_by
  rename_i hterm hguard
  have hprog := pdaStep_progress tokens st stk ti
    (fun h => hterm (Or.inl h)) (fun h => hterm (Or.inr h))
  rcases hprog with h1 | ⟨h1, h2⟩
  · apply Prod.Lex.left
    omega
  · rw [h1]
    exact Prod.Lex.right _ h2

/-- Mirrors `PDA::parse`: stack seeded with `"$"`, state START, token index
0; returns the accept/reject boolean together with the printed
diagnostics. -/
def parse (tokens : List Token) : Bool × List PDiag :=
  parseLoop tokens .START ["$"] 0 []

end PDA

namespace ChessNFA

open Automata

/-- Chess token types (chessNot.cpp `enum class ChessTokenType`). -/
inductive ChessTokenType where
  | MOVE_NUMBER
  | PAWN_MOVE
  | PIECE_MOVE
  | TWIN_PIECE_MOVE
  | PAWN_CAPTURE
  | PIECE_CAPTURE
  | TWIN_PIECE_CAPTURE
  | CASTLING
  | PROMOTION
  | PROMOTION_VIA_CAPTURE
  | CHECK
  | CHECKMATE
  | RESULT
  | END_OF_INPUT
  | INVALID
deriving DecidableEq

/-- Mirrors `struct ChessToken`. -/
structure ChessToken where
  type : ChessTokenType
  value : List Char
  position : Int
deriving DecidableEq

/-- Mirrors `ChessNFA::parseCharacterClass`: unlike Final.cpp, a missing
outer bracket only logs `[ERROR] Invalid character class format.` to
`cerr` and returns normally with the (still empty) member set; only a
descending range throws. -/
def parseCharacterClass (s : String) : Except CCErr (Finset Char) :=
  if bracketForm s then scanClass (classContent s) else .ok ∅

/-- Mirrors `ChessNFA::createCharNFA`: like Final.cpp's but additionally
sets `end->isFinal = true`. -/
def createCharNFA (b : Builder) (c : Char) : Builder × NFAPtr :=
  let (b1, s) := createState b
  let (b2, e) := createState b1
  (setFinal (addTrans b2 s c e) e true, ⟨s, e⟩)

/-- Mirrors `ChessNFA::createCharClassNFA`: like Final.cpp's but uses the
non-throwing format check above and sets `end->isFinal = true`. -/
def createCharClassNFA (b : Builder) (cls : String) : Except CCErr (Builder × NFAPtr) :=
  let (b1, s) := createState b
  let (b2, e) := createState b1
  match parseCharacterClass cls with
  | .error err => .error err
  | .ok validChars =>
    .ok (setFinal ((ascList validChars).foldl (fun bb c => addTrans bb s c e) b2) e true, ⟨s, e⟩)

/-- Mirrors `ChessNFA::createMoveNumberNFA`: `[0-9]+\.` . -/
def createMoveNumberNFA (b : Builder) : Except CCErr (Builder × NFAPtr) := do
  let (b1, digit) ← createCharClassNFA b "[0-9]"
  let (b2, oneOrMoreDigits) := oneOrMore b1 digit
  let (b3, dot) := createCharNFA b2 '.'
  .ok (concatenate b3 oneOrMoreDigits dot)

/-- Mirrors `ChessNFA::createPawnMoveNFA`: `[a-h][1-8]`. -/
def createPawnMoveNFA (b : Builder) : Except CCErr (Builder × NFAPtr) := do
  let (b1, alphabet) ← createCharClassNFA b "[a-h]"
  let (b2, number) ← createCharClassNFA b1 "[1-8]"
  .ok (concatenate b2 alphabet number)

/-- Mirrors `ChessNFA::createPieceMoveNFA`: `[KQRBN][a-h][1-8]`. -/
def createPieceMoveNFA (b : Builder) : Except CCErr (Builder × NFAPtr) := do
  let (b1, alphabet) ← createCharClassNFA b "[a-h]"
  let (b2, number) ← createCharClassNFA b1 "[1-8]"
  let (b3, square) := concatenate b2 alphabet number
  let (b4, piece) ← createCharClassNFA b3 "[KQRBN]"
  .ok (concatenate b4 piece square)

/-- Mirrors `ChessNFA::createTwinPieceMoveNFA`: `[QRBN]([a-h]|[1-8])[a-h][1-8]`. -/
def createTwinPieceMoveNFA (b : Builder) : Except CCErr (Builder × NFAPtr) := do
  let (b1, alphabet) ← createCharClassNFA b "[a-h]"
  let (b2, number) ← createCharClassNFA b1 "[1-8]"
  let (b3, square) := concatenate b2 alphabet number
  let (b4, file) ← createCharClassNFA b3 "[a-h]"
  let (b5, rank) ← createCharClassNFA b4 "[1-8]"
  let (b6, fileOrRank) := unionNFA b5 file rank
  let (b7, piece) ← createCharClassNFA b6 "[QRBN]"
  let (b8, pieceWithFileOrRank) := concatenate b7 piece fileOrRank
  .ok (concatenate b8 pieceWithFileOrRank square)

/-- Mirrors `ChessNFA::createPawnCaptureNFA`: `[a-h]x[a-h][1-8]`. -/
def createPawnCaptureNFA (b : Builder) : Except CCErr (Builder × NFAPtr) := do
  let (b1, alphabet) ← createCharClassNFA b "[a-h]"
  let (b2, number) ← createCharClassNFA b1 "[1-8]"
  let (b3, square) := concatenate b2 alphabet number
  let (b4, pawn) ← createCharClassNFA b3 "[a-h]"
  let (b5, capture) := createCharNFA b4 'x'
  let (b6, capSquare) := concatenate b5 capture square
  .ok (concatenate b6 pawn capSquare)

/-- Mirrors `ChessNFA::createPieceCaptureNFA`: `[KQRBN]x[a-h][1-8]`. -/
def createPieceCaptureNFA (b : Builder) : Except CCErr (Builder × NFAPtr) := do
  let (b1, alphabet) ← createCharClassNFA b "[a-h]"
  let (b2, number) ← createCharClassNFA b1 "[1-8]"
  let (b3, square) := concatenate b2 alphabet number
  let (b4, piece) ← createCharClassNFA b3 "[KQRBN]"
  let (b5, capture) := createCharNFA b4 'x'
  let (b6, capSquare) := concatenate b5 capture square
  .ok (concatenate b6 piece capSquare)

/-- Mirrors `ChessNFA::createTwinPieceCaptureNFA`. -/
def createTwinPieceCaptureNFA (b : Builder) : Except CCErr (Builder × NFAPtr) := do
  let (b1, alphabet) ← createCharClassNFA b "[a-h]"
  let (b2, number) ← createCharClassNFA b1 "[1-8]"
  let (b3, square) := concatenate b2 alphabet number
  let (b4, file) ← createCharClassNFA b3 "[a-h]"
  let (b5, rank) ← createCharClassNFA b4 "[1-8]"
  let (b6, fileOrRank) := unionNFA b5 file rank
  let (b7, piece) ← createCharClassNFA b6 "[QRBN]"
  let (b8, pieceWithFileOrRank) := concatenate b7 piece fileOrRank
  let (b9, capture) := createCharNFA b8 'x'
  let (b10, capSquare) := concatenate b9 capture square
  .ok (concatenate b10 pieceWithFileOrRank capSquare)

/-- Mirrors `ChessNFA::createCastlingNFA`: `O-O | O-O-O`. -/
def createCastlingNFA (b : Builder) : Builder × NFAPtr :=
  let (b1, o1) := createCharNFA b 'O'
  let (b2, dash1) := createCharNFA b1 '-'
  let (b3, o2) := createCharNFA b2 'O'
  let (b4, dashO2) := concatenate b3 dash1 o2
  let (b5, kingside) := concatenate b4 o1 dashO2
  let (b6, o3) := createCharNFA b5 'O'
  let (b7, dash2) := createCharNFA b6 '-'
  let (b8, o4) := createCharNFA b7 'O'
  let (b9, dash3) := createCharNFA b8 '-'
  let (b10, o5) := createCharNFA b9 'O'
  let (b11, t1) := concatenate b10 dash3 o5
  let (b12, t2) := concatenate b11 o4 t1
  let (b13, t3) := concatenate b12 dash2 t2
  let (b14, queenside) := concatenate b13 o3 t3
  unionNFA b14 kingside queenside

/-- Mirrors `ChessNFA::createPromotionNFA`: `[a-h][1-8]=[QRBN]`. -/
def createPromotionNFA (b : Builder) : Except CCErr (Builder × NFAPtr) := do
  let (b1, alphabet) ← createCharClassNFA b "[a-h]"
  let (b2, number) ← createCharClassNFA b1 "[1-8]"
  let (b3, pawn) := concatenate b2 alphabet number
  let (b4, promote) := createCharNFA b3 '='
  let (b5, pieceToPromote) ← createCharClassNFA b4 "[QRBN]"
  let (b6, eqPiece) := concatenate b5 promote pieceToPromote
  .ok (concatenate b6 pawn eqPiece)

/-- Mirrors `ChessNFA::createPromotionViaCaptureNFA`: `[a-h]x[a-h][1-8]=[QRBN]`. -/
def createPromotionViaCaptureNFA (b : Builder) : Except CCErr (Builder × NFAPtr) := do
  let (b1, alphabet) ← createCharClassNFA b "[a-h]"
  let (b2, number) ← createCharClassNFA b1 "[1-8]"
  let (b3, sqaure) := concatenate b2 alphabet number
  let (b4, pawn) ← createCharClassNFA b3 "[a-h]"
  let (b5, capture) := createCharNFA b4 'x'
  let (b6, promote) := createCharNFA b5 '='
  let (b7, pieceToPromote) ← createCharClassNFA b6 "[QRBN]"
  let (b8, t1) := concatenate b7 promote pieceToPromote
  let (b9, t2) := concatenate b8 sqaure t1
  let (b10, t3) := concatenate b9 capture t2
  .ok (concatenate b10 pawn t3)

/-- Mirrors `ChessNFA::createBaseMovesNFA`: the nested union of the nine
base move patterns, each built afresh. -/
def createBaseMovesNFA (b : Builder) : Except CCErr (Builder × NFAPtr) := do
  let (b1, pawnMove) ← createPawnMoveNFA b
  let (b2, pieceMove) ← createPieceMoveNFA b1
  let (b3, twinPieceMove) ← createTwinPieceMoveNFA b2
  let (b4, pawnCapture) ← createPawnCaptureNFA b3
  let (b5, pieceCapture) ← createPieceCaptureNFA b4
  let (b6, twinPieceCapture) ← createTwinPieceCaptureNFA b5
  let (b7, castling) := createCastlingNFA b6
  let (b8, promotion) ← createPromotionNFA b7
  let (b9, promotionViaCapture) ← createPromotionViaCaptureNFA b8
  let (b10, u8) := unionNFA b9 promotion promotionViaCapture
  let (b11, u7) := unionNFA b10 castling u8
  let (b12, u6) := unionNFA b11 twinPieceCapture u7
  let (b13, u5) := unionNFA b12 pieceCapture u6
  let (b14, u4) := unionNFA b13 pawnCapture u5
  let (b15, u3) := unionNFA b14 twinPieceMove u4
  let (b16, u2) := unionNFA b15 pieceMove u3
  .ok (unionNFA b16 pawnMove u2)

/-- Mirrors `ChessNFA::createCheckNFA`: base move followed by `+`. -/
def createCheckNFA (b : Builder) : Except CCErr (Builder × NFAPtr) := do
  let (b1, moves) ← createBaseMovesNFA b
  let (b2, check) := createCharNFA b1 '+'
  .ok (concatenate b2 moves check)

/-- Mirrors `ChessNFA::createCheckmateNFA`: base move followed by `#`. -/
def createCheckmateNFA (b : Builder) : Except CCErr (Builder × NFAPtr) := do
  let (b1, moves) ← createBaseMovesNFA b
  let (b2, checkmate) := createCharNFA b1 '#'
  .ok (concatenate b2 moves checkmate)

/-- Mirrors `ChessNFA::createResultNFA`: `1-0 | 0-1 | 1/2-1/2`. -/
def createResultNFA (b : Builder) : Builder × NFAPtr :=
  let (b1, zero1) := createCharNFA b '0'
  let (b2, one1) := createCharNFA b1 '1'
  let (b3, dash1) := createCharNFA b2 '-'
  let (b4, w1) := concatenate b3 dash1 zero1
  let (b5, whiteWins) := concatenate b4 one1 w1
  let (b6, zero2) := createCharNFA b5 '0'
  let (b7, one2) := createCharNFA b6 '1'
  let (b8, dash2) := createCharNFA b7 '-'
  let (b9, w2) := concatenate b8 dash2 one2
  let (b10, blackWins) := concatenate b9 zero2 w2
  let (b11, simpleResults) := unionNFA b10 whiteWins blackWins
  let (b12, half1) := createCharNFA b11 '1'
  let (b13, slash1) := createCharNFA b12 '/'
  let (b14, two1) := createCharNFA b13 '2'
  let (b15, dash3) := createCharNFA b14 '-'
  let (b16, half2) := createCharNFA b15 '1'
  let (b17, slash2) := createCharNFA b16 '/'
  let (b18, two2) := createCharNFA b17 '2'
  let (b19, t1) := concatenate b18 slash2 two2
  let (b20, t2) := concatenate b19 half2 t1
  let (b21, t3) := concatenate b20 dash3 t2
  let (b22, t4) := concatenate b21 two1 t3
  let (b23, t5) := concatenate b22 slash1 t4
  let (b24, draw) := concatenate b23 half1 t5
  unionNFA b24 simpleResults draw

end ChessNFA

namespace ChessLexer

open Automata ChessNFA

/-- The thirteen compiled token DFAs of the chess lexer, in member
declaration order. -/
structure ChessLexerData where
  moveNumberDFA : DFA
  pawnMoveDFA : DFA
  pieceMoveDFA : DFA
  twinPieceMoveDFA : DFA
  pawnCaptureDFA : DFA
  pieceCaptureDFA : DFA
  twinPieceCaptureDFA : DFA
  castlingDFA : DFA
  promotionDFA : DFA
  promotionViaCaptureDFA : DFA
  checkDFA : DFA
  checkmateDFA : DFA
  resultDFA : DFA
deriving DecidableEq

/-- Mirrors `ChessLexer::initializeTokenDFAs`: one shared `ChessNFA`
builder, each NFA built and converted in source order. -/
def mkChessLexer : Except CCErr ChessLexerData := do
  let (b1, moveNumberNFA) ← createMoveNumberNFA emptyBuilder
  let moveNumberDFA := convertToDFA b1 moveNumberNFA
  let (b2, pawnMoveNFA) ← createPawnMoveNFA b1
  let pawnMoveDFA := convertToDFA b2 pawnMoveNFA
  let (b3, pieceMoveNFA) ← createPieceMoveNFA b2
  let pieceMoveDFA := convertToDFA b3 pieceMoveNFA
  let (b4, twinPieceMoveNFA) ← createTwinPieceMoveNFA b3
  let twinPieceMoveDFA := convertToDFA b4 twinPieceMoveNFA
  let (b5, pawnCaptureNFA) ← createPawnCaptureNFA b4
  let pawnCaptureDFA := convertToDFA b5 pawnCaptureNFA
  let (b6, pieceCaptureNFA) ← createPieceCaptureNFA b5
  let pieceCaptureDFA := convertToDFA b6 pieceCaptureNFA
  let (b7, twinPieceCaptureNFA) ← createTwinPieceCaptureNFA b6
  let twinPieceCaptureDFA := convertToDFA b7 twinPieceCaptureNFA
  let (b8, castlingNFA) := createCastlingNFA b7
  let castlingDFA := convertToDFA b8 castlingNFA
  let (b9, promotionNFA) ← createPromotionNFA b8
  let promotionDFA := convertToDFA b9 promotionNFA
  let (b10, promotionViaCaptureNFA) ← createPromotionViaCaptureNFA b9
  let promotionViaCaptureDFA := convertToDFA b10 promotionViaCaptureNFA
  let (b11, checkNFA) ← createCheckNFA b10
  let checkDFA := convertToDFA b11 checkNFA
  let (b12, checkmateNFA) ← createCheckmateNFA b11
  let checkmateDFA := convertToDFA b12 checkmateNFA
  let (b13, resultNFA) := createResultNFA b12
  let resultDFA := convertToDFA b13 resultNFA
  .ok ⟨moveNumberDFA, pawnMoveDFA, pieceMoveDFA, twinPieceMoveDFA, pawnCaptureDFA,
       pieceCaptureDFA, twinPieceCaptureDFA, castlingDFA, promotionDFA,
       promotionViaCaptureDFA, checkDFA, checkmateDFA, resultDFA⟩

/-- Mirrors `ChessLexer::tryMatchDFA`: the same longest-accepted-prefix
simulation loop as Final.cpp's `tryMatchDFA` (rendered by
`Lexer.matchFrom`), returning the matched value on success. -/
def tryMatchDFA (d : DFA) (rest : List Char) : Option (List Char) :=
  Lexer.matchFrom d d.startS [] none rest

/-- Mirrors `ChessLexer::testDFAPattern`: append a candidate when the DFA
matched. -/
def testDFAPattern (d : DFA) (rest : List Char) (ty : ChessTokenType)
    (candidates : List (ChessTokenType × List Char)) : List (ChessTokenType × List Char) :=
  match tryMatchDFA d rest with
  | some matchedValue => candidates ++ [(ty, matchedValue)]
  | none => candidates

/-- The candidate list `tryMatchLongest` accumulates, in the fixed
`testDFAPattern` call order of the source. -/
def candidateList (ld : ChessLexerData) (rest : List Char) : List (ChessTokenType × List Char) :=
  testDFAPattern ld.checkDFA rest .CHECK
    (testDFAPattern ld.checkmateDFA rest .CHECKMATE
      (testDFAPattern ld.promotionViaCaptureDFA rest .PROMOTION_VIA_CAPTURE
        (testDFAPattern ld.twinPieceCaptureDFA rest .TWIN_PIECE_CAPTURE
          (testDFAPattern ld.twinPieceMoveDFA rest .TWIN_PIECE_MOVE
            (testDFAPattern ld.promotionDFA rest .PROMOTION
              (testDFAPattern ld.pieceCaptureDFA rest .PIECE_CAPTURE
                (testDFAPattern ld.pawnCaptureDFA rest .PAWN_CAPTURE
                  (testDFAPattern ld.pieceMoveDFA rest .PIECE_MOVE
                    (testDFAPattern ld.pawnMoveDFA rest .PAWN_MOVE
                      (testDFAPattern ld.castlingDFA rest .CASTLING
                        (testDFAPattern ld.resultDFA rest .RESULT
                          (testDFAPattern ld.moveNumberDFA rest .MOVE_NUMBER []))))))))))))

/-- The selection loop of `tryMatchLongest`: start from `candidates[0]` and
replace it whenever a strictly longer candidate appears; an equal-length
later candidate never displaces an earlier one. -/
def pickLongest : List (ChessTokenType × List Char) → Option (ChessTokenType × List Char)
  | [] => none
  | c :: cs =>
    some (cs.foldl (fun longest candidate =>
      if candidate.2.length > longest.2.length then candidate else longest) c)

/-- Mirrors `ChessLexer::tryMatchLongest`. -/
def tryMatchLongest (ld : ChessLexerData) (rest : List Char) (startPos : Int) : ChessToken :=
  match pickLongest (candidateList ld rest) with
  | some longest => ⟨longest.1, longest.2, startPos⟩
  | none => ⟨.INVALID, [], startPos⟩

/-- Mirrors `ChessLexer::getNextToken`. -/
def getNextToken (ld : ChessLexerData) (rest : List Char) (startPos : Int) : ChessToken :=
  let token := tryMatchLongest ld rest startPos
  if token.type ≠ .INVALID then token
  else ⟨.INVALID, [rest.headD epsChar], startPos⟩

/-- The result of `pickLongest` is one of the candidates. -/
theorem pickLongest_mem (l : List (ChessTokenType × List Char))
    (x : ChessTokenType × List Char) (hx : pickLongest l = some x) : x ∈ l := by
  match l with
  | [] => cases hx
  | c :: cs =>
    rw [pickLongest] at hx
    injection hx with hx
    subst hx
    induction cs generalizing c with
    | nil => simp
    | cons d ds ih =>
      rw [List.foldl_cons]
      by_cases h : d.2.length > c.2.length
      · rw [if_pos h]
        have := ih d
        revert this
        simp only [List.mem_cons]
        tauto
      · rw [if_neg h]
        have := ih c
        revert this
        simp only [List.mem_cons]
        tauto

/-- Every candidate's matched value is nonempty (a DFA match records a
value only after consuming at least one character). -/
theorem candidateList_len (ld : ChessLexerData) (rest : List Char) :
    ∀ x ∈ candidateList ld rest, 1 ≤ x.2.length := by
  have step : ∀ (d : DFA) (ty : ChessTokenType) (cands : List (ChessTokenType × List Char)),
      (∀ x ∈ cands, 1 ≤ x.2.length) →
      ∀ x ∈ testDFAPattern d rest ty cands, 1 ≤ x.2.length := by
    intro d ty cands hc x hx
    rw [testDFAPattern] at hx
    cases hm : tryMatchDFA d rest with
    | none => rw [hm] at hx; exact hc x hx
    | some m =>
      rw [hm] at hx
      rcases List.mem_append.mp hx with hx | hx
      · exact hc x hx
      · have hxm : x = (ty, m) := by simpa using hx
        subst hxm
        exact Lexer.matchFrom_len d rest d.startS [] none (by intro m' hm'; cases hm') m hm
  rw [candidateList]
  repeat (apply step)
  simp

/-- A non-INVALID token from the chess `getNextToken` carries at least one
character, and an INVALID one carries exactly one. -/
theorem chessGetNextToken_len (ld : ChessLexerData) (rest : List Char) (p : Int) :
    1 ≤ (getNextToken ld rest p).value.length := by
  simp only [getNextToken]
  by_cases h : (tryMatchLongest ld rest p).type = ChessTokenType.INVALID
  · rw [if_neg (by simp [h])]
    simp
  · rw [if_pos h]
    rw [tryMatchLongest]
    rcases hp : pickLongest (candidateList ld rest) with _ | x
    · rw [tryMatchLongest, hp] at h
      simp at h
    · simp only
      exact candidateList_len ld rest x (pickLongest_mem _ x hp)

/-- The loop of `ChessLexer::tokenize`: whitespace and INVALID characters
advance by one (the latter setting the lexical-error flag and emitting
nothing); matched tokens are emitted and advance by their length. -/
def tokenizeGo (ld : ChessLexerData) : Nat → List Char → Bool → List ChessToken × Bool
  | pos, [], flag => ([⟨.END_OF_INPUT, [], (pos : Int)⟩], flag)
  | pos, c :: cs, flag =>
    if Lexer.isSpaceC c then tokenizeGo ld (pos + 1) cs flag
    else
      let tok := getNextToken ld (c :: cs) (pos : Int)
      if tok.type = ChessTokenType.INVALID then tokenizeGo ld (pos + 1) cs true
      else
        let r := tokenizeGo ld (pos + tok.value.length) ((c :: cs).drop tok.value.length) flag
        (tok :: r.1, r.2)
termination_by _ l _ => l.length
decreasing_by
  · simp
  · simp
  · have hk := chessGetNextToken_len ld (c :: cs) (pos : Int)
    simp only [List.length_drop, List.length_cons]
    omega

/-- Mirrors `ChessLexer::tokenize`: returns the token stream (terminated by
END_OF_INPUT) and the `hadLexicalError` flag. -/
def tokenize (ld : ChessLexerData) (input : List Char) : List ChessToken × Bool :=
  tokenizeGo ld 0 input false

end ChessLexer

namespace ChessPDA

open ChessNFA

/-- The move-sequence validator's states (`ChessPDA::MoveState`). -/
inductive MoveState where
  | EXPECT_NUMBER
  | EXPECT_WHITE_MOVE
  | EXPECT_BLACK_MOVE
  | GAME_OVER
deriving DecidableEq

/-- The diagnostics `validateMoveSequence` prints: one tag per
`SEQUENCE ERROR`/`SEQUENCE WARNING` message, plus the final
"PGN sequence successfully parsed." message. -/
inductive ChessDiag where
  | tokensAfterEnd
  | abruptEnd
  | halfMoveWarning
  | unexpectedMoveNumber
  | expectedFound (expected found : Int)
  | checkmateNeedsResult
  | unexpectedMove
  | success
deriving DecidableEq

/-- Mirrors `ChessPDA::isMoveToken`. -/
def isMoveToken (ty : ChessTokenType) : Bool :=
  ty = .PAWN_MOVE || ty = .PIECE_MOVE || ty = .TWIN_PIECE_MOVE ||
  ty = .PAWN_CAPTURE || ty = .PIECE_CAPTURE || ty = .TWIN_PIECE_CAPTURE ||
  ty = .CASTLING || ty = .PROMOTION || ty = .PROMOTION_VIA_CAPTURE ||
  ty = .CHECK || ty = .CHECKMATE

/-- The numeric value of a digit string. -/
def digitsVal (l : List Char) : Nat :=
  l.foldl (fun a c => a * 10 + (c.toNat - 48)) 0

/-- Model of C++ `stoi`: skip leading whitespace, accept an optional sign,
then parse a maximal nonempty digit prefix; `none` when no digit follows
(the `catch (...)` case).  Overflow is not modelled; the validator only
ever receives short digit strings. -/
def stoiOpt (s : List Char) : Option Int :=
  let t := s.dropWhile Lexer.isSpaceC
  match t with
  | '-' :: rest =>
    let ds := rest.takeWhile (fun c => c.isDigit)
    if ds.isEmpty then none else some (-(digitsVal ds : Int))
  | '+' :: rest =>
    let ds := rest.takeWhile (fun c => c.isDigit)
    if ds.isEmpty then none else some (digitsVal ds : Int)
  | rest =>
    let ds := rest.takeWhile (fun c => c.isDigit)
    if ds.isEmpty then none else some (digitsVal ds : Int)

/-- The `for (size_t i = 0; i + 1 < tokens.size(); ++i)` loop of
`ChessPDA::validateMoveSequence`: a list element is processed only while at
least one further element follows it (so the trailing token of the stream
is never processed), and the token after the current one serves as the
checkmate lookahead `tokens[i+1]`. -/
def valLoop (st : MoveState) (expectedMoveNumber : Int) (ds : List ChessDiag) :
    List ChessToken → Bool × List ChessDiag
  | tok :: next :: rest =>
    if st = .GAME_OVER then
      if tok.type = .END_OF_INPUT then (true, ds ++ [.success])
      else (false, ds ++ [.tokensAfterEnd])
    else if tok.type = .END_OF_INPUT then
      if st = .EXPECT_WHITE_MOVE then (false, ds ++ [.abruptEnd])
      else if st = .EXPECT_BLACK_MOVE then (true, ds ++ [.halfMoveWarning, .success])
      else (true, ds ++ [.success])
    else if tok.type = .RESULT then
      valLoop .GAME_OVER expectedMoveNumber ds (next :: rest)
    else if tok.type = .MOVE_NUMBER then
      if st ≠ .EXPECT_NUMBER then (false, ds ++ [.unexpectedMoveNumber])
      else
        match stoiOpt tok.value.dropLast with
        | none => (false, ds)
        | some moveNumber =>
          if moveNumber ≠ expectedMoveNumber then
            (false, ds ++ [.expectedFound expectedMoveNumber moveNumber])
          else
            valLoop .EXPECT_WHITE_MOVE (expectedMoveNumber + 1) ds (next :: rest)
    else if isMoveToken tok.type then
      if tok.type = .CHECKMATE ∧ next.type ≠ .RESULT then
        (false, ds ++ [.checkmateNeedsResult])
      else if st = .EXPECT_WHITE_MOVE then
        valLoop .EXPECT_BLACK_MOVE expectedMoveNumber ds (next :: rest)
      else if st = .EXPECT_BLACK_MOVE then
        valLoop .EXPECT_NUMBER expectedMoveNumber ds (next :: rest)
      else (false, ds ++ [.unexpectedMove])
    else
      valLoop st expectedMoveNumber ds (next :: rest)
  | _ => (true, ds ++ [.success])

/-- Mirrors `ChessPDA::validateMoveSequence` after `resetPDA()`:
state EXPECT_NUMBER, expected move number 1. -/
def validateMoveSequence (tokens : List ChessToken) : Bool × List ChessDiag :=
  valLoop .EXPECT_NUMBER 1 [] tokens

end ChessPDA

namespace Automata

/-- Closedness of a state set under a successor map. -/
def Closed (f : Nat → List Nat) (C : Finset Nat) : Prop :=
  ∀ q ∈ C, ∀ t ∈ f q, t ∈ C

theorem mem_satStep {f : Nat → List Nat} {S : Finset Nat} {a : Nat} :
    a ∈ satStep f S ↔ a ∈ S ∨ ∃ q ∈ S, a ∈ f q := by
  simp [satStep, Finset.mem_union, Finset.mem_biUnion, List.mem_toFinset]

theorem subset_satStep (f : Nat → List Nat) (S : Finset Nat) : S ⊆ satStep f S :=
  Finset.subset_union_left

theorem satStep_eq_of_closed {f : Nat → List Nat} {S : Finset Nat} (h : Closed f S) :
    satStep f S = S := by
  apply Finset.Subset.antisymm
  · intro a ha
    rcases mem_satStep.mp ha with ha | ⟨q, hq, ha⟩
    · exact ha
    · exact h q hq a ha
  · exact subset_satStep f S

theorem closed_of_satStep_eq {f : Nat → List Nat} {S : Finset Nat} (h : satStep f S = S) :
    Closed f S := by
  intro q hq t ht
  rw [← h]
  exact mem_satStep.mpr (Or.inr ⟨q, hq, ht⟩)

theorem subset_saturate (f : Nat → List Nat) : ∀ (k : Nat) (S : Finset Nat), S ⊆ saturate f k S := by
  intro k
  induction k with
  | zero => intro S; rw [saturate]
  | succ n ih =>
    intro S
    rw [saturate]
    split_ifs with h
    · exact Finset.Subset.refl S
    · exact (subset_satStep f S).trans (ih (satStep f S))

theorem saturate_subset {f : Nat → List Nat} {C : Finset Nat} (hC : Closed f C) :
    ∀ (k : Nat) (S : Finset Nat), S ⊆ C → saturate f k S ⊆ C := by
  intro k
  induction k with
  | zero => intro S hS; rw [saturate]; exact hS
  | succ n ih =>
    intro S hS
    rw [saturate]
    split_ifs with h
    · exact hS
    · refine ih (satStep f S) ?_
      intro a ha
      rcases mem_satStep.mp ha with ha | ⟨q, hq, ha⟩
      · exact hS ha
      · exact hC q (hS hq) a ha

theorem saturate_of_fixed {f : Nat → List Nat} {S : Finset Nat} (h : satStep f S = S) :
    ∀ k, saturate f k S = S := by
  intro k
  cases k with
  | zero => rw [saturate]
  | succ n => rw [saturate, if_pos h]

theorem saturate_empty (f : Nat → List Nat) (k : Nat) : saturate f k ∅ = ∅ := by
  apply saturate_of_fixed
  apply satStep_eq_of_closed
  intro q hq
  cases hq

/-- Bounded saturation stays within the state range. -/
theorem saturate_range {f : Nat → List Nat} {n : Nat} (hf : ∀ q, ∀ t ∈ f q, t < n)
    (k : Nat) (S : Finset Nat) (hS : S ⊆ Finset.range n) :
    saturate f k S ⊆ Finset.range n := by
  refine saturate_subset ?_ k S hS
  intro q _ t ht
  exact Finset.mem_range.mpr (hf q t ht)

/-- With one round of iteration per possible state, saturation reaches a
closed set: the rendering of the worklist's "no state is revisited, so the
loop stops exactly at the epsilon-closed set" argument. -/
theorem saturate_closed_of_card {f : Nat → List Nat} {n : Nat}
    (hf : ∀ q, ∀ t ∈ f q, t < n) :
    ∀ (k : Nat) (S : Finset Nat), S ⊆ Finset.range n → n ≤ S.card + k →
      Closed f (saturate f k S) := by
  intro k
  induction k with
  | zero =>
    intro S hS hcard
    rw [saturate]
    have hS_eq : S = Finset.range n := by
      apply Finset.eq_of_subset_of_card_le hS
      simpa using hcard
    subst hS_eq
    intro q hq t ht
    exact Finset.mem_range.mpr (hf q t ht)
  | succ m ih =>
    intro S hS hcard
    rw [saturate]
    split_ifs with h
    · exact closed_of_satStep_eq h
    · have hsub : S ⊂ satStep f S :=
        Finset.ssubset_iff_subset_ne.mpr ⟨subset_satStep f S, fun heq => h heq.symm⟩
      have hrange : satStep f S ⊆ Finset.range n := by
        intro a ha
        rcases mem_satStep.mp ha with ha | ⟨q, hq, ha⟩
        · exact hS ha
        · exact Finset.mem_range.mpr (hf q a ha)
      refine ih (satStep f S) hrange ?_
      have := Finset.card_lt_card hsub
      omega

theorem eclosure_closed {b : Builder} (hwf : ∀ q, ∀ t ∈ epsSuccs b q, t < b.size)
    (S : Finset Nat) (hS : S ⊆ Finset.range b.size) :
    Closed (epsSuccs b) (eclosure b S) := by
  refine saturate_closed_of_card hwf (b.size + 1) S hS ?_
  omega

end Automata

namespace Automata

theorem getD_set_self {α : Type} (v d : α) :
    ∀ (l : List α) (i : Nat), i < l.length → (l.set i v).getD i d = v := by
  intro l
  induction l with
  | nil => intro i h; simp at h
  | cons x xs ih =>
    intro i h
    cases i with
    | zero => rfl
    | succ j =>
      simp only [List.set_cons_succ, List.getD_cons_succ]
      exact ih j (by simpa using h)

theorem getD_set_ne {α : Type} (v d : α) :
    ∀ (l : List α) (i j : Nat), i ≠ j → (l.set i v).getD j d = l.getD j d := by
  intro l
  induction l with
  | nil => intro i j _; simp [List.set]
  | cons x xs ih =>
    intro i j hne
    cases i with
    | zero =>
      cases j with
      | zero => exact absurd rfl hne
      | succ j' => rfl
    | succ i' =>
      cases j with
      | zero => rfl
      | succ j' =>
        simp only [List.set_cons_succ, List.getD_cons_succ]
        exact ih i' j' (fun h => hne (by rw [h]))

theorem set_of_le {α : Type} (v : α) :
    ∀ (l : List α) (i : Nat), l.length ≤ i → l.set i v = l := by
  intro l
  induction l with
  | nil => intro i _; simp
  | cons x xs ih =>
    intro i h
    cases i with
    | zero => simp at h
    | succ j => simp only [List.set_cons_succ]; rw [ih j (by simpa using h)]

theorem getD_of_le {α : Type} (d : α) :
    ∀ (l : List α) (i : Nat), l.length ≤ i → l.getD i d = d := by
  intro l
  induction l with
  | nil => intro i _; simp
  | cons x xs ih =>
    intro i h
    cases i with
    | zero => simp at h
    | succ j => simp only [List.getD_cons_succ]; exact ih j (by simpa using h)

theorem getD_append_left {α : Type} (d : α) :
    ∀ (l l2 : List α) (i : Nat), i < l.length → (l ++ l2).getD i d = l.getD i d := by
  intro l
  induction l with
  | nil => intro l2 i h; simp at h
  | cons x xs ih =>
    intro l2 i h
    cases i with
    | zero => rfl
    | succ j =>
      simp only [List.cons_append, List.getD_cons_succ]
      exact ih l2 j (by simpa using h)

/-- Well-formedness of the arena: every transition targets an allocated
state.  All builders produced by the source's combinator calls satisfy
this. -/
def WF (b : Builder) : Prop := ∀ q : Nat, ∀ e ∈ (b.get q).trans, e.2 < b.size

theorem get_of_le {b : Builder} {q : Nat} (h : b.size ≤ q) : b.get q = blankState :=
  getD_of_le blankState b.states q h

theorem wf_empty : WF emptyBuilder := by
  intro q e he
  rw [get_of_le (by simp [emptyBuilder, Builder.size])] at he
  cases he

theorem size_createState (b : Builder) : (createState b).1.size = b.size + 1 := by
  simp [createState, Builder.size]

theorem get_createState (b : Builder) (p : Nat) : (createState b).1.get p = b.get p := by
  rcases lt_trichotomy p b.size with h | h | h
  · exact getD_append_left blankState b.states [blankState] p h
  · subst h
    rw [get_of_le (le_refl _)]
    show (b.states ++ [blankState]).getD b.states.length blankState = blankState
    induction b.states with
    | nil => rfl
    | cons x xs ih => simpa using ih
  · have h1 : (createState b).1.get p = blankState :=
      get_of_le (by rw [size_createState]; omega)
    have h2 : b.get p = blankState := get_of_le (le_of_lt h)
    rw [h1, h2]

theorem wf_createState {b : Builder} (h : WF b) : WF (createState b).1 := by
  intro q e he
  rw [get_createState] at he
  have := h q e he
  rw [size_createState]
  omega

theorem size_addTrans (b : Builder) (q : Nat) (c : Char) (t : Nat) :
    (addTrans b q c t).size = b.size := by
  simp [addTrans, Builder.size]

theorem get_addTrans_self {b : Builder} {q : Nat} (h : q < b.size) (c : Char) (t : Nat) :
    (addTrans b q c t).get q = ⟨(b.get q).trans ++ [(c, t)], (b.get q).isFinal⟩ :=
  getD_set_self _ _ b.states q h

theorem get_addTrans_ne {b : Builder} {p q : Nat} (h : q ≠ p) (c : Char) (t : Nat) :
    (addTrans b q c t).get p = b.get p :=
  getD_set_ne _ _ b.states q p h

theorem addTrans_of_le {b : Builder} {q : Nat} (h : b.size ≤ q) (c : Char) (t : Nat) :
    addTrans b q c t = b := by
  show Builder.mk (b.states.set q _) = b
  rw [set_of_le _ b.states q h]

theorem wf_addTrans {b : Builder} {q t : Nat} {c : Char} (h : WF b) (ht : t < b.size) :
    WF (addTrans b q c t) := by
  intro p e he
  rw [size_addTrans]
  by_cases hq : q < b.size
  · by_cases hpq : q = p
    · subst hpq
      rw [get_addTrans_self hq] at he
      rcases List.mem_append.mp he with he | he
      · exact h q e he
      · have : e = (c, t) := by simpa using he
        rw [this]
        exact ht
    · rw [get_addTrans_ne hpq] at he
      exact h p e he
  · rw [addTrans_of_le (not_lt.mp hq)] at he
    exact h p e he

theorem size_setFinal (b : Builder) (q : Nat) (v : Bool) :
    (setFinal b q v).size = b.size := by
  simp [setFinal, Builder.size]

theorem get_setFinal_self {b : Builder} {q : Nat} (h : q < b.size) (v : Bool) :
    (setFinal b q v).get q = ⟨(b.get q).trans, v⟩ :=
  getD_set_self _ _ b.states q h

theorem get_setFinal_ne {b : Builder} {p q : Nat} (h : q ≠ p) (v : Bool) :
    (setFinal b q v).get p = b.get p :=
  getD_set_ne _ _ b.states q p h

theorem setFinal_of_le {b : Builder} {q : Nat} (h : b.size ≤ q) (v : Bool) :
    setFinal b q v = b := by
  show Builder.mk (b.states.set q _) = b
  rw [set_of_le _ b.states q h]

theorem trans_setFinal (b : Builder) (q : Nat) (v : Bool) (p : Nat) :
    ((setFinal b q v).get p).trans = (b.get p).trans := by
  by_cases hq : q < b.size
  · by_cases hpq : q = p
    · subst hpq
      rw [get_setFinal_self hq]
    · rw [get_setFinal_ne hpq]
  · rw [setFinal_of_le (not_lt.mp hq)]

theorem wf_setFinal {b : Builder} {q : Nat} {v : Bool} (h : WF b) : WF (setFinal b q v) := by
  intro p e he
  rw [trans_setFinal] at he
  rw [size_setFinal]
  exact h p e he

end Automata

namespace Automata

/-- Both endpoints of a fragment are allocated states. -/
def FragIn (b : Builder) (f : NFAPtr) : Prop := f.start < b.size ∧ f.stop < b.size

theorem fragIn_mono {b b' : Builder} {f : NFAPtr} (h : b.size ≤ b'.size) (hf : FragIn b f) :
    FragIn b' f := ⟨lt_of_lt_of_le hf.1 h, lt_of_lt_of_le hf.2 h⟩

theorem wf_concatenate {b : Builder} {a c : NFAPtr} (h : WF b) (ha : FragIn b a)
    (hc : FragIn b c) :
    WF (concatenate b a c).1 ∧ (concatenate b a c).1.size = b.size ∧
      (concatenate b a c).2 = ⟨a.start, c.stop⟩ := by
  refine ⟨?_, ?_, rfl⟩
  · exact wf_setFinal (wf_addTrans h hc.1)
  · rw [concatenate]
    simp only
    rw [size_setFinal, size_addTrans]

theorem wf_unionNFA {b : Builder} {a c : NFAPtr} (h : WF b) (ha : FragIn b a)
    (hc : FragIn b c) :
    WF (unionNFA b a c).1 ∧ (unionNFA b a c).1.size = b.size + 2 ∧
      FragIn (unionNFA b a c).1 (unionNFA b a c).2 := by
  obtain ⟨ha1, ha2⟩ := ha
  obtain ⟨hc1, hc2⟩ := hc
  simp only [Builder.size] at ha1 ha2 hc1 hc2
  have h2 : WF (createState (createState b).1).1 := wf_createState (wf_createState h)
  refine ⟨?_, ?_, ?_, ?_⟩
  · refine wf_setFinal (wf_setFinal (wf_setFinal (wf_addTrans (wf_addTrans
      (wf_addTrans (wf_addTrans h2 ?_) ?_) ?_) ?_))) <;>
      (simp [addTrans, createState, setFinal, Builder.size] <;> omega)
  all_goals
    simp [unionNFA, addTrans, createState, setFinal, Builder.size, FragIn]

theorem wf_kleeneStar {b : Builder} {a : NFAPtr} (h : WF b) (ha : FragIn b a) :
    WF (kleeneStar b a).1 ∧ (kleeneStar b a).1.size = b.size + 2 ∧
      FragIn (kleeneStar b a).1 (kleeneStar b a).2 := by
  obtain ⟨ha1, ha2⟩ := ha
  simp only [Builder.size] at ha1 ha2
  have h2 : WF (createState (createState b).1).1 := wf_createState (wf_createState h)
  refine ⟨?_, ?_, ?_, ?_⟩
  · refine wf_setFinal (wf_setFinal (wf_addTrans (wf_addTrans
      (wf_addTrans (wf_addTrans h2 ?_) ?_) ?_) ?_)) <;>
      (simp [addTrans, createState, setFinal, Builder.size] <;> omega)
  all_goals
    simp [kleeneStar, addTrans, createState, setFinal, Builder.size, FragIn]

theorem wf_zeroOrOne {b : Builder} {a : NFAPtr} (h : WF b) (ha : FragIn b a) :
    WF (zeroOrOne b a).1 ∧ (zeroOrOne b a).1.size = b.size + 2 ∧
      FragIn (zeroOrOne b a).1 (zeroOrOne b a).2 := by
  obtain ⟨ha1, ha2⟩ := ha
  simp only [Builder.size] at ha1 ha2
  have h2 : WF (createState (createState b).1).1 := wf_createState (wf_createState h)
  refine ⟨?_, ?_, ?_, ?_⟩
  · refine wf_setFinal (wf_setFinal (wf_addTrans (wf_addTrans
      (wf_addTrans h2 ?_) ?_) ?_)) <;>
      (simp [addTrans, createState, setFinal, Builder.size] <;> omega)
  all_goals
    simp [zeroOrOne, addTrans, createState, setFinal, Builder.size, FragIn]

theorem fragIn_def (b : Builder) (f : NFAPtr) :
    FragIn b f ↔ f.start < b.size ∧ f.stop < b.size := Iff.rfl

theorem wf_oneOrMore {b : Builder} {a : NFAPtr} (h : WF b) (ha : FragIn b a) :
    WF (oneOrMore b a).1 ∧ (oneOrMore b a).1.size = b.size + 2 ∧
      FragIn (oneOrMore b a).1 (oneOrMore b a).2 := by
  obtain ⟨hw, hsz, hfr⟩ := wf_kleeneStar h ha
  obtain ⟨hf1, hf2⟩ := hfr
  obtain ⟨ha1, ha2⟩ := ha
  have ha' : FragIn (kleeneStar b a).1 a := ⟨by omega, by omega⟩
  obtain ⟨hw2, hsz2, hfr2⟩ := wf_concatenate hw ha' ⟨hf1, hf2⟩
  have hone : oneOrMore b a = concatenate (kleeneStar b a).1 a (kleeneStar b a).2 := by
    rw [oneOrMore]
  rw [hone]
  refine ⟨hw2, by omega, ?_⟩
  rw [hfr2, fragIn_def]
  exact ⟨by simp only; omega, by simp only; omega⟩

theorem states_length_foldl_addTrans (s e : Nat) :
    ∀ (l : List Char) (b : Builder),
      (l.foldl (fun bb c => addTrans bb s c e) b).states.length = b.states.length := by
  intro l
  induction l with
  | nil => intro b; rfl
  | cons c cs ih =>
    intro b
    rw [List.foldl_cons, ih]
    simp [addTrans]

theorem wf_foldl_addTrans {s e : Nat} :
    ∀ (l : List Char) (b : Builder), WF b → e < b.size →
      WF (l.foldl (fun bb c => addTrans bb s c e) b) ∧
        (l.foldl (fun bb c => addTrans bb s c e) b).size = b.size := by
  intro l
  induction l with
  | nil => intro b h he; exact ⟨h, rfl⟩
  | cons c cs ih =>
    intro b h he
    rw [List.foldl_cons]
    obtain ⟨h1, h2⟩ := ih (addTrans b s c e) (wf_addTrans h he) (by rwa [size_addTrans])
    exact ⟨h1, by rwa [size_addTrans] at h2⟩

end Automata

namespace Lexer

open Automata

theorem wf_createCharNFA {b : Builder} (h : WF b) (c : Char) :
    WF (createCharNFA b c).1 ∧ (createCharNFA b c).1.size = b.size + 2 ∧
      FragIn (createCharNFA b c).1 (createCharNFA b c).2 := by
  have h2 : WF (createState (createState b).1).1 := wf_createState (wf_createState h)
  refine ⟨?_, ?_, ?_, ?_⟩
  · refine wf_addTrans h2 ?_
    simp [createState, Builder.size]
  all_goals
    simp [createCharNFA, addTrans, createState, Builder.size, FragIn]

theorem wf_createCharClassNFA {b b' : Builder} {f : NFAPtr} {cls : String} (h : WF b)
    (hok : createCharClassNFA b cls = .ok (b', f)) :
    WF b' ∧ b'.size = b.size + 2 ∧ FragIn b' f := by
  rw [createCharClassNFA] at hok
  cases hp : parseCharacterClass cls with
  | error err => rw [hp] at hok; cases hok
  | ok validChars =>
    rw [hp] at hok
    injection hok with hok
    injection hok with hok1 hok2
    subst hok1
    subst hok2
    have h2 : WF (createState (createState b).1).1 := wf_createState (wf_createState h)
    have hsz : (createState (createState b).1).1.size = b.size + 2 := by
      rw [size_createState, size_createState]
    obtain ⟨hw, hs⟩ := @wf_foldl_addTrans b.states.length ((b.states ++ [blankState]).length)
      (ascList validChars) (createState (createState b).1).1 h2
      (by simp [createState, Builder.size])
    refine ⟨hw, ?_, ?_, ?_⟩ <;>
      (simp [states_length_foldl_addTrans, createState, Builder.size] <;> omega)

end Lexer

namespace ChessNFA

open Automata

theorem wf_chessCharNFA {b : Builder} (h : WF b) (c : Char) :
    WF (createCharNFA b c).1 ∧ (createCharNFA b c).1.size = b.size + 2 ∧
      FragIn (createCharNFA b c).1 (createCharNFA b c).2 := by
  have h2 : WF (createState (createState b).1).1 := wf_createState (wf_createState h)
  refine ⟨?_, ?_, ?_, ?_⟩
  · refine wf_setFinal (wf_addTrans h2 ?_)
    simp [createState, Builder.size]
  all_goals
    simp [createCharNFA, addTrans, setFinal, createState, Builder.size, FragIn]

theorem wf_chessCharClassNFA {b b' : Builder} {f : NFAPtr} {cls : String} (h : WF b)
    (hok : createCharClassNFA b cls = .ok (b', f)) :
    WF b' ∧ b'.size = b.size + 2 ∧ FragIn b' f := by
  rw [createCharClassNFA] at hok
  cases hp : parseCharacterClass cls with
  | error err => rw [hp] at hok; cases hok
  | ok validChars =>
    rw [hp] at hok
    injection hok with hok
    injection hok with hok1 hok2
    subst hok1
    subst hok2
    have h2 : WF (createState (createState b).1).1 := wf_createState (wf_createState h)
    have hsz : (createState (createState b).1).1.size = b.size + 2 := by
      rw [size_createState, size_createState]
    obtain ⟨hw, hs⟩ := @wf_foldl_addTrans b.states.length ((b.states ++ [blankState]).length)
      (ascList validChars) (createState (createState b).1).1 h2
      (by simp [createState, Builder.size])
    refine ⟨wf_setFinal hw, ?_, ?_, ?_⟩ <;>
      (simp [setFinal, states_length_foldl_addTrans, createState, Builder.size] <;> omega)

end ChessNFA

namespace Automata

/-- Abstract syntax of combinator call trees: one constructor per
combinator the source exposes (`literal`, `charClass`, `concat`, `union`,
`star`, `plus`, `optional`).  A `Pat` value records exactly a nest of
combinator calls performed against a shared builder, which is how both
source files construct every pattern. -/
inductive Pat where
  | ch (c : Char)
  | cls (s : String)
  | cat (p q : Pat)
  | alt (p q : Pat)
  | star (p : Pat)
  | plus (p : Pat)
  | opt (p : Pat)

/-- Run the combinator calls described by a `Pat` against a builder.
`mark` chooses the char-level constructors: `true` uses chessNot.cpp's
(which flag the fresh end state accepting), `false` uses Final.cpp's
(which do not).  All composite combinators are shared verbatim by the two
files.  A character-class parse exception aborts the construction. -/
def compile (mark : Bool) : Pat → Builder → Except CCErr (Builder × NFAPtr)
  | .ch c, b => .ok (if mark then ChessNFA.createCharNFA b c else Lexer.createCharNFA b c)
  | .cls s, b => if mark then ChessNFA.createCharClassNFA b s else Lexer.createCharClassNFA b s
  | .cat p q, b =>
    match compile mark p b with
    | .error e => .error e
    | .ok (b1, fp) =>
      match compile mark q b1 with
      | .error e => .error e
      | .ok (b2, fq) => .ok (concatenate b2 fp fq)
  | .alt p q, b =>
    match compile mark p b with
    | .error e => .error e
    | .ok (b1, fp) =>
      match compile mark q b1 with
      | .error e => .error e
      | .ok (b2, fq) => .ok (unionNFA b2 fp fq)
  | .star p, b =>
    match compile mark p b with
    | .error e => .error e
    | .ok (b1, fp) => .ok (kleeneStar b1 fp)
  | .plus p, b =>
    match compile mark p b with
    | .error e => .error e
    | .ok (b1, fp) => .ok (oneOrMore b1 fp)
  | .opt p, b =>
    match compile mark p b with
    | .error e => .error e
    | .ok (b1, fp) => .ok (zeroOrOne b1 fp)

theorem compile_wf (mark : Bool) :
    ∀ (p : Pat) (b b' : Builder) (f : NFAPtr), WF b → compile mark p b = .ok (b', f) →
      WF b' ∧ FragIn b' f ∧ b.size ≤ b'.size := by
  intro p
  induction p with
  | ch c =>
    intro b b' f hwf hok
    rw [compile] at hok
    injection hok with hok
    cases mark
    · rw [if_neg (by simp)] at hok
      obtain ⟨hw, hsz, hfr⟩ := Lexer.wf_createCharNFA hwf c
      obtain ⟨rfl, rfl⟩ : b' = (Lexer.createCharNFA b c).1 ∧ f = (Lexer.createCharNFA b c).2 := by
        rw [hok]; exact ⟨rfl, rfl⟩
      exact ⟨hw, hfr, by omega⟩
    · rw [if_pos rfl] at hok
      obtain ⟨hw, hsz, hfr⟩ := ChessNFA.wf_chessCharNFA hwf c
      obtain ⟨rfl, rfl⟩ : b' = (ChessNFA.createCharNFA b c).1 ∧ f = (ChessNFA.createCharNFA b c).2 := by
        rw [hok]; exact ⟨rfl, rfl⟩
      exact ⟨hw, hfr, by omega⟩
  | cls s =>
    intro b b' f hwf hok
    rw [compile] at hok
    cases mark
    · rw [if_neg (by simp)] at hok
      obtain ⟨hw, hsz, hfr⟩ := Lexer.wf_createCharClassNFA hwf hok
      exact ⟨hw, hfr, by omega⟩
    · rw [if_pos rfl] at hok
      obtain ⟨hw, hsz, hfr⟩ := ChessNFA.wf_chessCharClassNFA hwf hok
      exact ⟨hw, hfr, by omega⟩
  | cat p q ihp ihq =>
    intro b b' f hwf hok
    rw [compile] at hok
    cases h1 : compile mark p b with
    | error e => rw [h1] at hok; cases hok
    | ok r1 =>
      obtain ⟨b1, fp⟩ := r1
      rw [h1] at hok
      dsimp only at hok
      cases h2 : compile mark q b1 with
      | error e => rw [h2] at hok; cases hok
      | ok r2 =>
        obtain ⟨b2, fq⟩ := r2
        rw [h2] at hok
        dsimp only at hok
        injection hok with hok
        obtain ⟨hw1, hf1, hs1⟩ := ihp b b1 fp hwf h1
        obtain ⟨hw2, hf2, hs2⟩ := ihq b1 b2 fq hw1 h2
        have hf1' : FragIn b2 fp := fragIn_mono hs2 hf1
        obtain ⟨hw3, hsz3, hfr3⟩ := wf_concatenate hw2 hf1' hf2
        obtain ⟨rfl, rfl⟩ : b' = (concatenate b2 fp fq).1 ∧ f = (concatenate b2 fp fq).2 := by
          rw [hok]; exact ⟨rfl, rfl⟩
        refine ⟨hw3, ?_, by omega⟩
        rw [hfr3, fragIn_def]
        obtain ⟨hp1, hp2⟩ := hf1'
        obtain ⟨hq1, hq2⟩ := hf2
        exact ⟨by simp only; omega, by simp only; omega⟩
  | alt p q ihp ihq =>
    intro b b' f hwf hok
    rw [compile] at hok
    cases h1 : compile mark p b with
    | error e => rw [h1] at hok; cases hok
    | ok r1 =>
      obtain ⟨b1, fp⟩ := r1
      rw [h1] at hok
      dsimp only at hok
      cases h2 : compile mark q b1 with
      | error e => rw [h2] at hok; cases hok
      | ok r2 =>
        obtain ⟨b2, fq⟩ := r2
        rw [h2] at hok
        dsimp only at hok
        injection hok with hok
        obtain ⟨hw1, hf1, hs1⟩ := ihp b b1 fp hwf h1
        obtain ⟨hw2, hf2, hs2⟩ := ihq b1 b2 fq hw1 h2
        have hf1' : FragIn b2 fp := fragIn_mono hs2 hf1
        obtain ⟨hw3, hsz3, hfr3⟩ := wf_unionNFA hw2 hf1' hf2
        obtain ⟨rfl, rfl⟩ : b' = (unionNFA b2 fp fq).1 ∧ f = (unionNFA b2 fp fq).2 := by
          rw [hok]; exact ⟨rfl, rfl⟩
        exact ⟨hw3, hfr3, by omega⟩
  | star p ihp =>
    intro b b' f hwf hok
    rw [compile] at hok
    cases h1 : compile mark p b with
    | error e => rw [h1] at hok; cases hok
    | ok r1 =>
      obtain ⟨b1, fp⟩ := r1
      rw [h1] at hok
      dsimp only at hok
      injection hok with hok
      obtain ⟨hw1, hf1, hs1⟩ := ihp b b1 fp hwf h1
      obtain ⟨hw3, hsz3, hfr3⟩ := wf_kleeneStar hw1 hf1
      obtain ⟨rfl, rfl⟩ : b' = (kleeneStar b1 fp).1 ∧ f = (kleeneStar b1 fp).2 := by
        rw [hok]; exact ⟨rfl, rfl⟩
      exact ⟨hw3, hfr3, by omega⟩
  | plus p ihp =>
    intro b b' f hwf hok
    rw [compile] at hok
    cases h1 : compile mark p b with
    | error e => rw [h1] at hok; cases hok
    | ok r1 =>
      obtain ⟨b1, fp⟩ := r1
      rw [h1] at hok
      dsimp only at hok
      injection hok with hok
      obtain ⟨hw1, hf1, hs1⟩ := ihp b b1 fp hwf h1
      obtain ⟨hw3, hsz3, hfr3⟩ := wf_oneOrMore hw1 hf1
      obtain ⟨rfl, rfl⟩ : b' = (oneOrMore b1 fp).1 ∧ f = (oneOrMore b1 fp).2 := by
        rw [hok]; exact ⟨rfl, rfl⟩
      exact ⟨hw3, hfr3, by omega⟩
  | opt p ihp =>
    intro b b' f hwf hok
    rw [compile] at hok
    cases h1 : compile mark p b with
    | error e => rw [h1] at hok; cases hok
    | ok r1 =>
      obtain ⟨b1, fp⟩ := r1
      rw [h1] at hok
      dsimp only at hok
      injection hok with hok
      obtain ⟨hw1, hf1, hs1⟩ := ihp b b1 fp hwf h1
      obtain ⟨hw3, hsz3, hfr3⟩ := wf_zeroOrOne hw1 hf1
      obtain ⟨rfl, rfl⟩ : b' = (zeroOrOne b1 fp).1 ∧ f = (zeroOrOne b1 fp).2 := by
        rw [hok]; exact ⟨rfl, rfl⟩
      exact ⟨hw3, hfr3, by omega⟩

end Automata

namespace Automata

theorem mem_succsOn {b : Builder} {q t : Nat} {c : Char} :
    t ∈ succsOn b q c ↔ (c, t) ∈ (b.get q).trans := by
  rw [succsOn]
  simp only [List.mem_map, List.mem_filter]
  constructor
  · rintro ⟨e, ⟨he, hec⟩, het⟩
    have : e = (c, t) := by
      rcases e with ⟨e1, e2⟩
      simp at hec het
      rw [hec, het]
    rw [← this]
    exact he
  · intro h
    exact ⟨(c, t), ⟨h, by simp⟩, rfl⟩

theorem succsOn_lt {b : Builder} (hwf : WF b) (q : Nat) (c : Char) :
    ∀ t ∈ succsOn b q c, t < b.size := by
  intro t ht
  exact hwf q (c, t) (mem_succsOn.mp ht)

theorem epsSuccs_lt {b : Builder} (hwf : WF b) : ∀ q, ∀ t ∈ epsSuccs b q, t < b.size :=
  fun q => succsOn_lt hwf q epsChar

theorem allSuccs_lt {b : Builder} (hwf : WF b) : ∀ q, ∀ t ∈ allSuccs b q, t < b.size := by
  intro q t ht
  rw [allSuccs] at ht
  rcases List.mem_map.mp ht with ⟨e, he, het⟩
  have := hwf q e he
  rw [het] at this
  exact this

theorem succsOn_subset_allSuccs {b : Builder} {q t : Nat} {c : Char} (h : t ∈ succsOn b q c) :
    t ∈ allSuccs b q := by
  rw [allSuccs]
  exact List.mem_map.mpr ⟨(c, t), mem_succsOn.mp h, rfl⟩

theorem self_mem_reach (b : Builder) (q : Nat) : q ∈ reachSet b q :=
  subset_saturate (allSuccs b) (b.size + 1) {q} (Finset.mem_singleton_self q)

theorem reach_closed {b : Builder} (hwf : WF b) {q : Nat} (hq : q < b.size) :
    Closed (allSuccs b) (reachSet b q) := by
  refine saturate_closed_of_card (allSuccs_lt hwf) (b.size + 1) {q} ?_ ?_
  · simp [Finset.singleton_subset_iff, Finset.mem_range, hq]
  · simp
    omega

theorem reach_range {b : Builder} (hwf : WF b) {q : Nat} (hq : q < b.size) :
    reachSet b q ⊆ Finset.range b.size :=
  saturate_range (allSuccs_lt hwf) (b.size + 1) {q}
    (by simp [Finset.singleton_subset_iff, Finset.mem_range, hq])

theorem eclosure_sub_reach {b : Builder} (hwf : WF b) {q : Nat} (hq : q < b.size)
    {S : Finset Nat} (hS : S ⊆ reachSet b q) : eclosure b S ⊆ reachSet b q := by
  refine saturate_subset ?_ (b.size + 1) S hS
  intro p hp t ht
  exact reach_closed hwf hq p hp t (succsOn_subset_allSuccs ht)

theorem moveSet_sub_reach {b : Builder} (hwf : WF b) {q : Nat} (hq : q < b.size)
    {S : Finset Nat} (hS : S ⊆ reachSet b q) (c : Char) : moveSet b S c ⊆ reachSet b q := by
  intro t ht
  rw [moveSet] at ht
  rcases Finset.mem_biUnion.mp ht with ⟨p, hp, ht⟩
  exact reach_closed hwf hq p (hS hp) t (succsOn_subset_allSuccs (List.mem_toFinset.mp ht))

theorem moveSet_range {b : Builder} (hwf : WF b) (S : Finset Nat) (c : Char) :
    moveSet b S c ⊆ Finset.range b.size := by
  intro t ht
  rw [moveSet] at ht
  rcases Finset.mem_biUnion.mp ht with ⟨p, hp, ht⟩
  exact Finset.mem_range.mpr (succsOn_lt hwf p c t (List.mem_toFinset.mp ht))

theorem eclosure_range {b : Builder} (hwf : WF b) {S : Finset Nat}
    (hS : S ⊆ Finset.range b.size) : eclosure b S ⊆ Finset.range b.size :=
  saturate_range (epsSuccs_lt hwf) (b.size + 1) S hS

theorem moveSet_empty (b : Builder) (c : Char) : moveSet b ∅ c = ∅ := by
  rw [moveSet]
  exact Finset.biUnion_empty

theorem eclosure_empty (b : Builder) : eclosure b ∅ = ∅ :=
  saturate_empty (epsSuccs b) (b.size + 1)

theorem nfaStep_empty (b : Builder) (c : Char) : nfaStep b ∅ c = ∅ := by
  rw [nfaStep, moveSet_empty, eclosure_empty]

theorem nfaFrom_empty (b : Builder) : ∀ s : List Char, nfaFrom b ∅ s = ∅ := by
  intro s
  induction s with
  | nil => rfl
  | cons c cs ih => rw [nfaFrom, List.foldl_cons, nfaStep_empty]; exact ih

theorem mem_alphabet {b : Builder} {q p t : Nat} {c : Char} (hp : p ∈ reachSet b q)
    (he : (c, t) ∈ (b.get p).trans) (hc : c ≠ epsChar) : c ∈ alphabetOf b q := by
  rw [alphabetOf]
  refine Finset.mem_biUnion.mpr ⟨p, hp, ?_⟩
  rw [List.mem_toFinset, stateSyms]
  refine List.mem_filter.mpr ⟨List.mem_map.mpr ⟨(c, t), he, rfl⟩, by simpa using hc⟩

theorem eps_not_mem_alphabet (b : Builder) (q : Nat) : epsChar ∉ alphabetOf b q := by
  rw [alphabetOf]
  intro h
  rcases Finset.mem_biUnion.mp h with ⟨p, _, hmem⟩
  rw [List.mem_toFinset, stateSyms] at hmem
  have := (List.mem_filter.mp hmem).2
  simp at this

theorem alphabet_complete {b : Builder} (hwf : WF b) {q : Nat} (hq : q < b.size)
    {S : Finset Nat} (hS : S ⊆ reachSet b q) {c : Char} (hne : moveSet b S c ≠ ∅)
    (hc : c ≠ epsChar) : c ∈ alphabetOf b q := by
  rcases Finset.nonempty_iff_ne_empty.mpr hne with ⟨t, ht⟩
  rw [moveSet] at ht
  rcases Finset.mem_biUnion.mp ht with ⟨p, hp, ht⟩
  exact mem_alphabet (hS hp) (mem_succsOn.mp (List.mem_toFinset.mp ht)) hc

end Automata

namespace Automata

/-- The parts of the subset-construction loop invariant that hold at every
point, even in the middle of processing one DFA state's symbols. -/
structure CoreInv (b : Builder) (q : Nat) (σ : BuildSt) : Prop where
  memoNodup : (memoSets σ).Nodup
  ids : σ.memo.map (·.2) = List.range σ.counter
  workSub : ∀ S ∈ σ.work, S ∈ memoSets σ
  workNodup : σ.work.Nodup
  workFresh : ∀ e ∈ σ.table, e.1.1 ∉ σ.work
  tblKeysNodup : (σ.table.map (·.1)).Nodup
  tblSound : ∀ e ∈ σ.table, e.1.2 ≠ epsChar ∧ e.1.2 ∈ alphabetOf b q ∧
    moveSet b e.1.1 e.1.2 ≠ ∅ ∧ e.2 = eclosure b (moveSet b e.1.1 e.1.2) ∧
    e.2 ∈ memoSets σ ∧ e.1.1 ∈ memoSets σ
  memoReach : ∀ S ∈ memoSets σ, S ⊆ reachSet b q
  memoRange : ∀ S ∈ memoSets σ, S ⊆ Finset.range b.size

/-- A registered DFA state has all its outgoing transitions recorded. -/
def DoneFor (b : Builder) (q : Nat) (σ : BuildSt) (S : Finset Nat) : Prop :=
  ∀ c ∈ alphabetOf b q, moveSet b S c ≠ ∅ → ((S, c), eclosure b (moveSet b S c)) ∈ σ.table

theorem doneFor_mono {b : Builder} {q : Nat} {σ σ' : BuildSt} {S : Finset Nat}
    (h : ∀ e ∈ σ.table, e ∈ σ'.table) (hd : DoneFor b q σ S) : DoneFor b q σ' S := by
  intro c hc hne
  exact h _ (hd c hc hne)

/-- Effect of `procChar` on the invariant state: processing one alphabet
symbol of the popped DFA state `S` preserves the core invariant, extends
memo and table monotonically, records the transition for `c` when the
successor union is nonempty, and registers any newly discovered DFA state
on the work stack. -/
theorem procChar_step {b : Builder} {q : Nat} (hwf : WF b) (hq : q < b.size)
    {S : Finset Nat} {σ : BuildSt} {c : Char}
    (hinv : CoreInv b q σ) (hcA : c ∈ alphabetOf b q)
    (hSmem : S ∈ memoSets σ) (hSwork : S ∉ σ.work)
    (hknew : (S, c) ∉ σ.table.map (·.1)) :
    CoreInv b q (procChar b S σ c) ∧
    (∃ l, (procChar b S σ c).memo = σ.memo ++ l) ∧
    (∃ t, (procChar b S σ c).table = σ.table ++ t ∧ ∀ e ∈ t, e.1 = (S, c)) ∧
    (moveSet b S c ≠ ∅ → ((S, c), eclosure b (moveSet b S c)) ∈ (procChar b S σ c).table) ∧
    (procChar b S σ c).memo.length + σ.work.length
      = σ.memo.length + (procChar b S σ c).work.length ∧
    (∀ S' ∈ memoSets (procChar b S σ c), S' ∈ memoSets σ ∨ S' ∈ (procChar b S σ c).work) ∧
    (∀ S' ∈ σ.work, S' ∈ (procChar b S σ c).work) ∧
    S ∉ (procChar b S σ c).work := by
  have hceps : c ≠ epsChar := fun h => eps_not_mem_alphabet b q (h ▸ hcA)
  by_cases hmv : moveSet b S c = ∅
  · have hflat : procChar b S σ c = σ := by
      simp only [procChar]
      rw [if_neg hceps, if_pos hmv]
    rw [hflat]
    refine ⟨hinv, ⟨[], by simp⟩, ⟨[], by simp⟩, fun h => absurd hmv h, by simp, ?_, ?_, hSwork⟩
    · intro S' hS'; exact Or.inl hS'
    · intro S' hS'; exact hS'
  · set T := eclosure b (moveSet b S c) with hT
    have hSreach : S ⊆ reachSet b q := hinv.memoReach S hSmem
    have hTreach : T ⊆ reachSet b q :=
      eclosure_sub_reach hwf hq (moveSet_sub_reach hwf hq hSreach c)
    have hTrange : T ⊆ Finset.range b.size :=
      eclosure_range hwf (moveSet_range hwf S c)
    by_cases hTmem : T ∈ memoSets σ
    · have hflat : procChar b S σ c = ⟨σ.memo, σ.table ++ [((S, c), T)], σ.work, σ.counter⟩ := by
        simp only [procChar]
        rw [if_neg hceps, if_neg hmv, if_pos hTmem]
      rw [hflat]
      have hmemoSets : memoSets ⟨σ.memo, σ.table ++ [((S, c), T)], σ.work, σ.counter⟩
          = memoSets σ := rfl
      refine ⟨?_, ⟨[], by simp⟩, ⟨[((S, c), T)], rfl, by simp⟩, ?_, by simp, ?_, ?_, hSwork⟩
      · refine ⟨hinv.memoNodup, hinv.ids, hinv.workSub, hinv.workNodup, ?_, ?_, ?_,
          hinv.memoReach, hinv.memoRange⟩
        · intro e he
          rcases List.mem_append.mp he with he | he
          · exact hinv.workFresh e he
          · have he2 : e = ((S, c), T) := by simpa using he
            rw [he2]
            exact hSwork
        · show ((σ.table ++ [((S, c), T)]).map (·.1)).Nodup
          rw [List.map_append, List.nodup_append]
          refine ⟨hinv.tblKeysNodup, by simp, ?_⟩
          intro k hk hk2
          rw [List.map_cons, List.map_nil, List.mem_singleton] at hk2
          rw [hk2] at hk
          exact hknew hk
        · intro e he
          rcases List.mem_append.mp he with he | he
          · exact hinv.tblSound e he
          · have he2 : e = ((S, c), T) := by simpa using he
            rw [he2]
            exact ⟨hceps, hcA, hmv, hT, hTmem, hSmem⟩
      · intro _
        exact List.mem_append.mpr (Or.inr (by simp))
      · intro S' hS'; exact Or.inl hS'
      · intro S' hS'; exact hS'
    · have hflat : procChar b S σ c = ⟨σ.memo ++ [(T, σ.counter)], σ.table ++ [((S, c), T)],
          T :: σ.work, σ.counter + 1⟩ := by
        simp only [procChar]
        rw [if_neg hceps, if_neg hmv, if_neg hTmem]
      rw [hflat]
      have hmemoSets : memoSets ⟨σ.memo ++ [(T, σ.counter)], σ.table ++ [((S, c), T)],
          T :: σ.work, σ.counter + 1⟩ = memoSets σ ++ [T] := by
        rw [memoSets, memoSets]
        simp
      refine ⟨?_, ⟨[(T, σ.counter)], rfl⟩, ⟨[((S, c), T)], rfl, by simp⟩, ?_,
        by simp; omega, ?_, ?_, ?_⟩
      · refine ⟨?_, ?_, ?_, ?_, ?_, ?_, ?_, ?_, ?_⟩
        · rw [hmemoSets, List.nodup_append]
          refine ⟨hinv.memoNodup, by simp, ?_⟩
          intro k hk hk2
          rw [List.mem_singleton] at hk2
          rw [hk2] at hk
          exact hTmem hk
        · show (σ.memo ++ [(T, σ.counter)]).map (·.2) = List.range (σ.counter + 1)
          rw [List.map_append, hinv.ids, List.range_succ]
          rfl
        · intro S' hS'
          rw [hmemoSets]
          rcases List.mem_cons.mp hS' with rfl | hS'
          · exact List.mem_append.mpr (Or.inr (by simp))
          · exact List.mem_append.mpr (Or.inl (hinv.workSub S' hS'))
        · refine List.nodup_cons.mpr ⟨?_, hinv.workNodup⟩
          intro hTw
          exact hTmem (hinv.workSub T hTw)
        · intro e he
          rcases List.mem_append.mp he with he | he
          · intro hew
            rcases List.mem_cons.mp hew with heT | hew
            · exact hTmem (heT ▸ (hinv.tblSound e he).2.2.2.2.2)
            · exact hinv.workFresh e he hew
          · have he2 : e = ((S, c), T) := by simpa using he
            rw [he2]
            intro hew
            rcases List.mem_cons.mp hew with heT | hew
            · exact hTmem (heT ▸ hSmem)
            · exact hSwork hew
        · show ((σ.table ++ [((S, c), T)]).map (·.1)).Nodup
          rw [List.map_append, List.nodup_append]
          refine ⟨hinv.tblKeysNodup, by simp, ?_⟩
          intro k hk hk2
          rw [List.map_cons, List.map_nil, List.mem_singleton] at hk2
          rw [hk2] at hk
          exact hknew hk
        · intro e he
          rcases List.mem_append.mp he with he | he
          · obtain ⟨h1, h2, h3, h4, h5, h6⟩ := hinv.tblSound e he
            refine ⟨h1, h2, h3, h4, ?_, ?_⟩
            · rw [hmemoSets]
              exact List.mem_append.mpr (Or.inl h5)
            · rw [hmemoSets]
              exact List.mem_append.mpr (Or.inl h6)
          · have he2 : e = ((S, c), T) := by simpa using he
            rw [he2]
            refine ⟨hceps, hcA, hmv, hT, ?_, ?_⟩
            · rw [hmemoSets]
              exact List.mem_append.mpr (Or.inr (by simp))
            · rw [hmemoSets]
              exact List.mem_append.mpr (Or.inl hSmem)
        · intro S' hS'
          rw [hmemoSets] at hS'
          rcases List.mem_append.mp hS' with hS' | hS'
          · exact hinv.memoReach S' hS'
          · have hST : S' = T := by simpa using hS'
            rw [hST]
            exact hTreach
        · intro S' hS'
          rw [hmemoSets] at hS'
          rcases List.mem_append.mp hS' with hS' | hS'
          · exact hinv.memoRange S' hS'
          · have hST : S' = T := by simpa using hS'
            rw [hST]
            exact hTrange
      · intro _
        exact List.mem_append.mpr (Or.inr (by simp))
      · intro S' hS'
        rw [hmemoSets] at hS'
        rcases List.mem_append.mp hS' with hS' | hS'
        · exact Or.inl hS'
        · have hST : S' = T := by simpa using hS'
          rw [hST]
          exact Or.inr (by simp)
      · intro S' hS'
        exact List.mem_cons.mpr (Or.inr hS')
      · intro hSw
        rcases List.mem_cons.mp hSw with hST | hSw
        · exact hTmem (hST ▸ hSmem)
        · exact hSwork hSw

end Automata

namespace Automata

theorem memoSets_append {σ σ' : BuildSt} {l : List (Finset Nat × Nat)}
    (h : σ'.memo = σ.memo ++ l) : memoSets σ' = memoSets σ ++ l.map (·.1) := by
  rw [memoSets, memoSets, h, List.map_append]

/-- Invariant preservation over the whole alphabet fold of `processState`:
after the fold, every symbol in `done_cs ++ rem` has its transition out of
`S` recorded (when the successor union is nonempty). -/
theorem foldl_procChar {b : Builder} {q : Nat} (hwf : WF b) (hq : q < b.size) (S : Finset Nat) :
    ∀ (rem done_cs : List Char) (σ : BuildSt),
      (done_cs ++ rem).Nodup →
      (∀ c ∈ done_cs ++ rem, c ∈ alphabetOf b q) →
      CoreInv b q σ →
      S ∈ memoSets σ → S ∉ σ.work →
      (∀ e ∈ σ.table, e.1.1 = S → e.1.2 ∈ done_cs) →
      (∀ c ∈ done_cs, moveSet b S c ≠ ∅ → ((S, c), eclosure b (moveSet b S c)) ∈ σ.table) →
      CoreInv b q (rem.foldl (procChar b S) σ) ∧
      S ∈ memoSets (rem.foldl (procChar b S) σ) ∧
      S ∉ (rem.foldl (procChar b S) σ).work ∧
      (∃ l, (rem.foldl (procChar b S) σ).memo = σ.memo ++ l) ∧
      (∃ t, (rem.foldl (procChar b S) σ).table = σ.table ++ t) ∧
      (∀ c ∈ done_cs ++ rem, moveSet b S c ≠ ∅ →
        ((S, c), eclosure b (moveSet b S c)) ∈ (rem.foldl (procChar b S) σ).table) ∧
      (∀ e ∈ (rem.foldl (procChar b S) σ).table, e.1.1 = S → e.1.2 ∈ done_cs ++ rem) ∧
      (rem.foldl (procChar b S) σ).memo.length + σ.work.length
        = σ.memo.length + (rem.foldl (procChar b S) σ).work.length ∧
      (∀ S' ∈ memoSets (rem.foldl (procChar b S) σ), S' ∈ memoSets σ ∨
        S' ∈ (rem.foldl (procChar b S) σ).work) ∧
      (∀ S' ∈ σ.work, S' ∈ (rem.foldl (procChar b S) σ).work) := by
  intro rem
  induction rem with
  | nil =>
    intro done_cs σ hnd hA hinv hSmem hSwork hSent hSdone
    rw [List.foldl_nil]
    refine ⟨hinv, hSmem, hSwork, ⟨[], by simp⟩, ⟨[], by simp⟩, ?_, ?_, by omega, ?_, ?_⟩
    · intro c hc
      exact hSdone c (by simpa using hc)
    · intro e he hS
      simpa using hSent e he hS
    · intro S' hS'; exact Or.inl hS'
    · intro S' hS'; exact hS'
  | cons c rest ih =>
    intro done_cs σ hnd hA hinv hSmem hSwork hSent hSdone
    rw [List.foldl_cons]
    have hcA : c ∈ alphabetOf b q := hA c (by simp)
    have hcnew : c ∉ done_cs := by
      intro hcd
      have hdisj := List.disjoint_of_nodup_append hnd
      exact hdisj hcd (by simp)
    have hknew : (S, c) ∉ σ.table.map (·.1) := by
      intro hk
      rcases List.mem_map.mp hk with ⟨e, he, hek⟩
      have := hSent e he (by rw [hek])
      rw [show e.1.2 = c from by rw [hek]] at this
      exact hcnew this
    obtain ⟨hinv1, ⟨l1, hmemo1⟩, ⟨t1, htable1, ht1keys⟩, hrec1, hlen1, hmw1, hwm1, hSw1⟩ :=
      procChar_step hwf hq hinv hcA hSmem hSwork hknew
    have hmemoSets1 : memoSets (procChar b S σ c) = memoSets σ ++ l1.map (·.1) :=
      memoSets_append hmemo1
    have hnd' : ((done_cs ++ [c]) ++ rest).Nodup := by
      rw [List.append_assoc]
      simpa using hnd
    have hA' : ∀ c' ∈ (done_cs ++ [c]) ++ rest, c' ∈ alphabetOf b q := by
      intro c' hc'
      refine hA c' ?_
      rw [List.append_assoc] at hc'
      simpa using hc'
    have hSmem1 : S ∈ memoSets (procChar b S σ c) := by
      rw [hmemoSets1]
      exact List.mem_append.mpr (Or.inl hSmem)
    have hSent1 : ∀ e ∈ (procChar b S σ c).table, e.1.1 = S → e.1.2 ∈ done_cs ++ [c] := by
      intro e he heS
      rw [htable1] at he
      rcases List.mem_append.mp he with he | he
      · exact List.mem_append.mpr (Or.inl (hSent e he heS))
      · have := ht1keys e he
        have hec : e.1.2 = c := by rw [this]
        rw [hec]
        simp
    have hSdone1 : ∀ c' ∈ done_cs ++ [c], moveSet b S c' ≠ ∅ →
        ((S, c'), eclosure b (moveSet b S c')) ∈ (procChar b S σ c).table := by
      intro c' hc' hne
      rcases List.mem_append.mp hc' with hc' | hc'
      · rw [htable1]
        exact List.mem_append.mpr (Or.inl (hSdone c' hc' hne))
      · have hcc : c' = c := by simpa using hc'
        rw [hcc]
        exact hrec1 (by rw [← hcc]; exact hne)
    obtain ⟨jinv, jSmem, jSwork, ⟨l2, jmemo⟩, ⟨t2, jtable⟩, jdone, jent, jlen, jmw, jwm⟩ :=
      ih (done_cs ++ [c]) (procChar b S σ c) hnd' hA' hinv1 hSmem1 hSw1 hSent1 hSdone1
    refine ⟨jinv, jSmem, jSwork, ?_, ?_, ?_, ?_, ?_, ?_, ?_⟩
    · exact ⟨l1 ++ l2, by rw [jmemo, hmemo1, List.append_assoc]⟩
    · exact ⟨t1 ++ t2, by rw [jtable, htable1, List.append_assoc]⟩
    · intro c' hc' hne
      refine jdone c' ?_ hne
      rw [List.append_assoc]
      exact hc'
    · intro e he heS
      have := jent e he heS
      rw [List.append_assoc] at this
      exact this
    · have h1 := hlen1
      have h2 := jlen
      rw [hmemo1] at h2
      rw [hmemo1] at h1
      simp only [List.length_append] at h1 h2 ⊢
      omega
    · intro S' hS'
      rcases jmw S' hS' with hS' | hS'
      · rcases hmw1 S' hS' with h | h
        · exact Or.inl h
        · exact Or.inr (jwm S' h)
      · exact Or.inr hS'
    · intro S' hS'
      exact jwm S' (hwm1 S' hS')

end Automata

namespace Automata

/-- The full worklist invariant: core plus completeness of every already
processed (registered but no longer pending) DFA state. -/
structure Inv (b : Builder) (q : Nat) (σ : BuildSt) : Prop where
  core : CoreInv b q σ
  processed : ∀ S ∈ memoSets σ, S ∉ σ.work → DoneFor b q σ S

/-- Termination measure of the subset-construction loop. -/
def buildMeasure (n : Nat) (σ : BuildSt) : Nat :=
  2 * (2 ^ n + 1 - σ.memo.length) + σ.work.length

theorem memo_le_bound {b : Builder} {q : Nat} {σ : BuildSt} (hinv : CoreInv b q σ) :
    σ.memo.length ≤ 2 ^ b.size := by
  have hlen : σ.memo.length = (memoSets σ).length := by
    rw [memoSets, List.length_map]
  have hcard : (memoSets σ).toFinset.card = (memoSets σ).length :=
    List.toFinset_card_of_nodup hinv.memoNodup
  have hsub : (memoSets σ).toFinset ⊆ (Finset.range b.size).powerset := by
    intro S hS
    rw [Finset.mem_powerset]
    exact hinv.memoRange S (List.mem_toFinset.mp hS)
  have := Finset.card_le_card hsub
  rw [hcard, Finset.card_powerset, Finset.card_range] at this
  omega

/-- Effect of one iteration of the subset-construction worklist loop. -/
theorem pop_step {b : Builder} {q : Nat} (hwf : WF b) (hq : q < b.size)
    {σ : BuildSt} {S : Finset Nat} {rest : List (Finset Nat)}
    (hinv : Inv b q σ) (hwork : σ.work = S :: rest) :
    Inv b q (processState b (ascList (alphabetOf b q)) S ⟨σ.memo, σ.table, rest, σ.counter⟩) ∧
    buildMeasure b.size
      (processState b (ascList (alphabetOf b q)) S ⟨σ.memo, σ.table, rest, σ.counter⟩)
      < buildMeasure b.size σ ∧
    (∃ l, (processState b (ascList (alphabetOf b q)) S
      ⟨σ.memo, σ.table, rest, σ.counter⟩).memo = σ.memo ++ l) := by
  set σ0 : BuildSt := ⟨σ.memo, σ.table, rest, σ.counter⟩ with hσ0
  have hmemo0 : memoSets σ0 = memoSets σ := rfl
  have hSmem : S ∈ memoSets σ := hinv.core.workSub S (by rw [hwork]; simp)
  have hwnd := hinv.core.workNodup
  rw [hwork] at hwnd
  have hSrest : S ∉ rest := (List.nodup_cons.mp hwnd).1
  have hinv0 : CoreInv b q σ0 := by
    refine ⟨hinv.core.memoNodup, hinv.core.ids, ?_, (List.nodup_cons.mp hwnd).2, ?_,
      hinv.core.tblKeysNodup, hinv.core.tblSound, hinv.core.memoReach, hinv.core.memoRange⟩
    · intro S' hS'
      exact hinv.core.workSub S' (by rw [hwork]; exact List.mem_cons.mpr (Or.inr hS'))
    · intro e he hew
      exact hinv.core.workFresh e he (by rw [hwork]; exact List.mem_cons.mpr (Or.inr hew))
  have hSent : ∀ e ∈ σ0.table, e.1.1 = S → e.1.2 ∈ ([] : List Char) := by
    intro e he heS
    exact absurd (by rw [hwork, heS]; simp : e.1.1 ∈ σ.work) (hinv.core.workFresh e he)
  obtain ⟨jinv, jSmem, jSwork, ⟨l, jmemo⟩, ⟨t, jtable⟩, jdone, jent, jlen, jmw, jwm⟩ :=
    foldl_procChar hwf hq S (ascList (alphabetOf b q)) [] σ0
      (by simpa using ascList_nodup (alphabetOf b q))
      (by intro c hc; exact (mem_ascList c _).mp (by simpa using hc))
      hinv0 hSmem hSrest hSent (by intro c hc; cases hc)
  rw [processState]
  refine ⟨⟨jinv, ?_⟩, ?_, ⟨l, jmemo⟩⟩
  · intro S' hS' hS'w
    by_cases hSS : S' = S
    · rw [hSS]
      intro c hc hne
      exact jdone c (by simpa using (mem_ascList c _).mpr hc) hne
    · have hold : S' ∈ memoSets σ := by
        rcases jmw S' hS' with h | h
        · exact h
        · exact absurd h hS'w
      have hS'rest : S' ∉ rest := fun h => hS'w (jwm S' h)
      have hS'w0 : S' ∉ σ.work := by
        rw [hwork]
        intro h
        rcases List.mem_cons.mp h with h | h
        · exact hSS h
        · exact hS'rest h
      refine doneFor_mono ?_ (hinv.processed S' hold hS'w0)
      intro e he
      rw [jtable]
      exact List.mem_append.mpr (Or.inl he)
  · have hb1 := memo_le_bound jinv
    have hb0 := memo_le_bound hinv.core
    have hmono : σ.memo.length ≤
        (List.foldl (procChar b S) σ0 (ascList (alphabetOf b q))).memo.length := by
      rw [jmemo]
      simp only [List.length_append]
      exact Nat.le_add_right _ _
    have hm0 : σ0.memo.length = σ.memo.length := rfl
    have hw0 : σ0.work.length = rest.length := rfl
    rw [hm0, hw0] at jlen
    rw [buildMeasure, buildMeasure, hwork]
    simp only [List.length_cons]
    generalize 2 ^ b.size = B at hb0 hb1 ⊢
    omega

/-- Draining the worklist: with fuel at least the measure, the loop ends
with an empty work stack and the invariant (hence completeness of every
registered DFA state). -/
theorem buildLoop_post {b : Builder} {q : Nat} (hwf : WF b) (hq : q < b.size) :
    ∀ (fuel : Nat) (σ : BuildSt), Inv b q σ → buildMeasure b.size σ ≤ fuel →
      Inv b q (buildLoop b (ascList (alphabetOf b q)) fuel σ) ∧
      (buildLoop b (ascList (alphabetOf b q)) fuel σ).work = [] ∧
      (∃ l, (buildLoop b (ascList (alphabetOf b q)) fuel σ).memo = σ.memo ++ l) := by
  intro fuel
  induction fuel with
  | zero =>
    intro σ hinv hfuel
    exfalso
    have := memo_le_bound hinv.core
    rw [buildMeasure] at hfuel
    omega
  | succ n ih =>
    intro σ hinv hfuel
    rw [buildLoop]
    cases hwork : σ.work with
    | nil =>
      exact ⟨hinv, hwork, ⟨[], by simp⟩⟩
    | cons S rest =>
      obtain ⟨kinv, klt, ⟨l1, kmemo⟩⟩ := pop_step hwf hq hinv hwork
      have hfuel' : buildMeasure b.size (processState b (ascList (alphabetOf b q)) S
          ⟨σ.memo, σ.table, rest, σ.counter⟩) ≤ n := by omega
      obtain ⟨minv, mwork, ⟨l2, mmemo⟩⟩ := ih _ kinv hfuel'
      refine ⟨minv, mwork, ⟨l1 ++ l2, ?_⟩⟩
      rw [mmemo, kmemo, List.append_assoc]

end Automata

namespace Automata

/-- The final state of the subset-construction loop inside `convertToDFA`. -/
def convSt (b : Builder) (nfa : NFAPtr) : BuildSt :=
  buildLoop b (ascList (alphabetOf b nfa.start)) (convFuel b)
    ⟨[(eclosure b {nfa.start}, 0)], [], [eclosure b {nfa.start}], 1⟩

theorem convertToDFA_eq (b : Builder) (nfa : NFAPtr) :
    convertToDFA b nfa = ⟨b, (convSt b nfa).memo, (convSt b nfa).table,
      (convSt b nfa).counter, eclosure b {nfa.start}⟩ := rfl

theorem convert_post {b : Builder} {nfa : NFAPtr} (hwf : WF b) (hq : nfa.start < b.size) :
    Inv b nfa.start (convSt b nfa) ∧ (convSt b nfa).work = [] ∧
      eclosure b {nfa.start} ∈ memoSets (convSt b nfa) := by
  have hreach0 : eclosure b {nfa.start} ⊆ reachSet b nfa.start :=
    eclosure_sub_reach hwf hq
      (Finset.singleton_subset_iff.mpr (self_mem_reach b nfa.start))
  have hrange0 : eclosure b {nfa.start} ⊆ Finset.range b.size :=
    eclosure_range hwf (Finset.singleton_subset_iff.mpr (Finset.mem_range.mpr hq))
  have hinv0 : Inv b nfa.start ⟨[(eclosure b {nfa.start}, 0)], [], [eclosure b {nfa.start}], 1⟩ := by
    refine ⟨⟨?_, ?_, ?_, ?_, ?_, ?_, ?_, ?_, ?_⟩, ?_⟩
    · simp [memoSets]
    · rfl
    · intro S hS
      simpa [memoSets] using hS
    · simp
    · intro e he
      cases he
    · simp
    · intro e he
      cases he
    · intro S hS
      have hS0 : S = eclosure b {nfa.start} := by simpa [memoSets] using hS
      rw [hS0]
      exact hreach0
    · intro S hS
      have hS0 : S = eclosure b {nfa.start} := by simpa [memoSets] using hS
      rw [hS0]
      exact hrange0
    · intro S hS hSw
      exfalso
      have hS0 : S = eclosure b {nfa.start} := by simpa [memoSets] using hS
      exact hSw (by rw [hS0]; simp)
  have hμ : buildMeasure b.size ⟨[(eclosure b {nfa.start}, 0)], [], [eclosure b {nfa.start}], 1⟩
      ≤ convFuel b := by
    rw [buildMeasure, convFuel]
    simp
  obtain ⟨hinv, hwork, ⟨l, hmemo⟩⟩ := buildLoop_post hwf hq (convFuel b) _ hinv0 hμ
  refine ⟨hinv, hwork, ?_⟩
  show eclosure b {nfa.start} ∈ memoSets (convSt b nfa)
  rw [convSt, memoSets, hmemo]
  simp

theorem lookup_of_mem {d : DFA} (hnd : (d.table.map (·.1)).Nodup)
    {S : Finset Nat} {c : Char} {T : Finset Nat} (hmem : ((S, c), T) ∈ d.table) :
    dfaLookup d S c = some T := by
  rw [dfaLookup]
  cases hf : d.table.find? (fun e => decide (e.1 = (S, c))) with
  | none =>
    have := List.find?_eq_none.mp hf _ hmem
    simp at this
  | some e =>
    have hp : e.1 = (S, c) := by
      have := List.find?_some hf
      simpa using this
    have hme := List.mem_of_find?_eq_some hf
    have hee : e = ((S, c), T) :=
      List.inj_on_of_nodup_map hnd hme hmem (by rw [hp])
    rw [hee]
    rfl

theorem lookup_none {d : DFA} {S : Finset Nat} {c : Char}
    (h : ∀ e ∈ d.table, e.1 ≠ (S, c)) : dfaLookup d S c = none := by
  rw [dfaLookup]
  cases hf : d.table.find? (fun e => decide (e.1 = (S, c))) with
  | none => rfl
  | some e =>
    exfalso
    have hp : e.1 = (S, c) := by
      have := List.find?_some hf
      simpa using this
    exact h e (List.mem_of_find?_eq_some hf) hp

theorem finalSet_empty (b : Builder) : finalSet b ∅ = false := rfl

/-- Correspondence of the DFA run with the closure-based NFA subset
simulation, from any registered DFA state: either the DFA completes the
string on exactly the simulated subsets, or it gets stuck at a point where
the simulated subset has become (and stays) empty. -/
theorem dfa_run_corr {b : Builder} {nfa : NFAPtr} (hwf : WF b) (hq : nfa.start < b.size) :
    ∀ (s : List Char) (S : Finset Nat), S ∈ memoSets (convSt b nfa) → epsChar ∉ s →
      (∃ T, dfaRunFrom (convertToDFA b nfa) S s = some T ∧ T = nfaFrom b S s ∧
        T ∈ memoSets (convSt b nfa)) ∨
      (dfaRunFrom (convertToDFA b nfa) S s = none ∧ nfaFrom b S s = ∅) := by
  obtain ⟨hinv, hwork, hstart⟩ := convert_post hwf hq
  intro s
  induction s with
  | nil =>
    intro S hS _
    exact Or.inl ⟨S, rfl, rfl, hS⟩
  | cons c cs ih =>
    intro S hS heps
    have hceps : c ≠ epsChar := fun h => heps (by rw [h]; simp)
    have hepscs : epsChar ∉ cs := fun h => heps (by simp [h])
    have htbl : (convertToDFA b nfa).table = (convSt b nfa).table := rfl
    by_cases hmv : moveSet b S c = ∅
    · refine Or.inr ⟨?_, ?_⟩
      · rw [dfaRunFrom]
        have hnone : dfaLookup (convertToDFA b nfa) S c = none := by
          refine lookup_none ?_
          intro e he hek
          have hsnd := (hinv.core.tblSound e (by rw [htbl] at he; exact he)).2.2.1
          rw [hek] at hsnd
          exact hsnd hmv
        rw [hnone]
      · rw [nfaFrom, List.foldl_cons]
        have : nfaStep b S c = ∅ := by
          rw [nfaStep, hmv, eclosure_empty]
        rw [this]
        exact nfaFrom_empty b cs
    · have hcA : c ∈ alphabetOf b nfa.start :=
        alphabet_complete hwf hq (hinv.core.memoReach S hS) hmv hceps
      have hdone := hinv.processed S hS (by rw [hwork]; simp) c hcA hmv
      have hT : dfaLookup (convertToDFA b nfa) S c = some (eclosure b (moveSet b S c)) := by
        refine lookup_of_mem ?_ ?_
        · exact hinv.core.tblKeysNodup
        · rw [htbl]
          exact hdone
      have hTmem : eclosure b (moveSet b S c) ∈ memoSets (convSt b nfa) :=
        (hinv.core.tblSound _ hdone).2.2.2.2.1
      rw [dfaRunFrom, hT]
      have hstep : nfaFrom b S (c :: cs) = nfaFrom b (eclosure b (moveSet b S c)) cs := by
        rw [nfaFrom, List.foldl_cons, nfaStep]
        rfl
      rw [hstep]
      exact ih (eclosure b (moveSet b S c)) hTmem hepscs

/-- Main equivalence: for a well-formed arena and allocated start state,
whole-string DFA acceptance of the subset-constructed DFA coincides with
the closure-simulated NFA acceptance, for every string avoiding the
reserved epsilon sentinel. -/
theorem dfa_nfa_equiv {b : Builder} {nfa : NFAPtr} (hwf : WF b) (hq : nfa.start < b.size)
    (s : List Char) (hs : epsChar ∉ s) :
    dfaAccepts (convertToDFA b nfa) s = nfaAccepts b nfa.start s := by
  obtain ⟨hinv, hwork, hstart⟩ := convert_post hwf hq
  have hstartS : (convertToDFA b nfa).startS = eclosure b {nfa.start} := rfl
  rcases dfa_run_corr hwf hq s (eclosure b {nfa.start}) hstart hs with
    ⟨T, hrun, hTn, _⟩ | ⟨hrun, hempty⟩
  · rw [dfaAccepts, hstartS, hrun, hTn]
    rfl
  · rw [dfaAccepts, hstartS, hrun]
    rw [nfaAccepts, nfaSimSet, hempty, finalSet_empty]

end Automata

open Automata in
/-- C1: For every NFA fragment built by the source's combinators (a
combinator call tree `Pat` compiled against a fresh builder, under either
file's char-level flavor) and every finite input string over ordinary
characters (the reserved epsilon sentinel `'\0'` is not an input symbol),
the NFA — simulated via the epsilon-closure subset algorithm — accepts the
string if and only if the DFA returned by `convertToDFA` for that fragment
accepts it. -/
theorem c1_nfa_dfa_equivalence (mark : Bool) (p : Pat) (b : Builder) (frag : NFAPtr)
    (s : List Char) (hok : compile mark p emptyBuilder = .ok (b, frag))
    (hs : epsChar ∉ s) :
    dfaAccepts (convertToDFA b frag) s = nfaAccepts b frag.start s := by
  obtain ⟨hwf, hfr, _⟩ := compile_wf mark p emptyBuilder b frag wf_empty hok
  exact dfa_nfa_equiv hwf hfr.1 s hs

open Automata in
/-- Witness for C1 at the fragment of `literal('a')` and the string "a". -/
theorem c1_nfa_dfa_equivalence_witness :
    dfaAccepts (convertToDFA ⟨[⟨[('a', 1)], false⟩, ⟨[], false⟩]⟩ ⟨0, 1⟩) ['a']
      = nfaAccepts ⟨[⟨[('a', 1)], false⟩, ⟨[], false⟩]⟩ 0 ['a'] :=
  c1_nfa_dfa_equivalence false (.ch 'a') ⟨[⟨[('a', 1)], false⟩, ⟨[], false⟩]⟩ ⟨0, 1⟩ ['a']
    (by decide) (by decide)

open Automata in
/-- C5: For every DFA produced by `convertToDFA` (from a combinator-built
fragment), (i) the transition table is deterministic: its keys
(source DFA state, symbol) are pairwise distinct, so every DFA state has
at most one successor per alphabet symbol; (ii) no entry is keyed by the
epsilon sentinel `'\0'`; (iii) the memo map is injective in both
directions: no two entries share the underlying NFA-state set and no two
entries share a DFA id, so distinct DFA states always carry distinct
subsets. -/
theorem c5_dfa_determinism (mark : Bool) (p : Pat) (b : Builder) (frag : NFAPtr)
    (hok : compile mark p emptyBuilder = .ok (b, frag)) :
    ((convertToDFA b frag).table.map (·.1)).Nodup ∧
    (convertToDFA b frag).table.all (fun e => decide (e.1.2 ≠ epsChar)) = true ∧
    ((convertToDFA b frag).memo.map (·.1)).Nodup ∧
    ((convertToDFA b frag).memo.map (·.2)).Nodup := by
  obtain ⟨hwf, hfr, _⟩ := compile_wf mark p emptyBuilder b frag wf_empty hok
  obtain ⟨hinv, hwork, hstart⟩ := convert_post hwf hfr.1
  have htbl : (convertToDFA b frag).table = (convSt b frag).table := rfl
  have hmemo : (convertToDFA b frag).memo = (convSt b frag).memo := rfl
  refine ⟨?_, ?_, ?_, ?_⟩
  · rw [htbl]
    exact hinv.core.tblKeysNodup
  · rw [htbl, List.all_eq_true]
    intro e he
    have := (hinv.core.tblSound e he).1
    simpa using this
  · rw [hmemo]
    exact hinv.core.memoNodup
  · rw [hmemo, hinv.core.ids]
    exact List.nodup_range _

open Automata in
/-- Witness for C5 at the fragment of `literal('a')`. -/
theorem c5_dfa_determinism_witness :
    ((convertToDFA ⟨[⟨[('a', 1)], false⟩, ⟨[], false⟩]⟩ ⟨0, 1⟩).table.map (·.1)).Nodup ∧
    (convertToDFA ⟨[⟨[('a', 1)], false⟩, ⟨[], false⟩]⟩ ⟨0, 1⟩).table.all
      (fun e => decide (e.1.2 ≠ epsChar)) = true ∧
    ((convertToDFA ⟨[⟨[('a', 1)], false⟩, ⟨[], false⟩]⟩ ⟨0, 1⟩).memo.map (·.1)).Nodup ∧
    ((convertToDFA ⟨[⟨[('a', 1)], false⟩, ⟨[], false⟩]⟩ ⟨0, 1⟩).memo.map (·.2)).Nodup :=
  c5_dfa_determinism false (.ch 'a') ⟨[⟨[('a', 1)], false⟩, ⟨[], false⟩]⟩ ⟨0, 1⟩ (by decide)

namespace Automata

theorem foldl_addTrans_get_self {s e : Nat} :
    ∀ (l : List Char) (b : Builder), s < b.size →
      (l.foldl (fun bb c => addTrans bb s c e) b).get s
        = ⟨(b.get s).trans ++ l.map (fun c => (c, e)), (b.get s).isFinal⟩ := by
  intro l
  induction l with
  | nil => intro b hs; simp
  | cons c cs ih =>
    intro b hs
    rw [List.foldl_cons]
    rw [ih (addTrans b s c e) (by rwa [size_addTrans])]
    rw [get_addTrans_self hs]
    simp

theorem foldl_addTrans_get_ne {s e p : Nat} (hp : p ≠ s) :
    ∀ (l : List Char) (b : Builder),
      (l.foldl (fun bb c => addTrans bb s c e) b).get p = b.get p := by
  intro l
  induction l with
  | nil => intro b; rfl
  | cons c cs ih =>
    intro b
    rw [List.foldl_cons, ih (addTrans b s c e), get_addTrans_ne (fun h => hp h.symm)]

/-- Subset simulation of a bare character-class fragment: both files build
two fresh states with one edge per member from the start into the end, so
on a one-character string of a member the simulated set is exactly the
singleton of the end state. -/
theorem twoStateSim {bf : Builder} {s e : Nat} {S : Finset Char} {fs fe : Bool} {c : Char}
    (hne : s ≠ e)
    (hs : bf.get s = ⟨(ascList S).map (fun ch => (ch, e)), fs⟩)
    (he : bf.get e = ⟨[], fe⟩) (hc : c ∈ S) :
    nfaSimSet bf s [c] = {e} := by
  have hsucc : ∀ q ∈ ({s, e} : Finset Nat), ∀ (ch : Char), ∀ t ∈ succsOn bf q ch, t = e := by
    intro q hq ch t ht
    rcases Finset.mem_insert.mp hq with rfl | hq
    · have := mem_succsOn.mp ht
      rw [hs] at this
      rcases List.mem_map.mp this with ⟨x, _, hx⟩
      exact (Prod.mk.injEq _ _ _ _).mp hx |>.2.symm ▸ rfl
    · have hqe : q = e := by simpa using hq
      subst hqe
      have := mem_succsOn.mp ht
      rw [he] at this
      cases this
  have hclosedC : Closed (epsSuccs bf) {s, e} := by
    intro q hq t ht
    have := hsucc q hq epsChar t ht
    rw [this]
    simp
  have hE0 : eclosure bf {s} ⊆ {s, e} :=
    saturate_subset hclosedC _ {s} (by simp)
  have hsE0 : s ∈ eclosure bf {s} := subset_saturate _ _ {s} (by simp)
  have hmove : moveSet bf (eclosure bf {s}) c = {e} := by
    apply Finset.Subset.antisymm
    · intro t ht
      rcases Finset.mem_biUnion.mp ht with ⟨q, hq, ht⟩
      have := hsucc q (hE0 hq) c t (List.mem_toFinset.mp ht)
      simp [this]
    · intro t ht
      have hte : t = e := by simpa using ht
      subst hte
      refine Finset.mem_biUnion.mpr ⟨s, hsE0, ?_⟩
      rw [List.mem_toFinset]
      refine mem_succsOn.mpr ?_
      rw [hs]
      exact List.mem_map.mpr ⟨c, (mem_ascList c S).mpr hc, rfl⟩
  have hEe : eclosure bf {e} = {e} := by
    refine saturate_of_fixed ?_ _
    apply satStep_eq_of_closed
    intro q hq t ht
    have hqe : q = e := by simpa using hq
    subst hqe
    have := mem_succsOn.mp ht
    rw [he] at this
    cases this
  show nfaFrom bf (eclosure bf {s}) [c] = {e}
  rw [nfaFrom, List.foldl_cons, List.foldl_nil, nfaStep, hmove, hEe]

end Automata

namespace Automata

theorem ascList_singleton {α : Type} [LinearOrder α] (a : α) : ascList {a} = [a] := rfl

/-- Shape of the fragment `ChessNFA::createCharClassNFA` builds on success:
the start state carries one edge per member into the end state, and the
end state has no transitions and is accepting. -/
theorem chessClassFrag (b : Builder) (cls : String) (S : Finset Char) (bc : Builder) (fc : NFAPtr)
    (hok : ChessNFA.createCharClassNFA b cls = .ok (bc, fc))
    (hS : ChessNFA.parseCharacterClass cls = .ok S) :
    fc = ⟨b.size, b.size + 1⟩ ∧
    bc.get b.size = ⟨(ascList S).map (fun ch => (ch, b.size + 1)), false⟩ ∧
    bc.get (b.size + 1) = ⟨[], true⟩ := by
  simp only [ChessNFA.createCharClassNFA, createState, List.length_append, List.length_cons,
    List.length_nil, Nat.zero_add] at hok
  rw [hS] at hok
  simp only [Except.ok.injEq, Prod.mk.injEq] at hok
  obtain ⟨h1, h2⟩ := hok
  subst h1
  subst h2
  simp only [Builder.size]
  set B2 : Builder := Builder.mk ((b.states ++ [blankState]) ++ [blankState]) with hB2
  have hB2get : ∀ p, B2.get p = b.get p :=
    fun p => (get_createState (createState b).1 p).trans (get_createState b p)
  have hB2size : B2.size = b.states.length + 2 := by
    simp [hB2, Builder.size]
  set bld : Builder :=
    (ascList S).foldl (fun bb c => addTrans bb b.states.length c (b.states.length + 1)) B2
    with hbldeq
  have hbldsize : bld.size = b.states.length + 2 := by
    show bld.states.length = b.states.length + 2
    rw [hbldeq, states_length_foldl_addTrans]
    simp [hB2]
  have hlt : b.states.length < B2.size := by omega
  have hfold := @foldl_addTrans_get_self b.states.length (b.states.length + 1) (ascList S) B2 hlt
  rw [hB2get, @get_of_le b b.states.length (le_refl _)] at hfold
  simp only [blankState, List.nil_append] at hfold
  have hend : bld.get (b.states.length + 1) = blankState := by
    rw [hbldeq]
    exact (@foldl_addTrans_get_ne b.states.length (b.states.length + 1) (b.states.length + 1)
      (by omega) (ascList S) B2).trans
      ((hB2get _).trans (@get_of_le b (b.states.length + 1) (Nat.le_succ_of_le (le_refl _))))
  refine ⟨trivial, ?_, ?_⟩
  · rw [@get_setFinal_ne bld b.states.length (b.states.length + 1) (by omega) true]
    exact hfold
  · rw [@get_setFinal_self bld (b.states.length + 1) (by omega) true]
    simp [hend, blankState]

/-- Shape of the fragment `Lexer::createCharClassNFA` (Final.cpp) builds on
success: identical to the chess one except that the end state keeps
`isFinal = false`. -/
theorem finalClassFrag (b : Builder) (cls : String) (S : Finset Char) (bf : Builder) (ff : NFAPtr)
    (hok : Lexer.createCharClassNFA b cls = .ok (bf, ff))
    (hS : Lexer.parseCharacterClass cls = .ok S) :
    ff = ⟨b.size, b.size + 1⟩ ∧
    bf.get b.size = ⟨(ascList S).map (fun ch => (ch, b.size + 1)), false⟩ ∧
    bf.get (b.size + 1) = ⟨[], false⟩ := by
  simp only [Lexer.createCharClassNFA, createState, List.length_append, List.length_cons,
    List.length_nil, Nat.zero_add] at hok
  rw [hS] at hok
  simp only [Except.ok.injEq, Prod.mk.injEq] at hok
  obtain ⟨h1, h2⟩ := hok
  subst h1
  subst h2
  simp only [Builder.size]
  set B2 : Builder := Builder.mk ((b.states ++ [blankState]) ++ [blankState]) with hB2
  have hB2get : ∀ p, B2.get p = b.get p :=
    fun p => (get_createState (createState b).1 p).trans (get_createState b p)
  have hB2size : B2.size = b.states.length + 2 := by
    simp [hB2, Builder.size]
  have hlt : b.states.length < B2.size := by omega
  have hfold := @foldl_addTrans_get_self b.states.length (b.states.length + 1) (ascList S) B2 hlt
  rw [hB2get, @get_of_le b b.states.length (le_refl _)] at hfold
  simp only [blankState, List.nil_append] at hfold
  have hend :
      ((ascList S).foldl (fun bb c => addTrans bb b.states.length c (b.states.length + 1))
        B2).get (b.states.length + 1) = ⟨[], false⟩ :=
    (@foldl_addTrans_get_ne b.states.length (b.states.length + 1) (b.states.length + 1)
      (by omega) (ascList S) B2).trans
      ((hB2get _).trans (@get_of_le b (b.states.length + 1) (Nat.le_succ_of_le (le_refl _))))
  exact ⟨trivial, hfold, hend⟩

end Automata

open Automata in
/-- C2, counterexample: Final.cpp's `createCharClassNFA` on the class
`[a]` succeeds, parses the member set `{'a'}`, yet the resulting fragment
does not accept the one-character string `"a"`, because Final.cpp never
marks the fragment's end state accepting. -/
theorem c2_charclass_counterexample :
    Lexer.createCharClassNFA emptyBuilder "[a]"
        = .ok (⟨[⟨[('a', 1)], false⟩, ⟨[], false⟩]⟩, ⟨0, 1⟩) ∧
    Lexer.parseCharacterClass "[a]" = .ok {'a'} ∧
    nfaAccepts ⟨[⟨[('a', 1)], false⟩, ⟨[], false⟩]⟩ 0 ['a'] = false := by
  refine ⟨by decide, by decide, by decide⟩

open Automata in
/-- C2, amended: for a character class accepted by both compilers and any
member `c` of the parsed set, the chessNot.cpp fragment does accept the
one-character string `c`; the Final.cpp fragment reaches its end state on
`c` (the end state is in the simulated subset) but does not accept, since
Final.cpp leaves the end state non-accepting. -/
theorem c2_charclass_amended (b : Builder) (cls : String) (S : Finset Char) (c : Char)
    (bc bf : Builder) (fc ff : NFAPtr)
    (hcc : ChessNFA.createCharClassNFA b cls = .ok (bc, fc))
    (hcS : ChessNFA.parseCharacterClass cls = .ok S)
    (hfc : Lexer.createCharClassNFA b cls = .ok (bf, ff))
    (hc : c ∈ S) :
    nfaAccepts bc fc.start [c] = true ∧
    ff.stop ∈ nfaSimSet bf ff.start [c] ∧
    nfaAccepts bf ff.start [c] = false := by
  have hbf : bracketForm cls = true := by
    by_contra hb
    have hb' : bracketForm cls = false := by
      cases hx : bracketForm cls
      · rfl
      · exact absurd hx hb
    have hperr : Lexer.parseCharacterClass cls = .error .formatError := by
      simp [Lexer.parseCharacterClass, hb']
    simp only [Lexer.createCharClassNFA, createState] at hfc
    rw [hperr] at hfc
    cases hfc
  have hfS : Lexer.parseCharacterClass cls = .ok S := by
    simp only [ChessNFA.parseCharacterClass, hbf, if_true] at hcS
    simp only [Lexer.parseCharacterClass, hbf, if_true]
    exact hcS
  obtain ⟨hfcEq, hcs, hce⟩ := chessClassFrag b cls S bc fc hcc hcS
  obtain ⟨hffEq, hfs, hfe⟩ := finalClassFrag b cls S bf ff hfc hfS
  subst hfcEq
  subst hffEq
  have hsim_c : nfaSimSet bc b.size [c] = {b.size + 1} :=
    twoStateSim (by omega) hcs hce hc
  have hsim_f : nfaSimSet bf b.size [c] = {b.size + 1} :=
    twoStateSim (by omega) hfs hfe hc
  refine ⟨?_, ?_, ?_⟩
  · simp [nfaAccepts, finalSet, hsim_c, ascList_singleton, hce]
  · simp [hsim_f]
  · simp [nfaAccepts, finalSet, hsim_f, ascList_singleton, hfe]

open Automata in
/-- C2, witness for the amended theorem at the class `[a]` over the empty
builder with member `'a'`. -/
theorem c2_charclass_amended_witness :
    nfaAccepts ⟨[⟨[('a', 1)], false⟩, ⟨[], true⟩]⟩ 0 ['a'] = true ∧
    (1 : Nat) ∈ nfaSimSet ⟨[⟨[('a', 1)], false⟩, ⟨[], false⟩]⟩ 0 ['a'] ∧
    nfaAccepts ⟨[⟨[('a', 1)], false⟩, ⟨[], false⟩]⟩ 0 ['a'] = false :=
  c2_charclass_amended emptyBuilder "[a]" {'a'} 'a'
    ⟨[⟨[('a', 1)], false⟩, ⟨[], true⟩]⟩ ⟨[⟨[('a', 1)], false⟩, ⟨[], false⟩]⟩ ⟨0, 1⟩ ⟨0, 1⟩
    (by decide) (by decide) (by decide) (by decide)

namespace ChessPDA

open ChessNFA

/-- The `tokens[i].type == END_OF_INPUT` branch of the validator loop can
only fire on a token that has a successor; on any stream where
`END_OF_INPUT` occurs at most as the final token, neither the abrupt-end
rejection nor the half-move warning can ever be produced. -/
theorem valLoop_no_end_report (tokens : List ChessToken) :
    ∀ (st : MoveState) (n : Int) (ds : List ChessDiag),
      (∀ t ∈ tokens.dropLast, t.type ≠ ChessTokenType.END_OF_INPUT) →
      ChessDiag.abruptEnd ∉ ds → ChessDiag.halfMoveWarning ∉ ds →
      ChessDiag.abruptEnd ∉ (valLoop st n ds tokens).2 ∧
      ChessDiag.halfMoveWarning ∉ (valLoop st n ds tokens).2 := by
  induction tokens with
  | nil =>
    intro st n ds h ha hw
    simp only [valLoop]
    simp_all
  | cons tok tail ih =>
    intro st n ds h ha hw
    cases tail with
    | nil =>
      simp only [valLoop]
      simp_all
    | cons next rest =>
      have hdl : (tok :: next :: rest).dropLast = tok :: (next :: rest).dropLast := rfl
      have htok : tok.type ≠ ChessTokenType.END_OF_INPUT := by
        apply h
        rw [hdl]
        exact List.mem_cons_self _ _
      have htail : ∀ t ∈ (next :: rest).dropLast, t.type ≠ ChessTokenType.END_OF_INPUT := by
        intro t ht
        apply h
        rw [hdl]
        exact List.mem_cons_of_mem _ ht
      cases hsv : stoiOpt tok.value.dropLast with
      | none =>
        simp only [valLoop, hsv]
        split_ifs <;> first | exact ih _ _ _ htail ha hw | simp_all
      | some m =>
        simp only [valLoop, hsv]
        split_ifs <;> first | exact ih _ _ _ htail ha hw | simp_all

end ChessPDA

open ChessNFA ChessPDA in
/-- C3: the validator's end-of-input handling is dead code.  The loop runs
only while `i + 1 < tokens.size()`, so the trailing `END_OF_INPUT` token is
never examined: on any lexer-produced stream (where `END_OF_INPUT` is only
the last token) neither the claimed abrupt-end rejection nor the half-move
warning can occur.  In particular the stream of `"1."` — which ends in
state EXPECT_WHITE_MOVE and per the claim must be rejected — is accepted
with a success diagnostic, and the stream of `"1. e4"` — which per the
claim must carry a half-move warning — is accepted without one. -/
theorem c3_end_of_input_dead_code :
    (∀ (tokens : List ChessToken),
        (∀ t ∈ tokens.dropLast, t.type ≠ ChessTokenType.END_OF_INPUT) →
        ChessDiag.abruptEnd ∉ (validateMoveSequence tokens).2 ∧
        ChessDiag.halfMoveWarning ∉ (validateMoveSequence tokens).2) ∧
    validateMoveSequence [⟨.MOVE_NUMBER, ['1', '.'], 0⟩, ⟨.END_OF_INPUT, [], 2⟩]
        = (true, [ChessDiag.success]) ∧
    validateMoveSequence
        [⟨.MOVE_NUMBER, ['1', '.'], 0⟩, ⟨.PAWN_MOVE, ['e', '4'], 3⟩, ⟨.END_OF_INPUT, [], 5⟩]
        = (true, [ChessDiag.success]) :=
  ⟨fun tokens h => valLoop_no_end_report tokens _ _ _ h (by simp) (by simp),
   by decide, by decide⟩

open ChessNFA ChessPDA in
/-- C3, witness: the dead-code property applied to the concrete token
stream of the input `"1."`. -/
theorem c3_end_of_input_dead_code_witness :
    ChessDiag.abruptEnd ∉
      (validateMoveSequence [⟨.MOVE_NUMBER, ['1', '.'], 0⟩, ⟨.END_OF_INPUT, [], 2⟩]).2 ∧
    ChessDiag.halfMoveWarning ∉
      (validateMoveSequence [⟨.MOVE_NUMBER, ['1', '.'], 0⟩, ⟨.END_OF_INPUT, [], 2⟩]).2 :=
  c3_end_of_input_dead_code.1
    [⟨.MOVE_NUMBER, ['1', '.'], 0⟩, ⟨.END_OF_INPUT, [], 2⟩] (by decide)

namespace ChessPDA

open ChessNFA

/-- The MOVE_NUMBER branch of the validator in state EXPECT_NUMBER: a
parsed value different from the expected counter rejects immediately,
reporting the expected and the found value. -/
theorem valLoop_move_number_mismatch (n m : Int) (ds : List ChessDiag)
    (tok next : ChessToken) (rest : List ChessToken)
    (hty : tok.type = ChessNFA.ChessTokenType.MOVE_NUMBER)
    (hsv : stoiOpt tok.value.dropLast = some m) (hm : m ≠ n) :
    valLoop .EXPECT_NUMBER n ds (tok :: next :: rest)
      = (false, ds ++ [ChessDiag.expectedFound n m]) := by
  simp only [valLoop, hty, hsv]
  simp [hm]

end ChessPDA

open ChessNFA ChessPDA in
/-- C6: a MOVE_NUMBER token met in state EXPECT_NUMBER whose digits (with
the trailing `.` stripped by `substr(0, size-1)` and parsed by `stoi`)
differ from the expected move counter makes the validator return false
with the expected and found values; on the token stream of the input
`"1. e4 e5 3. Nf3"` the result is a rejection reporting expected 2,
found 3. -/
theorem c6_move_number_mismatch :
    (∀ (n m : Int) (ds : List ChessDiag) (tok next : ChessToken) (rest : List ChessToken),
        tok.type = ChessTokenType.MOVE_NUMBER →
        stoiOpt tok.value.dropLast = some m → m ≠ n →
        valLoop .EXPECT_NUMBER n ds (tok :: next :: rest)
          = (false, ds ++ [ChessDiag.expectedFound n m])) ∧
    validateMoveSequence
        [⟨.MOVE_NUMBER, ['1', '.'], 0⟩, ⟨.PAWN_MOVE, ['e', '4'], 3⟩,
         ⟨.PAWN_MOVE, ['e', '5'], 6⟩, ⟨.MOVE_NUMBER, ['3', '.'], 9⟩,
         ⟨.PIECE_MOVE, ['N', 'f', '3'], 12⟩, ⟨.END_OF_INPUT, [], 15⟩]
      = (false, [ChessDiag.expectedFound 2 3]) :=
  ⟨fun n m ds tok next rest hty hsv hm =>
      valLoop_move_number_mismatch n m ds tok next rest hty hsv hm,
    by decide⟩

open ChessNFA ChessPDA in
/-- C6, witness: the mismatch step applied at expected counter 2 to the
MOVE_NUMBER token `"3."`. -/
theorem c6_move_number_mismatch_witness :
    valLoop .EXPECT_NUMBER 2 []
        [⟨.MOVE_NUMBER, ['3', '.'], 9⟩, ⟨.PIECE_MOVE, ['N', 'f', '3'], 12⟩,
         ⟨.END_OF_INPUT, [], 15⟩]
      = (false, [ChessDiag.expectedFound 2 3]) :=
  c6_move_number_mismatch.1 2 3 [] ⟨.MOVE_NUMBER, ['3', '.'], 9⟩
    ⟨.PIECE_MOVE, ['N', 'f', '3'], 12⟩ [⟨.END_OF_INPUT, [], 15⟩]
    (by decide) (by decide) (by decide)

open Automata in
/-- C4, counterexample: chessNot.cpp does not raise the format error.  On
the bracketless class `abc`, `ChessNFA::parseCharacterClass` only logs to
`cerr` and returns the still-empty member set, and
`ChessNFA::createCharClassNFA` goes on to build and return a (memberless)
two-state fragment instead of failing. -/
theorem c4_class_errors_counterexample :
    bracketForm "abc" = false ∧
    ChessNFA.parseCharacterClass "abc" = .ok ∅ ∧
    ChessNFA.createCharClassNFA emptyBuilder "abc"
      = .ok (⟨[⟨[], false⟩, ⟨[], true⟩]⟩, ⟨0, 1⟩) :=
  ⟨by decide, by decide, by decide⟩

open Automata in
/-- C4, amended: Final.cpp's parser raises the format error on a missing
outer bracket and no automaton is produced, while chessNot.cpp's merely
logs and returns an empty member set (and its `createCharClassNFA` still
builds a fragment); a scan window `x-y` with `x > y` raises the range
error, and when the scan of the class body hits such a range both parsers
fail with it and neither `createCharClassNFA` produces an automaton. -/
theorem c4_class_errors_amended (cls : String) (b : Builder) :
    (bracketForm cls = false →
        Lexer.parseCharacterClass cls = .error CCErr.formatError ∧
        Lexer.createCharClassNFA b cls = .error CCErr.formatError ∧
        ChessNFA.parseCharacterClass cls = .ok ∅) ∧
    (∀ (x y : Char) (rest : List Char), y < x →
        scanClass (x :: '-' :: y :: rest) = .error CCErr.rangeError) ∧
    (bracketForm cls = true → scanClass (classContent cls) = .error CCErr.rangeError →
        Lexer.parseCharacterClass cls = .error CCErr.rangeError ∧
        ChessNFA.parseCharacterClass cls = .error CCErr.rangeError ∧
        Lexer.createCharClassNFA b cls = .error CCErr.rangeError ∧
        ChessNFA.createCharClassNFA b cls = .error CCErr.rangeError) := by
  refine ⟨?_, ?_, ?_⟩
  · intro hbf
    have h1 : Lexer.parseCharacterClass cls = .error CCErr.formatError := by
      simp [Lexer.parseCharacterClass, hbf]
    refine ⟨h1, ?_, ?_⟩
    · simp only [Lexer.createCharClassNFA, createState, h1]
    · simp [ChessNFA.parseCharacterClass, hbf]
  · intro x y rest h
    simp only [scanClass]
    rw [if_pos (show x > y from h)]
  · intro hbf hscan
    have h1 : Lexer.parseCharacterClass cls = .error CCErr.rangeError := by
      simp [Lexer.parseCharacterClass, hbf, hscan]
    have h2 : ChessNFA.parseCharacterClass cls = .error CCErr.rangeError := by
      simp [ChessNFA.parseCharacterClass, hbf, hscan]
    refine ⟨h1, h2, ?_, ?_⟩
    · simp only [Lexer.createCharClassNFA, createState, h1]
    · simp only [ChessNFA.createCharClassNFA, createState, h2]

open Automata in
/-- C4, witness: the descending range `[b-a]` makes both parsers and both
fragment builders fail with the range error. -/
theorem c4_class_errors_amended_witness :
    Lexer.parseCharacterClass "[b-a]" = .error CCErr.rangeError ∧
    ChessNFA.parseCharacterClass "[b-a]" = .error CCErr.rangeError ∧
    Lexer.createCharClassNFA emptyBuilder "[b-a]" = .error CCErr.rangeError ∧
    ChessNFA.createCharClassNFA emptyBuilder "[b-a]" = .error CCErr.rangeError :=
  (c4_class_errors_amended "[b-a]" emptyBuilder).2.2 (by decide) (by decide)

namespace PDA

open Lexer

theorem stateRank_le (st : PDAState) : stateRank st ≤ 2 := by
  cases st <;> simp [stateRank]

theorem stateRank_pos (st : PDAState) (h1 : st ≠ .ACCEPT) (h2 : st ≠ .REJECT) :
    1 ≤ stateRank st := by
  cases st <;> simp_all [stateRank]

/-- No iteration of the parse loop body prints the infinite-loop message;
it comes only from the guard. -/
theorem pdaStep_no_inf (tokens : List Token) (st : PDAState) (stk : List String) (ti : Nat) :
    PDiag.infiniteLoop ∉ (pdaStep tokens st stk ti).2.2.2 := by
  cases st <;> simp only [pdaStep] <;> first
    | (split_ifs <;> simp)
    | simp
    | trivial

/-- The token index never passes the token count: it is only incremented
when the current token is a real element of the vector. -/
theorem pdaStep_ti_le (tokens : List Token) (st : PDAState) (stk : List String) (ti : Nat)
    (h : ti ≤ tokens.length) : (pdaStep tokens st stk ti).2.2.1 ≤ tokens.length := by
  by_cases hti : ti < tokens.length
  · cases st <;> simp only [pdaStep] <;> first
      | (split_ifs <;> simp <;> omega)
      | (simp <;> omega)
      | omega
  · have hg : tokens.getD ti syntheticEnd = syntheticEnd :=
      List.getD_eq_default _ _ (by omega)
    cases st <;> simp only [pdaStep, hg] <;> first
      | (split_ifs <;> simp_all [syntheticEnd])
      | (simp_all [syntheticEnd])
      | omega

/-- With the token index within bounds — as it is on every reachable
configuration — the step-bound guard of `PDA::parse` can never fire: the
loop always ends by reaching ACCEPT or REJECT, never via the bound. -/
theorem parseLoop_no_inf (tokens : List Token) :
    ∀ (N : Nat) (st : PDAState) (stk : List String) (ti : Nat) (ds : List PDiag),
      2 * (tokens.length + 7 - ti) + stateRank st ≤ N →
      ti ≤ tokens.length → PDiag.infiniteLoop ∉ ds →
      PDiag.infiniteLoop ∉ (parseLoop tokens st stk ti ds).2 := by
  intro N
  induction N with
  | zero =>
    intro st stk ti ds hm hti hds
    exact absurd hm (by omega)
  | succ n ih =>
    intro st stk ti ds hm hti hds
    rw [parseLoop]
    by_cases hterm : st = .ACCEPT ∨ st = .REJECT
    · rw [if_pos hterm]
      exact hds
    · rw [if_neg hterm]
      have hle := pdaStep_ti_le tokens st stk ti hti
      rw [if_neg (by omega)]
      have hst1 : st ≠ PDAState.ACCEPT := fun h => hterm (Or.inl h)
      have hst2 : st ≠ PDAState.REJECT := fun h => hterm (Or.inr h)
      have hprog := pdaStep_progress tokens st stk ti hst1 hst2
      have hr1 := stateRank_le (pdaStep tokens st stk ti).1
      have hr2 := stateRank_pos st hst1 hst2
      apply ih
      · rcases hprog with h1 | ⟨h1, h2⟩ <;> omega
      · exact hle
      · intro hmem
        rcases List.mem_append.mp hmem with hmem | hmem
        · exact hds hmem
        · exact pdaStep_no_inf tokens st stk ti hmem

/-- When the step-bound guard does fire (possible only for a token index
already out of bounds, which `parse` never produces), the loop returns the
plain boolean `false` — the very value a grammar-driven REJECT returns. -/
theorem parseLoop_guard_eq (tokens : List Token) (st : PDAState) (stk : List String)
    (ti : Nat) (ds : List PDiag)
    (hg : (pdaStep tokens st stk ti).2.2.1 > tokens.length + 5)
    (h1 : st ≠ PDAState.ACCEPT) (h2 : st ≠ PDAState.REJECT) :
    parseLoop tokens st stk ti ds
      = (false, ds ++ (pdaStep tokens st stk ti).2.2.2 ++ [PDiag.infiniteLoop]) := by
  rw [parseLoop, if_neg (fun h => h.elim h1 h2), if_pos hg]

end PDA

open Lexer PDA in
/-- C9: the step-bound rejection is not distinguishable in the result type
— `PDA::parse` returns a plain `bool`, and the guard's early return is the
same `false` a grammar-driven REJECT produces (only a `cout` message
differs); moreover on every run of `parse` the guard is dead code, since
the token index never exceeds the token count, let alone the count plus
the slack of 5. -/
theorem c9_step_bound_indistinct :
    (∀ (tokens : List Token), PDiag.infiniteLoop ∉ (parse tokens).2) ∧
    (∀ (tokens : List Token) (st : PDAState) (stk : List String) (ti : Nat) (ds : List PDiag),
        ti ≤ tokens.length → PDiag.infiniteLoop ∉ ds →
        PDiag.infiniteLoop ∉ (parseLoop tokens st stk ti ds).2) ∧
    (∀ (tokens : List Token) (st : PDAState) (stk : List String) (ti : Nat) (ds : List PDiag),
        (pdaStep tokens st stk ti).2.2.1 > tokens.length + 5 →
        st ≠ PDAState.ACCEPT → st ≠ PDAState.REJECT →
        parseLoop tokens st stk ti ds
          = (false, ds ++ (pdaStep tokens st stk ti).2.2.2 ++ [PDiag.infiniteLoop])) :=
  ⟨fun tokens =>
      parseLoop_no_inf tokens (2 * (tokens.length + 7) + 2) .START ["$"] 0 []
        (by have := stateRank_le PDAState.START; omega) (Nat.zero_le _) (by simp),
    fun tokens st stk ti ds hti hds =>
      parseLoop_no_inf tokens (2 * (tokens.length + 7 - ti) + stateRank st) st stk ti ds
        (le_refl _) hti hds,
    fun tokens st stk ti ds hg h1 h2 => parseLoop_guard_eq tokens st stk ti ds hg h1 h2⟩

open Lexer PDA in
/-- C9, witness: the dead-guard property on the empty token stream, and
the guard's plain-`false` result at an (unreachable) out-of-bounds token
index 10. -/
theorem c9_step_bound_indistinct_witness :
    PDiag.infiniteLoop ∉ (parse []).2 ∧
    parseLoop [] .START ["$"] 10 []
      = (false, [PDiag.rejectExpectedStart, PDiag.infiniteLoop]) :=
  ⟨c9_step_bound_indistinct.1 [],
    c9_step_bound_indistinct.2.2 [] .START ["$"] 10 [] (by decide) (by decide) (by decide)⟩

namespace Lexer

/-- Fuel-indexed restatement of the `Lexer::tokenize` loop, structurally
recursive on the fuel so that concrete runs reduce; it agrees with
`tokenizeGo` whenever the fuel covers the remaining input
(`tokenizeGo_eq_fuel`). -/
def tokenizeFuel (ld : LexerData) : Nat → Nat → List Char → List Token
  | _, pos, [] => [⟨.END_OF_INPUT, [], (pos : Int)⟩]
  | 0, _, _ :: _ => []
  | fuel + 1, pos, c :: cs =>
    if isSpaceC c then tokenizeFuel ld fuel (pos + 1) cs
    else
      let tok := getNextToken ld (c :: cs) (pos : Int)
      tok :: tokenizeFuel ld fuel (pos + tok.value.length) ((c :: cs).drop tok.value.length)

theorem tokenizeGo_eq_fuel (ld : LexerData) :
    ∀ (fuel : Nat) (pos : Nat) (rest : List Char), rest.length ≤ fuel →
      tokenizeFuel ld fuel pos rest = tokenizeGo ld pos rest := by
  intro fuel
  induction fuel with
  | zero =>
    intro pos rest h
    have : rest = [] := List.eq_nil_of_length_eq_zero (by omega)
    subst this
    rw [tokenizeFuel, tokenizeGo]
  | succ n ih =>
    intro pos rest h
    cases rest with
    | nil => rw [tokenizeFuel, tokenizeGo]
    | cons c cs =>
      rw [tokenizeFuel, tokenizeGo]
      by_cases hsp : isSpaceC c
      · rw [if_pos hsp, if_pos hsp]
        exact ih (pos + 1) cs (by simp at h; omega)
      · rw [if_neg hsp, if_neg hsp]
        simp only
        rw [ih _ _ ?hlen]
        case hlen =>
          have hk := getNextToken_len ld (c :: cs) (pos : Int)
          simp only [List.length_drop, List.length_cons]
          simp at h
          omega

theorem tokenize_fuel_spec (ld : LexerData) (input : List Char) :
    tokenize ld input = tokenizeFuel ld input.length 0 input :=
  (tokenizeGo_eq_fuel ld input.length 0 input (le_refl _)).symm

end Lexer

namespace ChessLexer

open ChessNFA

/-- Fuel-indexed restatement of the `ChessLexer::tokenize` loop,
structurally recursive on the fuel; agrees with `tokenizeGo` whenever the
fuel covers the remaining input. -/
def tokenizeFuelC (ld : ChessLexerData) : Nat → Nat → List Char → Bool → List ChessToken × Bool
  | _, pos, [], flag => ([⟨.END_OF_INPUT, [], (pos : Int)⟩], flag)
  | 0, _, _ :: _, _ => ([], false)
  | fuel + 1, pos, c :: cs, flag =>
    if Lexer.isSpaceC c then tokenizeFuelC ld fuel (pos + 1) cs flag
    else
      let tok := getNextToken ld (c :: cs) (pos : Int)
      if tok.type = ChessTokenType.INVALID then tokenizeFuelC ld fuel (pos + 1) cs true
      else
        let r := tokenizeFuelC ld fuel (pos + tok.value.length) ((c :: cs).drop tok.value.length)
          flag
        (tok :: r.1, r.2)

theorem chessTokenizeGo_eq_fuel (ld : ChessLexerData) :
    ∀ (fuel : Nat) (pos : Nat) (rest : List Char) (flag : Bool), rest.length ≤ fuel →
      tokenizeFuelC ld fuel pos rest flag = tokenizeGo ld pos rest flag := by
  intro fuel
  induction fuel with
  | zero =>
    intro pos rest flag h
    have : rest = [] := List.eq_nil_of_length_eq_zero (by omega)
    subst this
    rw [tokenizeFuelC, tokenizeGo]
  | succ n ih =>
    intro pos rest flag h
    cases rest with
    | nil => rw [tokenizeFuelC, tokenizeGo]
    | cons c cs =>
      rw [tokenizeFuelC, tokenizeGo]
      by_cases hsp : Lexer.isSpaceC c
      · rw [if_pos hsp, if_pos hsp]
        exact ih (pos + 1) cs flag (by simp at h; omega)
      · rw [if_neg hsp, if_neg hsp]
        simp only
        by_cases hinv : (getNextToken ld (c :: cs) (pos : Int)).type = ChessTokenType.INVALID
        · rw [if_pos hinv, if_pos hinv]
          exact ih (pos + 1) cs true (by simp at h; omega)
        · rw [if_neg hinv, if_neg hinv]
          rw [ih _ _ _ ?hlen]
          case hlen =>
            have hk := chessGetNextToken_len ld (c :: cs) (pos : Int)
            simp only [List.length_drop, List.length_cons]
            simp at h
            omega

theorem chessTokenize_fuel_spec (ld : ChessLexerData) (input : List Char) :
    tokenize ld input = tokenizeFuelC ld input.length 0 input false :=
  (chessTokenizeGo_eq_fuel ld input.length 0 input false (le_refl _)).symm

end ChessLexer

namespace PDA

open Lexer

/-- Fuel-indexed restatement of the `PDA::parse` loop, structurally
recursive on the fuel; agrees with `parseLoop` whenever the fuel covers
the loop's termination measure. -/
def parseFuel (tokens : List Token) :
    Nat → PDAState → List String → Nat → List PDiag → Bool × List PDiag
  | fuel, st, stk, ti, ds =>
    if st = .ACCEPT ∨ st = .REJECT then (decide (st = .ACCEPT), ds)
    else
      match fuel with
      | 0 => (false, ds)
      | fuel + 1 =>
        if (pdaStep tokens st stk ti).2.2.1 > tokens.length + 5 then
          (false, ds ++ (pdaStep tokens st stk ti).2.2.2 ++ [.infiniteLoop])
        else
          parseFuel tokens fuel (pdaStep tokens st stk ti).1 (pdaStep tokens st stk ti).2.1
            (pdaStep tokens st stk ti).2.2.1 (ds ++ (pdaStep tokens st stk ti).2.2.2)

theorem parseLoop_eq_fuel (tokens : List Token) :
    ∀ (fuel : Nat) (st : PDAState) (stk : List String) (ti : Nat) (ds : List PDiag),
      2 * (tokens.length + 7 - ti) + stateRank st ≤ fuel →
      parseFuel tokens fuel st stk ti ds = parseLoop tokens st stk ti ds := by
  intro fuel
  induction fuel with
  | zero =>
    intro st stk ti ds hm
    by_cases hterm : st = .ACCEPT ∨ st = .REJECT
    · rw [parseFuel, if_pos hterm, parseLoop, if_pos hterm]
    · have h1 : st ≠ PDAState.ACCEPT := fun h => hterm (Or.inl h)
      have h2 : st ≠ PDAState.REJECT := fun h => hterm (Or.inr h)
      have := stateRank_pos st h1 h2
      omega
  | succ n ih =>
    intro st stk ti ds hm
    by_cases hterm : st = .ACCEPT ∨ st = .REJECT
    · rw [parseFuel, if_pos hterm, parseLoop, if_pos hterm]
    · rw [parseFuel, if_neg hterm, parseLoop, if_neg hterm]
      by_cases hguard : (pdaStep tokens st stk ti).2.2.1 > tokens.length + 5
      · rw [if_pos hguard, if_pos hguard]
      · rw [if_neg hguard, if_neg hguard]
        have h1 : st ≠ PDAState.ACCEPT := fun h => hterm (Or.inl h)
        have h2 : st ≠ PDAState.REJECT := fun h => hterm (Or.inr h)
        have hprog := pdaStep_progress tokens st stk ti h1 h2
        have hr1 := stateRank_le (pdaStep tokens st stk ti).1
        have hr2 := stateRank_pos st h1 h2
        apply ih
        rcases hprog with hp | ⟨hp, hp2⟩ <;> omega

theorem parse_fuel_spec (tokens : List Token) :
    parse tokens
      = parseFuel tokens (2 * (tokens.length + 7) + 2) .START ["$"] 0 [] :=
  (parseLoop_eq_fuel tokens (2 * (tokens.length + 7) + 2) .START ["$"] 0 []
    (by have := stateRank_le PDAState.START; omega)).symm

end PDA

set_option maxRecDepth 100000

/-- The `LexerData` that `Lexer::initializeTokenDFAs` builds, written out
as a literal (checked against `mkLexer` in `mkLexer_eq`). -/
def ldLit : Lexer.LexerData :=
  ⟨⟨⟨[⟨[(Char.ofNat 65, 1), (Char.ofNat 66, 1), (Char.ofNat 67, 1), (Char.ofNat 68, 1), (Char.ofNat 69, 1), (Char.ofNat 70, 1), (Char.ofNat 71, 1), (Char.ofNat 72, 1), (Char.ofNat 73, 1), (Char.ofNat 74, 1), (Char.ofNat 75, 1), (Char.ofNat 76, 1), (Char.ofNat 77, 1), (Char.ofNat 78, 1), (Char.ofNat 79, 1), (Char.ofNat 80, 1), (Char.ofNat 81, 1), (Char.ofNat 82, 1), (Char.ofNat 83, 1), (Char.ofNat 84, 1), (Char.ofNat 85, 1), (Char.ofNat 86, 1), (Char.ofNat 87, 1), (Char.ofNat 88, 1), (Char.ofNat 89, 1), (Char.ofNat 90, 1), (Char.ofNat 95, 1), (Char.ofNat 97, 1), (Char.ofNat 98, 1), (Char.ofNat 99, 1), (Char.ofNat 100, 1), (Char.ofNat 101, 1), (Char.ofNat 102, 1), (Char.ofNat 103, 1), (Char.ofNat 104, 1), (Char.ofNat 105, 1), (Char.ofNat 106, 1), (Char.ofNat 107, 1), (Char.ofNat 108, 1), (Char.ofNat 109, 1), (Char.ofNat 110, 1), (Char.ofNat 111, 1), (Char.ofNat 112, 1), (Char.ofNat 113, 1), (Char.ofNat 114, 1), (Char.ofNat 115, 1), (Char.ofNat 116, 1), (Char.ofNat 117, 1), (Char.ofNat 118, 1), (Char.ofNat 119, 1), (Char.ofNat 120, 1), (Char.ofNat 121, 1), (Char.ofNat 122, 1)], false⟩, ⟨[(Char.ofNat 0, 4)], false⟩, ⟨[(Char.ofNat 48, 3), (Char.ofNat 49, 3), (Char.ofNat 50, 3), (Char.ofNat 51, 3), (Char.ofNat 52, 3), (Char.ofNat 53, 3), (Char.ofNat 54, 3), (Char.ofNat 55, 3), (Char.ofNat 56, 3), (Char.ofNat 57, 3), (Char.ofNat 65, 3), (Char.ofNat 66, 3), (Char.ofNat 67, 3), (Char.ofNat 68, 3), (Char.ofNat 69, 3), (Char.ofNat 70, 3), (Char.ofNat 71, 3), (Char.ofNat 72, 3), (Char.ofNat 73, 3), (Char.ofNat 74, 3), (Char.ofNat 75, 3), (Char.ofNat 76, 3), (Char.ofNat 77, 3), (Char.ofNat 78, 3), (Char.ofNat 79, 3), (Char.ofNat 80, 3), (Char.ofNat 81, 3), (Char.ofNat 82, 3), (Char.ofNat 83, 3), (Char.ofNat 84, 3), (Char.ofNat 85, 3), (Char.ofNat 86, 3), (Char.ofNat 87, 3), (Char.ofNat 88, 3), (Char.ofNat 89, 3), (Char.ofNat 90, 3), (Char.ofNat 95, 3), (Char.ofNat 97, 3), (Char.ofNat 98, 3), (Char.ofNat 99, 3), (Char.ofNat 100, 3), (Char.ofNat 101, 3), (Char.ofNat 102, 3), (Char.ofNat 103, 3), (Char.ofNat 104, 3), (Char.ofNat 105, 3), (Char.ofNat 106, 3), (Char.ofNat 107, 3), (Char.ofNat 108, 3), (Char.ofNat 109, 3), (Char.ofNat 110, 3), (Char.ofNat 111, 3), (Char.ofNat 112, 3), (Char.ofNat 113, 3), (Char.ofNat 114, 3), (Char.ofNat 115, 3), (Char.ofNat 116, 3), (Char.ofNat 117, 3), (Char.ofNat 118, 3), (Char.ofNat 119, 3), (Char.ofNat 120, 3), (Char.ofNat 121, 3), (Char.ofNat 122, 3)], false⟩, ⟨[(Char.ofNat 0, 2), (Char.ofNat 0, 5)], false⟩, ⟨[(Char.ofNat 0, 2), (Char.ofNat 0, 5)], false⟩, ⟨[], true⟩]⟩,
  [(List.toFinset [0], 0), (List.toFinset [1, 2, 4, 5], 1), (List.toFinset [2, 3, 5], 2)],
  [((List.toFinset [0], Char.ofNat 65), List.toFinset [1, 2, 4, 5]),
   ((List.toFinset [0], Char.ofNat 66), List.toFinset [1, 2, 4, 5]),
   ((List.toFinset [0], Char.ofNat 67), List.toFinset [1, 2, 4, 5]),
   ((List.toFinset [0], Char.ofNat 68), List.toFinset [1, 2, 4, 5]),
   ((List.toFinset [0], Char.ofNat 69), List.toFinset [1, 2, 4, 5]),
   ((List.toFinset [0], Char.ofNat 70), List.toFinset [1, 2, 4, 5]),
   ((List.toFinset [0], Char.ofNat 71), List.toFinset [1, 2, 4, 5]),
   ((List.toFinset [0], Char.ofNat 72), List.toFinset [1, 2, 4, 5]),
   ((List.toFinset [0], Char.ofNat 73), List.toFinset [1, 2, 4, 5]),
   ((List.toFinset [0], Char.ofNat 74), List.toFinset [1, 2, 4, 5]),
   ((List.toFinset [0], Char.ofNat 75), List.toFinset [1, 2, 4, 5]),
   ((List.toFinset [0], Char.ofNat 76), List.toFinset [1, 2, 4, 5]),
   ((List.toFinset [0], Char.ofNat 77), List.toFinset [1, 2, 4, 5]),
   ((List.toFinset [0], Char.ofNat 78), List.toFinset [1, 2, 4, 5]),
   ((List.toFinset [0], Char.ofNat 79), List.toFinset [1, 2, 4, 5]),
   ((List.toFinset [0], Char.ofNat 80), List.toFinset [1, 2, 4, 5]),
   ((List.toFinset [0], Char.ofNat 81), List.toFinset [1, 2, 4, 5]),
   ((List.toFinset [0], Char.ofNat 82), List.toFinset [1, 2, 4, 5]),
   ((List.toFinset [0], Char.ofNat 83), List.toFinset [1, 2, 4, 5]),
   ((List.toFinset [0], Char.ofNat 84), List.toFinset [1, 2, 4, 5]),
   ((List.toFinset [0], Char.ofNat 85), List.toFinset [1, 2, 4, 5]),
   ((List.toFinset [0], Char.ofNat 86), List.toFinset [1, 2, 4, 5]),
   ((List.toFinset [0], Char.ofNat 87), List.toFinset [1, 2, 4, 5]),
   ((List.toFinset [0], Char.ofNat 88), List.toFinset [1, 2, 4, 5]),
   ((List.toFinset [0], Char.ofNat 89), List.toFinset [1, 2, 4, 5]),
   ((List.toFinset [0], Char.ofNat 90), List.toFinset [1, 2, 4, 5]),
   ((List.toFinset [0], Char.ofNat 95), List.toFinset [1, 2, 4, 5]),
   ((List.toFinset [0], Char.ofNat 97), List.toFinset [1, 2, 4, 5]),
   ((List.toFinset [0], Char.ofNat 98), List.toFinset [1, 2, 4, 5]),
   ((List.toFinset [0], Char.ofNat 99), List.toFinset [1, 2, 4, 5]),
   ((List.toFinset [0], Char.ofNat 100), List.toFinset [1, 2, 4, 5]),
   ((List.toFinset [0], Char.ofNat 101), List.toFinset [1, 2, 4, 5]),
   ((List.toFinset [0], Char.ofNat 102), List.toFinset [1, 2, 4, 5]),
   ((List.toFinset [0], Char.ofNat 103), List.toFinset [1, 2, 4, 5]),
   ((List.toFinset [0], Char.ofNat 104), List.toFinset [1, 2, 4, 5]),
   ((List.toFinset [0], Char.ofNat 105), List.toFinset [1, 2, 4, 5]),
   ((List.toFinset [0], Char.ofNat 106), List.toFinset [1, 2, 4, 5]),
   ((List.toFinset [0], Char.ofNat 107), List.toFinset [1, 2, 4, 5]),
   ((List.toFinset [0], Char.ofNat 108), List.toFinset [1, 2, 4, 5]),
   ((List.toFinset [0], Char.ofNat 109), List.toFinset [1, 2, 4, 5]),
   ((List.toFinset [0], Char.ofNat 110), List.toFinset [1, 2, 4, 5]),
   ((List.toFinset [0], Char.ofNat 111), List.toFinset [1, 2, 4, 5]),
   ((List.toFinset [0], Char.ofNat 112), List.toFinset [1, 2, 4, 5]),
   ((List.toFinset [0], Char.ofNat 113), List.toFinset [1, 2, 4, 5]),
   ((List.toFinset [0], Char.ofNat 114), List.toFinset [1, 2, 4, 5]),
   ((List.toFinset [0], Char.ofNat 115), List.toFinset [1, 2, 4, 5]),
   ((List.toFinset [0], Char.ofNat 116), List.toFinset [1, 2, 4, 5]),
   ((List.toFinset [0], Char.ofNat 117), List.toFinset [1, 2, 4, 5]),
   ((List.toFinset [0], Char.ofNat 118), List.toFinset [1, 2, 4, 5]),
   ((List.toFinset [0], Char.ofNat 119), List.toFinset [1, 2, 4, 5]),
   ((List.toFinset [0], Char.ofNat 120), List.toFinset [1, 2, 4, 5]),
   ((List.toFinset [0], Char.ofNat 121), List.toFinset [1, 2, 4, 5]),
   ((List.toFinset [0], Char.ofNat 122), List.toFinset [1, 2, 4, 5]),
   ((List.toFinset [1, 2, 4, 5], Char.ofNat 48), List.toFinset [2, 3, 5]),
   ((List.toFinset [1, 2, 4, 5], Char.ofNat 49), List.toFinset [2, 3, 5]),
   ((List.toFinset [1, 2, 4, 5], Char.ofNat 50), List.toFinset [2, 3, 5]),
   ((List.toFinset [1, 2, 4, 5], Char.ofNat 51), List.toFinset [2, 3, 5]),
   ((List.toFinset [1, 2, 4, 5], Char.ofNat 52), List.toFinset [2, 3, 5]),
   ((List.toFinset [1, 2, 4, 5], Char.ofNat 53), List.toFinset [2, 3, 5]),
   ((List.toFinset [1, 2, 4, 5], Char.ofNat 54), List.toFinset [2, 3, 5]),
   ((List.toFinset [1, 2, 4, 5], Char.ofNat 55), List.toFinset [2, 3, 5]),
   ((List.toFinset [1, 2, 4, 5], Char.ofNat 56), List.toFinset [2, 3, 5]),
   ((List.toFinset [1, 2, 4, 5], Char.ofNat 57), List.toFinset [2, 3, 5]),
   ((List.toFinset [1, 2, 4, 5], Char.ofNat 65), List.toFinset [2, 3, 5]),
   ((List.toFinset [1, 2, 4, 5], Char.ofNat 66), List.toFinset [2, 3, 5]),
   ((List.toFinset [1, 2, 4, 5], Char.ofNat 67), List.toFinset [2, 3, 5]),
   ((List.toFinset [1, 2, 4, 5], Char.ofNat 68), List.toFinset [2, 3, 5]),
   ((List.toFinset [1, 2, 4, 5], Char.ofNat 69), List.toFinset [2, 3, 5]),
   ((List.toFinset [1, 2, 4, 5], Char.ofNat 70), List.toFinset [2, 3, 5]),
   ((List.toFinset [1, 2, 4, 5], Char.ofNat 71), List.toFinset [2, 3, 5]),
   ((List.toFinset [1, 2, 4, 5], Char.ofNat 72), List.toFinset [2, 3, 5]),
   ((List.toFinset [1, 2, 4, 5], Char.ofNat 73), List.toFinset [2, 3, 5]),
   ((List.toFinset [1, 2, 4, 5], Char.ofNat 74), List.toFinset [2, 3, 5]),
   ((List.toFinset [1, 2, 4, 5], Char.ofNat 75), List.toFinset [2, 3, 5]),
   ((List.toFinset [1, 2, 4, 5], Char.ofNat 76), List.toFinset [2, 3, 5]),
   ((List.toFinset [1, 2, 4, 5], Char.ofNat 77), List.toFinset [2, 3, 5]),
   ((List.toFinset [1, 2, 4, 5], Char.ofNat 78), List.toFinset [2, 3, 5]),
   ((List.toFinset [1, 2, 4, 5], Char.ofNat 79), List.toFinset [2, 3, 5]),
   ((List.toFinset [1, 2, 4, 5], Char.ofNat 80), List.toFinset [2, 3, 5]),
   ((List.toFinset [1, 2, 4, 5], Char.ofNat 81), List.toFinset [2, 3, 5]),
   ((List.toFinset [1, 2, 4, 5], Char.ofNat 82), List.toFinset [2, 3, 5]),
   ((List.toFinset [1, 2, 4, 5], Char.ofNat 83), List.toFinset [2, 3, 5]),
   ((List.toFinset [1, 2, 4, 5], Char.ofNat 84), List.toFinset [2, 3, 5]),
   ((List.toFinset [1, 2, 4, 5], Char.ofNat 85), List.toFinset [2, 3, 5]),
   ((List.toFinset [1, 2, 4, 5], Char.ofNat 86), List.toFinset [2, 3, 5]),
   ((List.toFinset [1, 2, 4, 5], Char.ofNat 87), List.toFinset [2, 3, 5]),
   ((List.toFinset [1, 2, 4, 5], Char.ofNat 88), List.toFinset [2, 3, 5]),
   ((List.toFinset [1, 2, 4, 5], Char.ofNat 89), List.toFinset [2, 3, 5]),
   ((List.toFinset [1, 2, 4, 5], Char.ofNat 90), List.toFinset [2, 3, 5]),
   ((List.toFinset [1, 2, 4, 5], Char.ofNat 95), List.toFinset [2, 3, 5]),
   ((List.toFinset [1, 2, 4, 5], Char.ofNat 97), List.toFinset [2, 3, 5]),
   ((List.toFinset [1, 2, 4, 5], Char.ofNat 98), List.toFinset [2, 3, 5]),
   ((List.toFinset [1, 2, 4, 5], Char.ofNat 99), List.toFinset [2, 3, 5]),
   ((List.toFinset [1, 2, 4, 5], Char.ofNat 100), List.toFinset [2, 3, 5]),
   ((List.toFinset [1, 2, 4, 5], Char.ofNat 101), List.toFinset [2, 3, 5]),
   ((List.toFinset [1, 2, 4, 5], Char.ofNat 102), List.toFinset [2, 3, 5]),
   ((List.toFinset [1, 2, 4, 5], Char.ofNat 103), List.toFinset [2, 3, 5]),
   ((List.toFinset [1, 2, 4, 5], Char.ofNat 104), List.toFinset [2, 3, 5]),
   ((List.toFinset [1, 2, 4, 5], Char.ofNat 105), List.toFinset [2, 3, 5]),
   ((List.toFinset [1, 2, 4, 5], Char.ofNat 106), List.toFinset [2, 3, 5]),
   ((List.toFinset [1, 2, 4, 5], Char.ofNat 107), List.toFinset [2, 3, 5]),
   ((List.toFinset [1, 2, 4, 5], Char.ofNat 108), List.toFinset [2, 3, 5]),
   ((List.toFinset [1, 2, 4, 5], Char.ofNat 109), List.toFinset [2, 3, 5]),
   ((List.toFinset [1, 2, 4, 5], Char.ofNat 110), List.toFinset [2, 3, 5]),
   ((List.toFinset [1, 2, 4, 5], Char.ofNat 111), List.toFinset [2, 3, 5]),
   ((List.toFinset [1, 2, 4, 5], Char.ofNat 112), List.toFinset [2, 3, 5]),
   ((List.toFinset [1, 2, 4, 5], Char.ofNat 113), List.toFinset [2, 3, 5]),
   ((List.toFinset [1, 2, 4, 5], Char.ofNat 114), List.toFinset [2, 3, 5]),
   ((List.toFinset [1, 2, 4, 5], Char.ofNat 115), List.toFinset [2, 3, 5]),
   ((List.toFinset [1, 2, 4, 5], Char.ofNat 116), List.toFinset [2, 3, 5]),
   ((List.toFinset [1, 2, 4, 5], Char.ofNat 117), List.toFinset [2, 3, 5]),
   ((List.toFinset [1, 2, 4, 5], Char.ofNat 118), List.toFinset [2, 3, 5]),
   ((List.toFinset [1, 2, 4, 5], Char.ofNat 119), List.toFinset [2, 3, 5]),
   ((List.toFinset [1, 2, 4, 5], Char.ofNat 120), List.toFinset [2, 3, 5]),
   ((List.toFinset [1, 2, 4, 5], Char.ofNat 121), List.toFinset [2, 3, 5]),
   ((List.toFinset [1, 2, 4, 5], Char.ofNat 122), List.toFinset [2, 3, 5]),
   ((List.toFinset [2, 3, 5], Char.ofNat 48), List.toFinset [2, 3, 5]),
   ((List.toFinset [2, 3, 5], Char.ofNat 49), List.toFinset [2, 3, 5]),
   ((List.toFinset [2, 3, 5], Char.ofNat 50), List.toFinset [2, 3, 5]),
   ((List.toFinset [2, 3, 5], Char.ofNat 51), List.toFinset [2, 3, 5]),
   ((List.toFinset [2, 3, 5], Char.ofNat 52), List.toFinset [2, 3, 5]),
   ((List.toFinset [2, 3, 5], Char.ofNat 53), List.toFinset [2, 3, 5]),
   ((List.toFinset [2, 3, 5], Char.ofNat 54), List.toFinset [2, 3, 5]),
   ((List.toFinset [2, 3, 5], Char.ofNat 55), List.toFinset [2, 3, 5]),
   ((List.toFinset [2, 3, 5], Char.ofNat 56), List.toFinset [2, 3, 5]),
   ((List.toFinset [2, 3, 5], Char.ofNat 57), List.toFinset [2, 3, 5]),
   ((List.toFinset [2, 3, 5], Char.ofNat 65), List.toFinset [2, 3, 5]),
   ((List.toFinset [2, 3, 5], Char.ofNat 66), List.toFinset [2, 3, 5]),
   ((List.toFinset [2, 3, 5], Char.ofNat 67), List.toFinset [2, 3, 5]),
   ((List.toFinset [2, 3, 5], Char.ofNat 68), List.toFinset [2, 3, 5]),
   ((List.toFinset [2, 3, 5], Char.ofNat 69), List.toFinset [2, 3, 5]),
   ((List.toFinset [2, 3, 5], Char.ofNat 70), List.toFinset [2, 3, 5]),
   ((List.toFinset [2, 3, 5], Char.ofNat 71), List.toFinset [2, 3, 5]),
   ((List.toFinset [2, 3, 5], Char.ofNat 72), List.toFinset [2, 3, 5]),
   ((List.toFinset [2, 3, 5], Char.ofNat 73), List.toFinset [2, 3, 5]),
   ((List.toFinset [2, 3, 5], Char.ofNat 74), List.toFinset [2, 3, 5]),
   ((List.toFinset [2, 3, 5], Char.ofNat 75), List.toFinset [2, 3, 5]),
   ((List.toFinset [2, 3, 5], Char.ofNat 76), List.toFinset [2, 3, 5]),
   ((List.toFinset [2, 3, 5], Char.ofNat 77), List.toFinset [2, 3, 5]),
   ((List.toFinset [2, 3, 5], Char.ofNat 78), List.toFinset [2, 3, 5]),
   ((List.toFinset [2, 3, 5], Char.ofNat 79), List.toFinset [2, 3, 5]),
   ((List.toFinset [2, 3, 5], Char.ofNat 80), List.toFinset [2, 3, 5]),
   ((List.toFinset [2, 3, 5], Char.ofNat 81), List.toFinset [2, 3, 5]),
   ((List.toFinset [2, 3, 5], Char.ofNat 82), List.toFinset [2, 3, 5]),
   ((List.toFinset [2, 3, 5], Char.ofNat 83), List.toFinset [2, 3, 5]),
   ((List.toFinset [2, 3, 5], Char.ofNat 84), List.toFinset [2, 3, 5]),
   ((List.toFinset [2, 3, 5], Char.ofNat 85), List.toFinset [2, 3, 5]),
   ((List.toFinset [2, 3, 5], Char.ofNat 86), List.toFinset [2, 3, 5]),
   ((List.toFinset [2, 3, 5], Char.ofNat 87), List.toFinset [2, 3, 5]),
   ((List.toFinset [2, 3, 5], Char.ofNat 88), List.toFinset [2, 3, 5]),
   ((List.toFinset [2, 3, 5], Char.ofNat 89), List.toFinset [2, 3, 5]),
   ((List.toFinset [2, 3, 5], Char.ofNat 90), List.toFinset [2, 3, 5]),
   ((List.toFinset [2, 3, 5], Char.ofNat 95), List.toFinset [2, 3, 5]),
   ((List.toFinset [2, 3, 5], Char.ofNat 97), List.toFinset [2, 3, 5]),
   ((List.toFinset [2, 3, 5], Char.ofNat 98), List.toFinset [2, 3, 5]),
   ((List.toFinset [2, 3, 5], Char.ofNat 99), List.toFinset [2, 3, 5]),
   ((List.toFinset [2, 3, 5], Char.ofNat 100), List.toFinset [2, 3, 5]),
   ((List.toFinset [2, 3, 5], Char.ofNat 101), List.toFinset [2, 3, 5]),
   ((List.toFinset [2, 3, 5], Char.ofNat 102), List.toFinset [2, 3, 5]),
   ((List.toFinset [2, 3, 5], Char.ofNat 103), List.toFinset [2, 3, 5]),
   ((List.toFinset [2, 3, 5], Char.ofNat 104), List.toFinset [2, 3, 5]),
   ((List.toFinset [2, 3, 5], Char.ofNat 105), List.toFinset [2, 3, 5]),
   ((List.toFinset [2, 3, 5], Char.ofNat 106), List.toFinset [2, 3, 5]),
   ((List.toFinset [2, 3, 5], Char.ofNat 107), List.toFinset [2, 3, 5]),
   ((List.toFinset [2, 3, 5], Char.ofNat 108), List.toFinset [2, 3, 5]),
   ((List.toFinset [2, 3, 5], Char.ofNat 109), List.toFinset [2, 3, 5]),
   ((List.toFinset [2, 3, 5], Char.ofNat 110), List.toFinset [2, 3, 5]),
   ((List.toFinset [2, 3, 5], Char.ofNat 111), List.toFinset [2, 3, 5]),
   ((List.toFinset [2, 3, 5], Char.ofNat 112), List.toFinset [2, 3, 5]),
   ((List.toFinset [2, 3, 5], Char.ofNat 113), List.toFinset [2, 3, 5]),
   ((List.toFinset [2, 3, 5], Char.ofNat 114), List.toFinset [2, 3, 5]),
   ((List.toFinset [2, 3, 5], Char.ofNat 115), List.toFinset [2, 3, 5]),
   ((List.toFinset [2, 3, 5], Char.ofNat 116), List.toFinset [2, 3, 5]),
   ((List.toFinset [2, 3, 5], Char.ofNat 117), List.toFinset [2, 3, 5]),
   ((List.toFinset [2, 3, 5], Char.ofNat 118), List.toFinset [2, 3, 5]),
   ((List.toFinset [2, 3, 5], Char.ofNat 119), List.toFinset [2, 3, 5]),
   ((List.toFinset [2, 3, 5], Char.ofNat 120), List.toFinset [2, 3, 5]),
   ((List.toFinset [2, 3, 5], Char.ofNat 121), List.toFinset [2, 3, 5]),
   ((List.toFinset [2, 3, 5], Char.ofNat 122), List.toFinset [2, 3, 5])],
  3, List.toFinset [0]⟩,
  ⟨⟨[⟨[(Char.ofNat 65, 1), (Char.ofNat 66, 1), (Char.ofNat 67, 1), (Char.ofNat 68, 1), (Char.ofNat 69, 1), (Char.ofNat 70, 1), (Char.ofNat 71, 1), (Char.ofNat 72, 1), (Char.ofNat 73, 1), (Char.ofNat 74, 1), (Char.ofNat 75, 1), (Char.ofNat 76, 1), (Char.ofNat 77, 1), (Char.ofNat 78, 1), (Char.ofNat 79, 1), (Char.ofNat 80, 1), (Char.ofNat 81, 1), (Char.ofNat 82, 1), (Char.ofNat 83, 1), (Char.ofNat 84, 1), (Char.ofNat 85, 1), (Char.ofNat 86, 1), (Char.ofNat 87, 1), (Char.ofNat 88, 1), (Char.ofNat 89, 1), (Char.ofNat 90, 1), (Char.ofNat 95, 1), (Char.ofNat 97, 1), (Char.ofNat 98, 1), (Char.ofNat 99, 1), (Char.ofNat 100, 1), (Char.ofNat 101, 1), (Char.ofNat 102, 1), (Char.ofNat 103, 1), (Char.ofNat 104, 1), (Char.ofNat 105, 1), (Char.ofNat 106, 1), (Char.ofNat 107, 1), (Char.ofNat 108, 1), (Char.ofNat 109, 1), (Char.ofNat 110, 1), (Char.ofNat 111, 1), (Char.ofNat 112, 1), (Char.ofNat 113, 1), (Char.ofNat 114, 1), (Char.ofNat 115, 1), (Char.ofNat 116, 1), (Char.ofNat 117, 1), (Char.ofNat 118, 1), (Char.ofNat 119, 1), (Char.ofNat 120, 1), (Char.ofNat 121, 1), (Char.ofNat 122, 1)], false⟩, ⟨[(Char.ofNat 0, 4)], false⟩, ⟨[(Char.ofNat 48, 3), (Char.ofNat 49, 3), (Char.ofNat 50, 3), (Char.ofNat 51, 3), (Char.ofNat 52, 3), (Char.ofNat 53, 3), (Char.ofNat 54, 3), (Char.ofNat 55, 3), (Char.ofNat 56, 3), (Char.ofNat 57, 3), (Char.ofNat 65, 3), (Char.ofNat 66, 3), (Char.ofNat 67, 3), (Char.ofNat 68, 3), (Char.ofNat 69, 3), (Char.ofNat 70, 3), (Char.ofNat 71, 3), (Char.ofNat 72, 3), (Char.ofNat 73, 3), (Char.ofNat 74, 3), (Char.ofNat 75, 3), (Char.ofNat 76, 3), (Char.ofNat 77, 3), (Char.ofNat 78, 3), (Char.ofNat 79, 3), (Char.ofNat 80, 3), (Char.ofNat 81, 3), (Char.ofNat 82, 3), (Char.ofNat 83, 3), (Char.ofNat 84, 3), (Char.ofNat 85, 3), (Char.ofNat 86, 3), (Char.ofNat 87, 3), (Char.ofNat 88, 3), (Char.ofNat 89, 3), (Char.ofNat 90, 3), (Char.ofNat 95, 3), (Char.ofNat 97, 3), (Char.ofNat 98, 3), (Char.ofNat 99, 3), (Char.ofNat 100, 3), (Char.ofNat 101, 3), (Char.ofNat 102, 3), (Char.ofNat 103, 3), (Char.ofNat 104, 3), (Char.ofNat 105, 3), (Char.ofNat 106, 3), (Char.ofNat 107, 3), (Char.ofNat 108, 3), (Char.ofNat 109, 3), (Char.ofNat 110, 3), (Char.ofNat 111, 3), (Char.ofNat 112, 3), (Char.ofNat 113, 3), (Char.ofNat 114, 3), (Char.ofNat 115, 3), (Char.ofNat 116, 3), (Char.ofNat 117, 3), (Char.ofNat 118, 3), (Char.ofNat 119, 3), (Char.ofNat 120, 3), (Char.ofNat 121, 3), (Char.ofNat 122, 3)], false⟩, ⟨[(Char.ofNat 0, 2), (Char.ofNat 0, 5)], false⟩, ⟨[(Char.ofNat 0, 2), (Char.ofNat 0, 5)], false⟩, ⟨[], true⟩, ⟨[(Char.ofNat 48, 7), (Char.ofNat 49, 7), (Char.ofNat 50, 7), (Char.ofNat 51, 7), (Char.ofNat 52, 7), (Char.ofNat 53, 7), (Char.ofNat 54, 7), (Char.ofNat 55, 7), (Char.ofNat 56, 7), (Char.ofNat 57, 7)], false⟩, ⟨[(Char.ofNat 0, 6), (Char.ofNat 0, 9), (Char.ofNat 0, 8)], false⟩, ⟨[(Char.ofNat 0, 6), (Char.ofNat 0, 9)], false⟩, ⟨[(Char.ofNat 0, 16)], false⟩, ⟨[(Char.ofNat 46, 11)], false⟩, ⟨[(Char.ofNat 0, 12)], false⟩, ⟨[(Char.ofNat 48, 13), (Char.ofNat 49, 13), (Char.ofNat 50, 13), (Char.ofNat 51, 13), (Char.ofNat 52, 13), (Char.ofNat 53, 13), (Char.ofNat 54, 13), (Char.ofNat 55, 13), (Char.ofNat 56, 13), (Char.ofNat 57, 13)], false⟩, ⟨[(Char.ofNat 0, 12), (Char.ofNat 0, 15), (Char.ofNat 0, 14)], false⟩, ⟨[(Char.ofNat 0, 12), (Char.ofNat 0, 15)], false⟩, ⟨[(Char.ofNat 0, 17)], false⟩, ⟨[(Char.ofNat 0, 10), (Char.ofNat 0, 17)], false⟩, ⟨[], true⟩]⟩,
  [(List.toFinset [6], 0), (List.toFinset [6, 7, 8, 9, 10, 16, 17], 1), (List.toFinset [11, 12], 2), (List.toFinset [12, 13, 14, 15, 17], 3)],
  [((List.toFinset [6], Char.ofNat 48), List.toFinset [6, 7, 8, 9, 10, 16, 17]),
   ((List.toFinset [6], Char.ofNat 49), List.toFinset [6, 7, 8, 9, 10, 16, 17]),
   ((List.toFinset [6], Char.ofNat 50), List.toFinset [6, 7, 8, 9, 10, 16, 17]),
   ((List.toFinset [6], Char.ofNat 51), List.toFinset [6, 7, 8, 9, 10, 16, 17]),
   ((List.toFinset [6], Char.ofNat 52), List.toFinset [6, 7, 8, 9, 10, 16, 17]),
   ((List.toFinset [6], Char.ofNat 53), List.toFinset [6, 7, 8, 9, 10, 16, 17]),
   ((List.toFinset [6], Char.ofNat 54), List.toFinset [6, 7, 8, 9, 10, 16, 17]),
   ((List.toFinset [6], Char.ofNat 55), List.toFinset [6, 7, 8, 9, 10, 16, 17]),
   ((List.toFinset [6], Char.ofNat 56), List.toFinset [6, 7, 8, 9, 10, 16, 17]),
   ((List.toFinset [6], Char.ofNat 57), List.toFinset [6, 7, 8, 9, 10, 16, 17]),
   ((List.toFinset [6, 7, 8, 9, 10, 16, 17], Char.ofNat 46), List.toFinset [11, 12]),
   ((List.toFinset [6, 7, 8, 9, 10, 16, 17], Char.ofNat 48), List.toFinset [6, 7, 8, 9, 10, 16, 17]),
   ((List.toFinset [6, 7, 8, 9, 10, 16, 17], Char.ofNat 49), List.toFinset [6, 7, 8, 9, 10, 16, 17]),
   ((List.toFinset [6, 7, 8, 9, 10, 16, 17], Char.ofNat 50), List.toFinset [6, 7, 8, 9, 10, 16, 17]),
   ((List.toFinset [6, 7, 8, 9, 10, 16, 17], Char.ofNat 51), List.toFinset [6, 7, 8, 9, 10, 16, 17]),
   ((List.toFinset [6, 7, 8, 9, 10, 16, 17], Char.ofNat 52), List.toFinset [6, 7, 8, 9, 10, 16, 17]),
   ((List.toFinset [6, 7, 8, 9, 10, 16, 17], Char.ofNat 53), List.toFinset [6, 7, 8, 9, 10, 16, 17]),
   ((List.toFinset [6, 7, 8, 9, 10, 16, 17], Char.ofNat 54), List.toFinset [6, 7, 8, 9, 10, 16, 17]),
   ((List.toFinset [6, 7, 8, 9, 10, 16, 17], Char.ofNat 55), List.toFinset [6, 7, 8, 9, 10, 16, 17]),
   ((List.toFinset [6, 7, 8, 9, 10, 16, 17], Char.ofNat 56), List.toFinset [6, 7, 8, 9, 10, 16, 17]),
   ((List.toFinset [6, 7, 8, 9, 10, 16, 17], Char.ofNat 57), List.toFinset [6, 7, 8, 9, 10, 16, 17]),
   ((List.toFinset [11, 12], Char.ofNat 48), List.toFinset [12, 13, 14, 15, 17]),
   ((List.toFinset [11, 12], Char.ofNat 49), List.toFinset [12, 13, 14, 15, 17]),
   ((List.toFinset [11, 12], Char.ofNat 50), List.toFinset [12, 13, 14, 15, 17]),
   ((List.toFinset [11, 12], Char.ofNat 51), List.toFinset [12, 13, 14, 15, 17]),
   ((List.toFinset [11, 12], Char.ofNat 52), List.toFinset [12, 13, 14, 15, 17]),
   ((List.toFinset [11, 12], Char.ofNat 53), List.toFinset [12, 13, 14, 15, 17]),
   ((List.toFinset [11, 12], Char.ofNat 54), List.toFinset [12, 13, 14, 15, 17]),
   ((List.toFinset [11, 12], Char.ofNat 55), List.toFinset [12, 13, 14, 15, 17]),
   ((List.toFinset [11, 12], Char.ofNat 56), List.toFinset [12, 13, 14, 15, 17]),
   ((List.toFinset [11, 12], Char.ofNat 57), List.toFinset [12, 13, 14, 15, 17]),
   ((List.toFinset [12, 13, 14, 15, 17], Char.ofNat 48), List.toFinset [12, 13, 14, 15, 17]),
   ((List.toFinset [12, 13, 14, 15, 17], Char.ofNat 49), List.toFinset [12, 13, 14, 15, 17]),
   ((List.toFinset [12, 13, 14, 15, 17], Char.ofNat 50), List.toFinset [12, 13, 14, 15, 17]),
   ((List.toFinset [12, 13, 14, 15, 17], Char.ofNat 51), List.toFinset [12, 13, 14, 15, 17]),
   ((List.toFinset [12, 13, 14, 15, 17], Char.ofNat 52), List.toFinset [12, 13, 14, 15, 17]),
   ((List.toFinset [12, 13, 14, 15, 17], Char.ofNat 53), List.toFinset [12, 13, 14, 15, 17]),
   ((List.toFinset [12, 13, 14, 15, 17], Char.ofNat 54), List.toFinset [12, 13, 14, 15, 17]),
   ((List.toFinset [12, 13, 14, 15, 17], Char.ofNat 55), List.toFinset [12, 13, 14, 15, 17]),
   ((List.toFinset [12, 13, 14, 15, 17], Char.ofNat 56), List.toFinset [12, 13, 14, 15, 17]),
   ((List.toFinset [12, 13, 14, 15, 17], Char.ofNat 57), List.toFinset [12, 13, 14, 15, 17])],
  4, List.toFinset [6]⟩⟩

theorem mkLexer_fields :
    (match Lexer.mkLexer with
      | .ok ld =>
        decide (ld.identifierDFA.bld = ldLit.identifierDFA.bld) &&
        decide (ld.identifierDFA.memo = ldLit.identifierDFA.memo) &&
        decide (ld.identifierDFA.table = ldLit.identifierDFA.table) &&
        decide (ld.identifierDFA.counter = ldLit.identifierDFA.counter) &&
        decide (ld.identifierDFA.startS = ldLit.identifierDFA.startS) &&
        decide (ld.numberDFA.bld = ldLit.numberDFA.bld) &&
        decide (ld.numberDFA.memo = ldLit.numberDFA.memo) &&
        decide (ld.numberDFA.table = ldLit.numberDFA.table) &&
        decide (ld.numberDFA.counter = ldLit.numberDFA.counter) &&
        decide (ld.numberDFA.startS = ldLit.numberDFA.startS)
      | .error _ => false) = true := by decide

/-- `mkLexer` succeeds and produces exactly the literal `ldLit`. -/
theorem mkLexer_eq : Lexer.mkLexer = Except.ok ldLit := by
  have h := mkLexer_fields
  rcases he : Lexer.mkLexer with e | ld
  · rw [he] at h
    simp at h
  · rw [he] at h
    simp only [Bool.and_eq_true, decide_eq_true_eq] at h
    obtain ⟨⟨⟨⟨⟨⟨⟨⟨⟨h1, h2⟩, h3⟩, h4⟩, h5⟩, h6⟩, h7⟩, h8⟩, h9⟩, h10⟩ := h
    rcases ld with ⟨⟨b1, m1, t1, c1, s1⟩, ⟨b2, m2, t2, c2, s2⟩⟩
    simp only at h1 h2 h3 h4 h5 h6 h7 h8 h9 h10
    subst h1; subst h2; subst h3; subst h4; subst h5
    subst h6; subst h7; subst h8; subst h9; subst h10
    rfl

/-- The token stream of the example input on the built lexer. -/
theorem toks_c7 :
    Lexer.tokenizeFuel ldLit "x = 1 + (2 * y)".toList.length 0 "x = 1 + (2 * y)".toList
      = [⟨.IDENTIFIER, ['x'], 0⟩, ⟨.ASSIGN, ['='], 2⟩, ⟨.NUMBER, ['1'], 4⟩,
         ⟨.OPERATOR, ['+'], 6⟩, ⟨.LPAREN, ['('], 8⟩, ⟨.NUMBER, ['2'], 9⟩,
         ⟨.OPERATOR, ['*'], 11⟩, ⟨.IDENTIFIER, ['y'], 13⟩, ⟨.RPAREN, [')'], 14⟩,
         ⟨.END_OF_INPUT, [], 15⟩] := by decide

set_option maxHeartbeats 2000000 in
open Lexer PDA in
/-- C7: on the built arithmetic lexer, tokenizing `"x = 1 + (2 * y)"`
yields exactly the kinds IDENTIFIER, ASSIGN, NUMBER, OPERATOR, LPAREN,
NUMBER, OPERATOR, IDENTIFIER, RPAREN, END_OF_INPUT in order, and
`PDA::parse` accepts the stream. -/
theorem c7_example_expression :
    Lexer.mkLexer.toOption.map (fun ld =>
        ((Lexer.tokenize ld "x = 1 + (2 * y)".toList).map (fun t => t.type),
          (PDA.parse (Lexer.tokenize ld "x = 1 + (2 * y)".toList)).1))
      = some ([TokenType.IDENTIFIER, TokenType.ASSIGN, TokenType.NUMBER, TokenType.OPERATOR,
          TokenType.LPAREN, TokenType.NUMBER, TokenType.OPERATOR, TokenType.IDENTIFIER,
          TokenType.RPAREN, TokenType.END_OF_INPUT], true) := by
  rw [mkLexer_eq]
  simp only [Except.toOption, Option.map]
  rw [Lexer.tokenize_fuel_spec, toks_c7, PDA.parse_fuel_spec]
  decide

set_option maxRecDepth 512

namespace ChessLexer

open ChessNFA

/-- The selection fold of `tryMatchLongest`: starting from the seed, the
result never shrinks, it sits in the list after exactly the candidates
that are strictly shorter than it, and every later candidate is at most
as long — i.e. it is the first candidate of maximal length. -/
theorem pickFold_spec :
    ∀ (cs : List (ChessTokenType × List Char)) (c : ChessTokenType × List Char),
      c.2.length ≤ (cs.foldl (fun longest candidate =>
          if candidate.2.length > longest.2.length then candidate else longest) c).2.length ∧
      ∃ l1 l2, c :: cs = l1 ++ (cs.foldl (fun longest candidate =>
            if candidate.2.length > longest.2.length then candidate else longest) c) :: l2 ∧
        (∀ y ∈ l1, y.2.length < (cs.foldl (fun longest candidate =>
            if candidate.2.length > longest.2.length then candidate else longest) c).2.length) ∧
        (∀ y ∈ l2, y.2.length ≤ (cs.foldl (fun longest candidate =>
            if candidate.2.length > longest.2.length then candidate else longest) c).2.length) := by
  intro cs
  induction cs with
  | nil =>
    intro c
    refine ⟨le_refl _, [], [], rfl, ?_, ?_⟩ <;> simp
  | cons d ds ih =>
    intro c
    rw [List.foldl_cons]
    by_cases h : d.2.length > c.2.length
    · simp only [if_pos h]
      obtain ⟨hle, l1, l2, hdec, hlt, hle2⟩ := ih d
      refine ⟨by omega, c :: l1, l2, ?_, ?_, hle2⟩
      · rw [List.cons_append, ← hdec]
      · intro y hy
        rcases List.mem_cons.mp hy with rfl | hy
        · omega
        · exact hlt y hy
    · simp only [if_neg h]
      obtain ⟨hle, l1, l2, hdec, hlt, hle2⟩ := ih c
      cases l1 with
      | nil =>
        simp only [List.nil_append] at hdec
        injection hdec with hX hds
        refine ⟨hle, [], d :: ds, ?_, ?_, ?_⟩
        · simp [← hX]
        · simp
        · intro y hy
          rcases List.mem_cons.mp hy with rfl | hy
          · rw [← hX]
            omega
          · rw [hds] at hy
            exact hle2 y hy
      | cons a l1' =>
        simp only [List.cons_append, List.cons.injEq] at hdec
        obtain ⟨hca, hds⟩ := hdec
        subst hca
        refine ⟨hle, c :: d :: l1', l2, ?_, ?_, hle2⟩
        · exact congrArg (fun t => c :: d :: t) hds
        · intro y hy
          have hcx : c.2.length < (List.foldl (fun longest candidate =>
              if candidate.2.length > longest.2.length then candidate else longest) c
                ds).2.length := hlt c (List.mem_cons_self _ _)
          rcases List.mem_cons.mp hy with rfl | hy
          · exact hcx
          · rcases List.mem_cons.mp hy with rfl | hy
            · omega
            · exact hlt y (List.mem_cons_of_mem _ hy)

/-- `pickLongest` returns the first candidate of maximal matched length. -/
theorem pickLongest_first_max (l : List (ChessTokenType × List Char))
    (x : ChessTokenType × List Char) (hx : pickLongest l = some x) :
    ∃ l1 l2, l = l1 ++ x :: l2 ∧ (∀ y ∈ l1, y.2.length < x.2.length) ∧
      (∀ y ∈ l2, y.2.length ≤ x.2.length) := by
  match l with
  | [] => cases hx
  | c :: cs =>
    rw [pickLongest] at hx
    injection hx with hx
    subst hx
    exact (pickFold_spec cs c).2

end ChessLexer

set_option maxRecDepth 100000 in
/-- The token stream of `"identifier123"` on the built lexer: one
IDENTIFIER token carrying the whole text. -/
theorem toks_c8 :
    Lexer.tokenizeFuel ldLit "identifier123".toList.length 0 "identifier123".toList
      = [⟨.IDENTIFIER, "identifier123".toList, 0⟩, ⟨.END_OF_INPUT, [], 13⟩] := by decide

open ChessNFA ChessLexer Lexer in
/-- C8: `tryMatchLongest` emits the candidate of greatest matched length
among the accepting DFAs, ties broken in favour of the earliest candidate
in the fixed `testDFAPattern` call order (the result is preceded in the
candidate list exactly by the strictly shorter candidates and followed
only by ones at most as long); and on the Final.cpp lexer the input
`"identifier123"` is emitted as a single IDENTIFIER token carrying the
full text, not a shorter prefix. -/
theorem c8_longest_match :
    (∀ (l : List (ChessTokenType × List Char)) (x : ChessTokenType × List Char),
        ChessLexer.pickLongest l = some x →
        ∃ l1 l2, l = l1 ++ x :: l2 ∧ (∀ y ∈ l1, y.2.length < x.2.length) ∧
          (∀ y ∈ l2, y.2.length ≤ x.2.length)) ∧
    (∀ (ld : ChessLexerData) (rest : List Char) (p : Int) (x : ChessTokenType × List Char),
        ChessLexer.pickLongest (ChessLexer.candidateList ld rest) = some x →
        ChessLexer.tryMatchLongest ld rest p = ⟨x.1, x.2, p⟩) ∧
    Lexer.mkLexer.toOption.map (fun ld => Lexer.tokenize ld "identifier123".toList)
      = some [⟨TokenType.IDENTIFIER, "identifier123".toList, 0⟩,
              ⟨TokenType.END_OF_INPUT, [], 13⟩] := by
  refine ⟨pickLongest_first_max, ?_, ?_⟩
  · intro ld rest p x hx
    rw [tryMatchLongest, hx]
  · rw [mkLexer_eq]
    simp only [Except.toOption, Option.map]
    rw [Lexer.tokenize_fuel_spec, toks_c8]

open ChessNFA ChessLexer in
/-- C8, witness: on the two-candidate list where the first candidate is
strictly longer, `pickLongest` keeps the first; the decomposition places
it at the head with the shorter candidate after it. -/
theorem c8_longest_match_witness :
    ∃ l1 l2, [(ChessTokenType.MOVE_NUMBER, ['1', '.']), (ChessTokenType.RESULT, ['1'])]
        = l1 ++ (ChessTokenType.MOVE_NUMBER, ['1', '.']) :: l2 ∧
      (∀ y ∈ l1, y.2.length < (['1', '.'] : List Char).length) ∧
      (∀ y ∈ l2, y.2.length ≤ (['1', '.'] : List Char).length) :=
  c8_longest_match.1 [(ChessTokenType.MOVE_NUMBER, ['1', '.']), (ChessTokenType.RESULT, ['1'])]
    (ChessTokenType.MOVE_NUMBER, ['1', '.']) (by decide)
